import Mathlib

/-!
# ccdeck: the session controller, its store and the tmux name sanitizer

A shallow embedding of `internal/tmux/tmux.go` (SanitizeName),
`internal/model/store.go` (the in-memory store) and `internal/tui/app.go`
(the bubbletea model: tree navigation, dialogs, interact mode, Update).

Conventions.
* A Go `string` is a Lean `String`: a sequence of Unicode code points.  Every
  string this program handles comes from a text input or from a decoded JSON
  document, and both are valid UTF-8.
* A Go `int` is an `Int`.  The indices here are bounded by the length of a slice
  held in memory, so sums and differences of indices do not wrap.  The one sum
  with an operand the caller chooses, `cur + delta` in `moveTree`, is the 64-bit
  sum `wrapInt64 (cur + delta)`.
* A run-time panic (index out of range) is `none`.
* What `Update` reads from outside the model (tmux, the file system, the clock,
  the random source, the text-input widget) is the `Env` of the event.
-/

namespace ccdeck

/-! ## internal/tmux/tmux.go -/

/-- The regular expression `[^a-zA-Z0-9_-]` of `safeNameRe`: whether it matches
the one-character string `c`. -/
def safeNameRe (c : Char) : Bool :=
  !(('a' ≤ c && c ≤ 'z') || ('A' ≤ c && c ≤ 'Z') || ('0' ≤ c && c ≤ '9')
    || c == '_' || c == '-')

/-- The call `safeNameRe.ReplaceAllString(s, repl)` for a one-character
replacement: every match of the class is a single character. -/
def ReplaceAllString (s : List Char) (repl : Char) : List Char :=
  s.map fun c => if safeNameRe c then repl else c

/-- The call `strings.Trim(s, cut)` for a one-character cutset: the leading and
the trailing run of `cut` are removed. -/
def Trim (s : List Char) (cut : Char) : List Char :=
  (s.dropWhile (· == cut)).rdropWhile (· == cut)

/-- SanitizeName converts a group name and a session name into a tmux session
name (tmux.go, lines 13-21). -/
def SanitizeName (group session : String) : String :=
  let name := "claude_" ++ group ++ "_" ++ session
  let name := ReplaceAllString name.data '_'
  let name := Trim name '_'
  String.mk (if name.length > 64 then name.take 64 else name)

/-! ## internal/model -/

/-- A Claude Code session with its project context (types.go). -/
structure Session where
  ID : String
  Name : String
  SessionID : String
  Path : String
  CreatedAt : Nat
deriving DecidableEq, Repr

/-- A group of sessions (types.go). -/
structure Group where
  ID : String
  Name : String
  Sessions : List Session
  CreatedAt : Nat
deriving DecidableEq, Repr

/-- The top-level data structure persisted to disk (types.go). -/
structure AppData where
  Groups : List Group
deriving DecidableEq, Repr

/-- The store (store.go). -/
structure Store where
  path : String
  Data : AppData
deriving DecidableEq, Repr

/-- Indexing `l[i]` with a Go `int`: `none` is the index-out-of-range panic. -/
def index {α : Type} (l : List α) (i : Int) : Option α :=
  if i < 0 then none else l[i.toNat]?

/-- The list `append(l[:i], l[i+1:]...)`. -/
def cut {α : Type} (l : List α) (i : Int) : List α :=
  l.take i.toNat ++ l.drop (i.toNat + 1)

/-- Groups returns all groups. -/
def Store.Groups (s : Store) : List Group := s.Data.Groups

/-- Sessions returns the sessions of a group index (`nil` when out of range). -/
def Store.Sessions (s : Store) (groupIdx : Int) : List Session :=
  if groupIdx < 0 ∨ groupIdx ≥ s.Data.Groups.length then []
  else match s.Data.Groups[groupIdx.toNat]? with
    | some g => g.Sessions
    | none => []

/-- AddGroup creates a new group and returns its index; `id` and `now` are the
results of `genID()` and `time.Now()`. -/
def Store.AddGroup (s : Store) (name id : String) (now : Nat) : Store × Int :=
  let g : Group := { ID := id, Name := name, Sessions := [], CreatedAt := now }
  let groups := s.Data.Groups ++ [g]
  ({ s with Data := { Groups := groups } }, (groups.length : Int) - 1)

/-- DeleteGroup removes a group by index. -/
def Store.DeleteGroup (s : Store) (idx : Int) : Store :=
  if idx < 0 ∨ idx ≥ s.Data.Groups.length then s
  else { s with Data := { Groups := cut s.Data.Groups idx } }

/-- AddSession adds a session to a group and returns the session index. -/
def Store.AddSession (s : Store) (groupIdx : Int) (name sessionID path id : String)
    (now : Nat) : Store × Int :=
  if groupIdx < 0 ∨ groupIdx ≥ s.Data.Groups.length then (s, -1)
  else
    let sess : Session :=
      { ID := id, Name := name, SessionID := sessionID, Path := path, CreatedAt := now }
    match s.Data.Groups[groupIdx.toNat]? with
    | some g =>
      let g1 : Group := { g with Sessions := g.Sessions ++ [sess] }
      ({ s with Data := { Groups := s.Data.Groups.set groupIdx.toNat g1 } },
        (g1.Sessions.length : Int) - 1)
    | none => (s, -1)

/-- DeleteSession removes a session from a group by indices. -/
def Store.DeleteSession (s : Store) (groupIdx sessIdx : Int) : Store :=
  if groupIdx < 0 ∨ groupIdx ≥ s.Data.Groups.length then s
  else match s.Data.Groups[groupIdx.toNat]? with
    | some g =>
      if sessIdx < 0 ∨ sessIdx ≥ g.Sessions.length then s
      else
        let g1 : Group := { g with Sessions := cut g.Sessions sessIdx }
        { s with Data := { Groups := s.Data.Groups.set groupIdx.toNat g1 } }
    | none => s

/-! ## bubbletea and bubbles: key messages, bindings, text inputs -/

/-- The key types of bubbletea.  Every key type other than `KeyRunes` has its own
entry in bubbletea's `keyNames` table and no two entries are equal, so such a
key type is given by its name (`KeyEnter` is `KeyNamed "enter"`). -/
inductive KeyType where
  | KeyRunes
  | KeyNamed (name : String)
deriving DecidableEq, Repr

/-- The key type of the Enter key. -/
def KeyEnter : KeyType := .KeyNamed "enter"
/-- The key type of the Tab key. -/
def KeyTab : KeyType := .KeyNamed "tab"
/-- The key type of Shift+Tab. -/
def KeyShiftTab : KeyType := .KeyNamed "shift+tab"
/-- The key type of the Escape key. -/
def KeyEsc : KeyType := .KeyNamed "esc"
/-- The key type of the space bar (its name in `keyNames` is one blank). -/
def KeySpace : KeyType := .KeyNamed " "

/-- A key message of bubbletea (`tea.KeyMsg`). -/
structure KeyMsg where
  Typ : KeyType
  Runes : List Char
  Alt : Bool
  Paste : Bool
deriving DecidableEq, Repr

/-- The method `String()` of a key message, as in bubbletea: `alt+` when the
alt modifier is set, then the runes (in brackets when pasted) or the name of
the key type. -/
def KeyMsg.String (k : KeyMsg) : String :=
  (if k.Alt then "alt+" else "") ++
    (match k.Typ with
     | .KeyRunes =>
       (if k.Paste then "[" else "") ++ String.mk k.Runes ++ (if k.Paste then "]" else "")
     | .KeyNamed name => name)

/-- A key binding: the key strings it answers to (all bindings of this program
are enabled). -/
structure Binding where
  Keys : List String
deriving DecidableEq, Repr

/-- The function `key.Matches(msg, b)`. -/
def Matches (msg : KeyMsg) (b : Binding) : Bool :=
  b.Keys.contains msg.String

/-- The key map of keys.go. -/
structure keyMap where
  Up : Binding
  Down : Binding
  Tab : Binding
  Enter : Binding
  NewSess : Binding
  NewGrp : Binding
  Delete : Binding
  Rename : Binding
  Interact : Binding
  FullTmux : Binding
  Quit : Binding
  Help : Binding
  Escape : Binding
  Yes : Binding
  No : Binding

/-- The bindings of keys.go, lines 23-84. -/
def keys : keyMap where
  Up := ⟨["up", "k"]⟩
  Down := ⟨["down", "j"]⟩
  Tab := ⟨["tab"]⟩
  Enter := ⟨["enter"]⟩
  NewSess := ⟨["n"]⟩
  NewGrp := ⟨["g"]⟩
  Delete := ⟨["d"]⟩
  Rename := ⟨["r"]⟩
  Interact := ⟨["i"]⟩
  FullTmux := ⟨["f"]⟩
  Quit := ⟨["q", "ctrl+c"]⟩
  Help := ⟨["?"]⟩
  Escape := ⟨["esc"]⟩
  Yes := ⟨["y"]⟩
  No := ⟨["n"]⟩

/-- The text input of the bubbles library, reduced to what the controller sets
and reads: the placeholder, the width, the character limit, the value and the
focus flag. -/
structure TextInput where
  Placeholder : String
  Width : Int
  CharLimit : Int
  value : String
  focus : Bool
deriving DecidableEq, Repr

/-- The method `Value()`. -/
def TextInput.Value (t : TextInput) : String := t.value
/-- The method `Focus()`. -/
def TextInput.Focus (t : TextInput) : TextInput := { t with focus := true }
/-- The method `Blur()`. -/
def TextInput.Blur (t : TextInput) : TextInput := { t with focus := false }

/-- The helper newInput of app.go, lines 1035-1043 (its first argument is not
used by the source either; the two styles are left out). -/
def newInput (_placeholder hint : String) (width : Int) : TextInput :=
  { Placeholder := hint, Width := width, CharLimit := 256, value := "", focus := false }

/-! ## internal/tui/app.go: types -/

/-- The panel that has the focus. -/
inductive focusPanel where
  | panelTree
  | panelPreview
deriving DecidableEq, Repr

/-- The dialog that is open. -/
inductive dialogMode where
  | dialogNone
  | dialogNewGroup
  | dialogNewSession
  | dialogDeleteConfirm
  | dialogRename
deriving DecidableEq, Repr

/-- A position in the tree: a group header (`sessionIdx = -1`) or a session. -/
structure treePos where
  groupIdx : Int
  sessionIdx : Int
deriving DecidableEq, Repr

/-- The commands `Update` hands back to the bubbletea runtime. -/
inductive Cmd where
  | nil
  | Quit
  | Blink
  | scheduleRefresh
  | sendTextCmd (tn text : String)
  | sendSpecialCmd (tn keyName : String)
  | ExecProcess (attachTo : String)
  | textinput (code : Nat)
deriving DecidableEq, Repr

/-- The calls `Update` itself makes to tmux and to the file system while it
handles one event. -/
inductive Call where
  | SessionExists (name : String)
  | NewSession (name workdir claudeSessionID : String)
  | Save
deriving DecidableEq, Repr

/-- The table tmuxSpecialKeys of app.go, lines 54-63. -/
def tmuxSpecialKeys : List (String × String) :=
  [("enter", "Enter"), ("backspace", "BSpace"), ("tab", "Tab"),
   ("shift+tab", "BTab"), ("esc", "Escape"),
   ("up", "Up"), ("down", "Down"), ("left", "Left"), ("right", "Right"),
   ("delete", "DC"), ("home", "Home"), ("end", "End"),
   ("pgup", "PPage"), ("pgdown", "NPage"), ("insert", "IC"),
   ("f1", "F1"), ("f2", "F2"), ("f3", "F3"), ("f4", "F4"),
   ("f5", "F5"), ("f6", "F6"), ("f7", "F7"), ("f8", "F8"),
   ("f9", "F9"), ("f10", "F10"), ("f11", "F11"), ("f12", "F12")]

/-- The model of the TUI (app.go, lines 70-97). -/
structure Model where
  store : Store
  focus : focusPanel
  groupIdx : Int
  sessionIdx : Int
  expanded : Int → Bool
  dialog : dialogMode
  inputs : List TextInput
  inputIdx : Int
  deleteTarget : String
  interactMode : Bool
  previewContent : String
  width : Int
  height : Int
  statusMsg : String
  err : Option String
  tmuxSessions : String → Bool

/-- What one call of `Update` reads from outside the model: the answers of tmux
(`SessionExists`, `NewSession` with the text of its error), the outcome of
`Store.Save` (the text of its error), the results of `genID()`, `time.Now()`
and `os.UserHomeDir()`, and the behaviour of the text-input widget
(`SetValue`, `Update`). -/
structure Env where
  SessionExists : String → Bool
  NewSession : String → String → String → Option String
  Save : Option String
  genID : String
  now : Nat
  UserHomeDir : Option String
  SetValue : TextInput → String → TextInput
  InputUpdate : TextInput → KeyMsg → TextInput × Cmd

/-- What one call of `Update` produces: the next model, the command for the
runtime and the calls made on the way. -/
structure Outcome where
  model : Model
  cmd : Cmd
  calls : List Call

/-- The messages `Update` receives. -/
inductive Msg where
  | WindowSizeMsg (Width Height : Int)
  | refreshMsg (sessions : String → Bool) (content : String)
  | sendDoneMsg (err : Option String)
  | tmuxExitMsg (err : Option String)
  | KeyMsg (k : KeyMsg)
  | other

/-! ## Go library functions on strings -/

/-- The function `unicode.IsSpace`: the white-space characters trimmed by
`strings.TrimSpace`. -/
def isSpace (c : Char) : Bool :=
  let n := c.toNat
  n == 0x09 || n == 0x0A || n == 0x0B || n == 0x0C || n == 0x0D || n == 0x20
    || n == 0x85 || n == 0xA0 || n == 0x1680 || (0x2000 ≤ n && n ≤ 0x200A)
    || n == 0x2028 || n == 0x2029 || n == 0x202F || n == 0x205F || n == 0x3000

/-- The function `strings.TrimSpace`. -/
def TrimSpace (s : String) : String :=
  String.mk ((s.data.dropWhile isSpace).rdropWhile isSpace)

/-- The function `strings.HasPrefix(s, p)`. -/
def HasPrefix (s p : String) : Bool := p.data.isPrefixOf s.data

/-- The function `strings.TrimPrefix(s, p)`. -/
def TrimPrefix (s p : String) : String :=
  if HasPrefix s p then String.mk (s.data.drop p.data.length) else s

/-- The helper expandPath of app.go, lines 1045-1052. -/
def expandPath (env : Env) (path : String) : String :=
  if HasPrefix path "~/" then
    match env.UserHomeDir with
    | some home => home ++ String.mk (path.data.drop 1)
    | none => path
  else path

/-! ## internal/tui/app.go: the model -/

/-- New creates a new TUI model (app.go, lines 100-111): every group index of the
store is marked expanded, the cursor is on the header of group 0. -/
def New (store : Store) : Model :=
  let exp := (List.range store.Groups.length).foldl
    (fun (e : Int → Bool) (i : Nat) => Function.update e (i : Int) true) (fun _ => false)
  { store := store, focus := .panelTree, groupIdx := 0, sessionIdx := -1,
    expanded := exp, dialog := .dialogNone, inputs := [], inputIdx := 0,
    deleteTarget := "", interactMode := false, previewContent := "",
    width := 0, height := 0, statusMsg := "", err := none,
    tmuxSessions := fun _ => false }

/-- Whether the cursor is on a group header (not a session). -/
def Model.onGroupHeader (m : Model) : Bool := decide (m.sessionIdx < 0)

/-- The tmux name of the selected session, the empty string when no session is
selected (app.go, lines 149-159). -/
def Model.selectedTmuxName (m : Model) : Option String :=
  let groups := m.store.Groups
  if m.groupIdx ≥ groups.length ∨ m.sessionIdx < 0 then some ""
  else
    match index groups m.groupIdx with
    | none => none
    | some g =>
      let ss := g.Sessions
      if m.sessionIdx ≥ ss.length then some ""
      else
        match index ss m.sessionIdx with
        | none => none
        | some s => some (SanitizeName g.Name s.Name)

/-- The inner loop of buildTree: the sessions `0 .. n-1` of group `gi` are
appended to the tree. -/
def buildTree.sessions (gi : Int) (n : Nat) (tree : List treePos) : List treePos :=
  (List.range n).foldl (fun (t : List treePos) (si : Nat) => t ++ [⟨gi, (si : Int)⟩]) tree

/-- The flattened tree (app.go, lines 165-176): for each group its header and,
when the group is expanded, its sessions. -/
def Model.buildTree (m : Model) : List treePos :=
  m.store.Groups.enum.foldl
    (fun tree p =>
      let tree := tree ++ [⟨(p.1 : Int), -1⟩]
      if m.expanded (p.1 : Int) then buildTree.sessions (p.1 : Int) p.2.Sessions.length tree
      else tree)
    []

/-- The loop of currentTreeIdx over the positions from index `i` on. -/
def currentTreeIdx.loop (m : Model) : List treePos → Nat → Int
  | [], _ => 0
  | p :: ps, i =>
    if p.groupIdx = m.groupIdx ∧ p.sessionIdx = m.sessionIdx then (i : Int)
    else currentTreeIdx.loop m ps (i + 1)

/-- The index of the cursor in the flattened tree, 0 when it is not there
(app.go, lines 178-186). -/
def Model.currentTreeIdx (m : Model) : Int :=
  currentTreeIdx.loop m m.buildTree 0

/-- The value of a sum of `int` operands as Go computes it with 64-bit integers:
the mathematical sum `x` wrapped around into the range from `-2^63` to
`2^63 - 1`. -/
def wrapInt64 (x : Int) : Int :=
  (x + 9223372036854775808) % 18446744073709551616 - 9223372036854775808

/-- The method moveTree (app.go, lines 188-203). -/
def Model.moveTree (m : Model) (delta : Int) : Option Model :=
  let tree := m.buildTree
  if tree.length = 0 then some m
  else
    let cur := m.currentTreeIdx
    let next := wrapInt64 (cur + delta)
    let next := if next < 0 then 0 else next
    let next := if next ≥ tree.length then (tree.length : Int) - 1 else next
    match index tree next with
    | none => none
    | some p => some { m with groupIdx := p.groupIdx, sessionIdx := p.sessionIdx }

/-- The method attachSession (app.go, lines 572-594). -/
def Model.attachSession (env : Env) (m : Model) : Option Outcome :=
  let sessions := m.store.Sessions m.groupIdx
  if m.sessionIdx < 0 ∨ m.sessionIdx ≥ sessions.length then some ⟨m, .nil, []⟩
  else
    match index sessions m.sessionIdx, index m.store.Groups m.groupIdx with
    | some sess, some group =>
      let tmuxName := SanitizeName group.Name sess.Name
      if !env.SessionExists tmuxName then
        let path := expandPath env sess.Path
        match env.NewSession tmuxName path sess.SessionID with
        | some err =>
          some ⟨{ m with statusMsg := "Error: " ++ err, err := some err }, .nil,
            [.SessionExists tmuxName, .NewSession tmuxName path sess.SessionID]⟩
        | none =>
          some ⟨m, .ExecProcess tmuxName,
            [.SessionExists tmuxName, .NewSession tmuxName path sess.SessionID]⟩
      else some ⟨m, .ExecProcess tmuxName, [.SessionExists tmuxName]⟩
    | _, _ => none

/-- The case `keys.Enter` of updateNormal (app.go, lines 290-304). -/
def Model.normalEnter (env : Env) (m : Model) : Option Outcome :=
  if m.focus = .panelTree then
    if m.onGroupHeader then
      some ⟨{ m with expanded :=
        Function.update m.expanded m.groupIdx (!m.expanded m.groupIdx) }, .nil, []⟩
    else some ⟨{ m with focus := .panelPreview }, .nil, []⟩
  else if !m.onGroupHeader then m.attachSession env
  else some ⟨m, .nil, []⟩

/-- The case `keys.Interact` of updateNormal (app.go, lines 306-319). -/
def Model.normalInteract (m : Model) : Option Outcome :=
  if m.onGroupHeader then some ⟨m, .nil, []⟩
  else
    match m.selectedTmuxName with
    | none => none
    | some tn =>
      if tn = "" ∨ !m.tmuxSessions tn then
        some ⟨{ m with statusMsg := "Session not running. Press Enter on tree to start." },
          .nil, []⟩
      else
        some ⟨{ m with focus := .panelPreview, interactMode := true, statusMsg := "" },
          .nil, []⟩

/-- The case `keys.NewGrp` of updateNormal (app.go, lines 321-326). -/
def Model.normalNewGrp (m : Model) : Option Outcome :=
  some ⟨{ m with dialog := .dialogNewGroup,
                 inputs := [(newInput "Group name" "e.g. Work" 30).Focus],
                 inputIdx := 0 }, .Blink, []⟩

/-- The case `keys.NewSess` of updateNormal (app.go, lines 328-341). -/
def Model.normalNewSess (m : Model) : Option Outcome :=
  if m.store.Groups.length = 0 then
    some ⟨{ m with statusMsg := "Create a group first (press g)" }, .nil, []⟩
  else
    some ⟨{ m with dialog := .dialogNewSession,
                   inputs := [(newInput "Project path" "~/projects/my-app" 60).Focus,
                              newInput "Session ID / Name" "session id or rename" 60,
                              newInput "Display name (optional)" "e.g. api-refactor" 30],
                   inputIdx := 0 }, .Blink, []⟩

/-- The case `keys.Delete` of updateNormal (app.go, lines 343-354). -/
def Model.normalDelete (m : Model) : Option Outcome :=
  if m.focus ≠ .panelTree ∨ m.store.Groups.length = 0 then some ⟨m, .nil, []⟩
  else if m.onGroupHeader then
    some ⟨{ m with dialog := .dialogDeleteConfirm, deleteTarget := "group" }, .nil, []⟩
  else
    some ⟨{ m with dialog := .dialogDeleteConfirm, deleteTarget := "session" }, .nil, []⟩

/-- The case `keys.Rename` of updateNormal (app.go, lines 356-375); the focus
index is not touched. -/
def Model.normalRename (env : Env) (m : Model) : Option Outcome :=
  if m.focus ≠ .panelTree ∨ m.store.Groups.length = 0 then some ⟨m, .nil, []⟩
  else if m.onGroupHeader then
    match index m.store.Groups m.groupIdx with
    | none => none
    | some g =>
      some ⟨{ m with dialog := .dialogRename, deleteTarget := "group",
                     inputs := [(env.SetValue (newInput "New name" g.Name 30) g.Name).Focus] },
        .Blink, []⟩
  else
    match index (m.store.Sessions m.groupIdx) m.sessionIdx with
    | none => none
    | some s =>
      some ⟨{ m with dialog := .dialogRename, deleteTarget := "session",
                     inputs := [(env.SetValue (newInput "New name" s.Name 30) s.Name).Focus] },
        .Blink, []⟩

/-- The handler of a key in normal mode (app.go, lines 265-379): the switch over
the key bindings, in the order of the source. -/
def Model.updateNormal (env : Env) (m : Model) (msg : KeyMsg) : Option Outcome :=
  if Matches msg keys.Quit then some ⟨m, .Quit, []⟩
  else if Matches msg keys.Tab then
    if m.focus = .panelTree then some ⟨{ m with focus := .panelPreview }, .nil, []⟩
    else some ⟨{ m with focus := .panelTree }, .nil, []⟩
  else if Matches msg keys.Up then
    if m.focus = .panelTree then (m.moveTree (-1)).map fun m1 => ⟨m1, .nil, []⟩
    else some ⟨m, .nil, []⟩
  else if Matches msg keys.Down then
    if m.focus = .panelTree then (m.moveTree 1).map fun m1 => ⟨m1, .nil, []⟩
    else some ⟨m, .nil, []⟩
  else if Matches msg keys.Enter then m.normalEnter env
  else if Matches msg keys.Interact then m.normalInteract
  else if Matches msg keys.NewGrp then m.normalNewGrp
  else if Matches msg keys.NewSess then m.normalNewSess
  else if Matches msg keys.Delete then m.normalDelete
  else if Matches msg keys.Rename then m.normalRename env
  else some ⟨m, .nil, []⟩

/-- The handler of a key in interact mode (app.go, lines 385-417). -/
def Model.updateInteract (m : Model) (msg : KeyMsg) : Option Outcome :=
  match m.selectedTmuxName with
  | none => none
  | some tn =>
    if tn = "" ∨ !m.tmuxSessions tn then
      some ⟨{ m with interactMode := false, statusMsg := "Session ended" }, .nil, []⟩
    else
      let keyStr := msg.String
      if keyStr = "ctrl+q" then
        some ⟨{ m with interactMode := false, statusMsg := "Exited interact mode" }, .nil, []⟩
      else
        match tmuxSpecialKeys.lookup keyStr with
        | some tmuxKey => some ⟨m, .sendSpecialCmd tn tmuxKey, []⟩
        | none =>
          if HasPrefix keyStr "ctrl+" then
            some ⟨m, .sendSpecialCmd tn ("C-" ++ TrimPrefix keyStr "ctrl+"), []⟩
          else if HasPrefix keyStr "alt+" then
            some ⟨m, .sendSpecialCmd tn ("M-" ++ TrimPrefix keyStr "alt+"), []⟩
          else if msg.Typ = .KeyRunes then
            some ⟨m, .sendTextCmd tn (String.mk msg.Runes), []⟩
          else if msg.Typ = KeySpace then
            some ⟨m, .sendTextCmd tn " ", []⟩
          else some ⟨m, .nil, []⟩

/-- The error field after `if err := m.store.Save(); err != nil { m.err = err }`. -/
def saveErr (env : Env) (m : Model) : Option String :=
  match env.Save with
  | some e => some e
  | none => m.err

/-- The assignment `m.store.Data.Groups[gi].Name = name`. -/
def renameGroup (s : Store) (gi : Int) (name : String) : Option Store :=
  match index s.Data.Groups gi with
  | none => none
  | some g =>
    let g1 : Group := { g with Name := name }
    some { s with Data := { Groups := s.Data.Groups.set gi.toNat g1 } }

/-- The assignment `m.store.Data.Groups[gi].Sessions[si].Name = name`. -/
def renameSession (s : Store) (gi si : Int) (name : String) : Option Store :=
  match index s.Data.Groups gi with
  | none => none
  | some g =>
    match index g.Sessions si with
    | none => none
    | some x =>
      let x1 : Session := { x with Name := name }
      let g1 : Group := { g with Sessions := g.Sessions.set si.toNat x1 }
      some { s with Data := { Groups := s.Data.Groups.set gi.toNat g1 } }

/-- The method submitDialog (app.go, lines 479-535). -/
def Model.submitDialog (env : Env) (m : Model) : Option Outcome :=
  match m.dialog with
  | .dialogNewGroup =>
    match index m.inputs 0 with
    | none => none
    | some i0 =>
      let name := TrimSpace i0.Value
      if name = "" then
        some ⟨{ m with statusMsg := "Group name cannot be empty" }, .nil, []⟩
      else
        let r := m.store.AddGroup name env.genID env.now
        some ⟨{ m with store := r.1, err := saveErr env m, groupIdx := r.2, sessionIdx := -1,
                       expanded := Function.update m.expanded r.2 true,
                       statusMsg := "Created group: " ++ name,
                       dialog := .dialogNone, inputs := [] }, .nil, [.Save]⟩
  | .dialogNewSession =>
    match index m.inputs 0, index m.inputs 1, index m.inputs 2 with
    | some i0, some i1, some i2 =>
      let path := TrimSpace i0.Value
      let sessionID := TrimSpace i1.Value
      let displayName := TrimSpace i2.Value
      if path = "" ∨ sessionID = "" then
        some ⟨{ m with statusMsg := "Path and Session ID are required" }, .nil, []⟩
      else
        let displayName := if displayName = "" then sessionID else displayName
        let r := m.store.AddSession m.groupIdx displayName sessionID path env.genID env.now
        some ⟨{ m with store := r.1, err := saveErr env m,
                       expanded := Function.update m.expanded m.groupIdx true,
                       sessionIdx := r.2,
                       statusMsg := "Created session: " ++ displayName,
                       dialog := .dialogNone, inputs := [] }, .nil, [.Save]⟩
    | _, _, _ => none
  | .dialogRename =>
    match index m.inputs 0 with
    | none => none
    | some i0 =>
      let name := TrimSpace i0.Value
      if name = "" then
        some ⟨{ m with statusMsg := "Name cannot be empty" }, .nil, []⟩
      else
        let store :=
          if m.deleteTarget = "group" then renameGroup m.store m.groupIdx name
          else renameSession m.store m.groupIdx m.sessionIdx name
        match store with
        | none => none
        | some st =>
          some ⟨{ m with store := st, err := saveErr env m,
                         statusMsg := "Renamed to: " ++ name,
                         dialog := .dialogNone, inputs := [] }, .nil, [.Save]⟩
  | _ => some ⟨{ m with dialog := .dialogNone, inputs := [] }, .nil, []⟩

/-- The method confirmDelete (app.go, lines 537-566). -/
def Model.confirmDelete (m : Model) : Option Outcome :=
  if m.deleteTarget = "group" then
    match index m.store.Groups m.groupIdx with
    | none => none
    | some g =>
      let store := m.store.DeleteGroup m.groupIdx
      let groupIdx :=
        if store.Groups.length = 0 then 0
        else if m.groupIdx ≥ store.Groups.length then (store.Groups.length : Int) - 1
        else m.groupIdx
      some ⟨{ m with store := store, groupIdx := groupIdx, sessionIdx := -1,
                     statusMsg := "Deleted group: " ++ g.Name,
                     dialog := .dialogNone }, .nil, [.Save]⟩
  else
    let sessions := m.store.Sessions m.groupIdx
    if m.sessionIdx < sessions.length then
      match index sessions m.sessionIdx with
      | none => none
      | some x =>
        let store := m.store.DeleteSession m.groupIdx m.sessionIdx
        let remaining : Int := (store.Sessions m.groupIdx).length
        let sessionIdx :=
          if remaining = 0 then -1
          else if m.sessionIdx ≥ remaining then remaining - 1
          else m.sessionIdx
        some ⟨{ m with store := store, sessionIdx := sessionIdx,
                       statusMsg := "Deleted session: " ++ x.Name,
                       dialog := .dialogNone }, .nil, [.Save]⟩
    else some ⟨{ m with dialog := .dialogNone }, .nil, [.Save]⟩

/-- The focus change of Tab and Shift+Tab in a dialog: the input at `inputIdx`
is blurred, the one at `next` gets the focus. -/
def Model.cycleFocus (m : Model) (next : Int) : Option Outcome :=
  match index m.inputs m.inputIdx with
  | none => none
  | some a =>
    let inputs := m.inputs.set m.inputIdx.toNat a.Blur
    match index inputs next with
    | none => none
    | some b =>
      some ⟨{ m with inputs := inputs.set next.toNat b.Focus, inputIdx := next }, .Blink, []⟩

/-- The handler of a key while a dialog is open (app.go, lines 435-477). -/
def Model.updateDialog (env : Env) (m : Model) (msg : KeyMsg) : Option Outcome :=
  if Matches msg keys.Escape then
    some ⟨{ m with dialog := .dialogNone, inputs := [] }, .nil, []⟩
  else if msg.Typ = KeyTab then
    if m.inputs.length > 1 then
      m.cycleFocus (Int.tmod (m.inputIdx + 1) m.inputs.length)
    else some ⟨m, .nil, []⟩
  else if msg.Typ = KeyShiftTab then
    if m.inputs.length > 1 then
      m.cycleFocus (Int.tmod (m.inputIdx - 1 + m.inputs.length) m.inputs.length)
    else some ⟨m, .nil, []⟩
  else if msg.Typ = KeyEnter then m.submitDialog env
  else if m.dialog = .dialogDeleteConfirm then
    if Matches msg keys.Yes then m.confirmDelete
    else if msg.String = "n" ∨ Matches msg keys.Escape then
      some ⟨{ m with dialog := .dialogNone }, .nil, []⟩
    else some ⟨m, .nil, []⟩
  else if m.inputIdx < m.inputs.length then
    match index m.inputs m.inputIdx with
    | none => none
    | some a =>
      let r := env.InputUpdate a msg
      some ⟨{ m with inputs := m.inputs.set m.inputIdx.toNat r.1 }, r.2, []⟩
  else some ⟨m, .nil, []⟩

/-- The method Update (app.go, lines 224-259). -/
def Model.Update (env : Env) (m : Model) : Msg → Option Outcome
  | .WindowSizeMsg w h => some ⟨{ m with width := w, height := h }, .nil, []⟩
  | .refreshMsg sessions content =>
    some ⟨{ m with tmuxSessions := sessions, previewContent := content }, .scheduleRefresh, []⟩
  | .sendDoneMsg err =>
    match err with
    | some e => some ⟨{ m with statusMsg := "Send failed: " ++ e }, .nil, []⟩
    | none => some ⟨m, .nil, []⟩
  | .tmuxExitMsg err =>
    match err with
    | some e => some ⟨{ m with statusMsg := "tmux exited with error: " ++ e }, .nil, []⟩
    | none => some ⟨{ m with statusMsg := "Returned from tmux session" }, .nil, []⟩
  | .KeyMsg msg =>
    if m.dialog ≠ .dialogNone then m.updateDialog env msg
    else if m.interactMode then m.updateInteract msg
    else m.updateNormal env msg
  | .other => some ⟨m, .nil, []⟩

/-- The states the program can be in: `New store` and whatever `Update` makes of
a reachable state for some message and some environment. -/
inductive Reachable (store : Store) : Model → Prop where
  | init : Reachable store (New store)
  | step {m : Model} (env : Env) (msg : Msg) (o : Outcome) :
      Reachable store m → m.Update env msg = some o → Reachable store o.model

/-! ## internal/tui/app.go: refresh, status line, preview -/

/-- What one run of doRefresh reads from tmux: the names listed by
`tmux.ListSessions()` (its error is dropped by the source, the list is then
empty) and the result of `tmux.CapturePane`, `none` standing for an error. -/
structure Tmux where
  ListSessions : List String
  CapturePane : String → Int → Option String

/-- The method doRefresh (app.go, lines 132-147), run on the model the tick was
scheduled with: the live set, and the captured pane of the session selected in
that model when it is live. -/
def Model.doRefresh (t : Tmux) (m : Model) : Option Msg :=
  let result : String → Bool :=
    t.ListSessions.foldl (fun (r : String → Bool) (s : String) => Function.update r s true)
      (fun _ => false)
  match m.selectedTmuxName with
  | none => none
  | some tn =>
    let content :=
      if tn ≠ "" ∧ result tn = true then
        match t.CapturePane tn 200 with
        | some captured => captured
        | none => ""
      else ""
    some (.refreshMsg result content)

/-- The status line of View (app.go, lines 636-641): the error when there is
one, otherwise the status message when it is not empty.  The arguments are the
`Render` functions of errorStyle and statusBarStyle. -/
def Model.statusLine (errorStyle statusBarStyle : String → String) (m : Model) : String :=
  match m.err with
  | some e => errorStyle ("✗ " ++ e)
  | none => if m.statusMsg ≠ "" then statusBarStyle ("• " ++ m.statusMsg) else ""

/-- The function `strings.Split(s, sep)` for a one-character separator. -/
def Split : List Char → Char → List (List Char)
  | [], _ => [[]]
  | c :: cs, sep =>
    if c = sep then [] :: Split cs sep
    else
      match Split cs sep with
      | [] => [[c]]
      | l :: ls => (c :: l) :: ls

/-- The function `strings.TrimRight(s, cut)` for a one-character cutset. -/
def TrimRight (s : List Char) (cut : Char) : List Char :=
  s.rdropWhile (· == cut)

/-- The content lines of the preview of a running session (app.go, lines
816-831): the captured text split into lines and, when there are more lines than
available rows, the slice of the last `availableRows` lines with its first
element overwritten by the marker.  `dimStyle` is the `Render` of dimStyle and
`headerHeight` the height of the rendered header; the later cut of over-long
lines and the styling of the joined lines are left out. -/
def previewLines (dimStyle : String → String) (previewContent : String)
    (maxRows headerHeight : Int) : Option (List String) :=
  let content :=
    if previewContent = "" then dimStyle "  ⏳ Waiting for output..." else previewContent
  let contentLines := (Split (TrimRight content.data '\n') '\n').map String.mk
  let availableRows := maxRows - headerHeight - 1
  let availableRows := if availableRows < 3 then 3 else availableRows
  if (contentLines.length : Int) > availableRows then
    let moreCount := (contentLines.length : Int) - availableRows
    let contentLines := contentLines.drop ((contentLines.length : Int) - availableRows).toNat
    match contentLines with
    | [] => none
    | _ :: rest => some (dimStyle ("  ↑ " ++ toString moreCount ++ " more lines above") :: rest)
  else some contentLines

/-- The method activeCountForGroup (app.go, lines 205-218): the number of
sessions of group `gi` whose sanitized identifier is in the live set. -/
def Model.activeCountForGroup (m : Model) (gi : Int) : Option Int :=
  let groups := m.store.Groups
  if gi ≥ groups.length then some 0
  else
    match index groups gi with
    | none => none
    | some g =>
      some (g.Sessions.foldl
        (fun (count : Int) (s : Session) =>
          if m.tmuxSessions (SanitizeName g.Name s.Name) then count + 1 else count) 0)

/-! ## The descriptions the statements compare the code with, and examples -/

/-- The rows of one group as the tree is described: the header of group `gi`,
followed by its sessions `0, 1, ...` in store order if and only if the group is
expanded. -/
def groupRows (expanded : Int → Bool) (gi : Nat) (g : Group) : List treePos :=
  ⟨(gi : Int), -1⟩ ::
    (if expanded (gi : Int) then
      (List.range g.Sessions.length).map fun (si : Nat) => ⟨(gi : Int), (si : Int)⟩
     else [])

/-- The flattened tree as it is described: the rows of the groups in store
order, the first group having index `k`. -/
def treeFrom (expanded : Int → Bool) : Nat → List Group → List treePos
  | _, [] => []
  | k, g :: gs => groupRows expanded k g ++ treeFrom expanded (k + 1) gs

/-- The number of sessions the tree shows: those of the expanded groups, the
first group having index `k`. -/
def shownSessions (expanded : Int → Bool) : Nat → List Group → Nat
  | _, [] => 0
  | k, g :: gs =>
    (if expanded (k : Int) then g.Sessions.length else 0) + shownSessions expanded (k + 1) gs

/-- The cursor of a model as a tree position. -/
def Model.cursor (m : Model) : treePos := ⟨m.groupIdx, m.sessionIdx⟩

/-- The position of the cursor in the flattened tree as the navigator is
described: its index in the tree, 0 when the cursor is not in the tree. -/
def Model.cursorPos (m : Model) : Nat :=
  if m.cursor ∈ m.buildTree then m.buildTree.indexOf m.cursor else 0

/-- The cursor is valid: with no group it is `(0, -1)`; otherwise the group index
is in range and the cursor is on the group header or on an existing session of an
expanded group. -/
def CursorValid (m : Model) : Prop :=
  (m.store.Groups = [] → m.groupIdx = 0 ∧ m.sessionIdx = -1) ∧
  (m.store.Groups ≠ [] →
    0 ≤ m.groupIdx ∧ m.groupIdx < m.store.Groups.length ∧
    (m.sessionIdx = -1 ∨
      (0 ≤ m.sessionIdx ∧ m.sessionIdx < (m.store.Sessions m.groupIdx).length ∧
        m.expanded m.groupIdx = true)))

/-- A store for the examples: the group Work with the sessions api and web,
and the empty group Home. -/
def demoStore : Store :=
  { path := "data.json",
    Data := { Groups :=
      [{ ID := "g1", Name := "Work", CreatedAt := 1, Sessions :=
          [{ ID := "s1", Name := "api", SessionID := "abc123", Path := "/tmp/x", CreatedAt := 2 },
           { ID := "s2", Name := "web", SessionID := "def456", Path := "~/web", CreatedAt := 3 }] },
       { ID := "g2", Name := "Home", CreatedAt := 4, Sessions := [] }] } }

/-- An environment for the examples: tmux knows no session and creates any, the
save succeeds, the text input appends the runes of a key to its value. -/
def demoEnv : Env :=
  { SessionExists := fun _ => false,
    NewSession := fun _ _ _ => none,
    Save := none,
    genID := "0011223344556677",
    now := 10,
    UserHomeDir := some "/home/u",
    SetValue := fun t s => { t with value := s },
    InputUpdate := fun t k =>
      (if k.Typ = .KeyRunes then { t with value := t.value ++ String.mk k.Runes } else t, .nil) }

/-- The key message of a single printable character. -/
def runeKey (c : Char) : KeyMsg := { Typ := .KeyRunes, Runes := [c], Alt := false, Paste := false }

/-- The key message of a named key without modifier. -/
def namedKey (t : KeyType) : KeyMsg := { Typ := t, Runes := [], Alt := false, Paste := false }

/-- The example model with the delete-confirm dialog open on the session web
(group 0, session 1), as after the keys `j`, `j`, `d`. -/
def demoDeleteSession : Model :=
  { New demoStore with sessionIdx := 1, dialog := .dialogDeleteConfirm, deleteTarget := "session" }

/-- The example model with the delete-confirm dialog open on the group Work
(group 0), as after the key `d`. -/
def demoDeleteGroup : Model :=
  { New demoStore with dialog := .dialogDeleteConfirm, deleteTarget := "group" }

/-- Whether the text field at index `i` of the dialog is empty after trimming
white space. -/
def Model.fieldBlank (m : Model) (i : Int) : Bool :=
  match index m.inputs i with
  | some t => TrimSpace t.Value == ""
  | none => false

/-- Whether a required field of the open text dialog is empty after trimming:
the group name in new-group, the project path or the session id in new-session,
the new name in rename. -/
def Model.requiredBlank (m : Model) : Bool :=
  match m.dialog with
  | .dialogNewGroup => m.fieldBlank 0
  | .dialogNewSession => m.fieldBlank 0 || m.fieldBlank 1
  | .dialogRename => m.fieldBlank 0
  | _ => false

/-- Whether the open dialog is one with text fields. -/
def Model.textDialog (m : Model) : Bool :=
  m.dialog == .dialogNewGroup || m.dialog == .dialogNewSession || m.dialog == .dialogRename

/-- The fields of the dialog are in place: the focus index is not negative, it
is a field index when there is more than one field, and a text dialog has the
fields its commit reads. -/
def DialogWF (m : Model) : Prop :=
  0 ≤ m.inputIdx ∧ (1 < m.inputs.length → m.inputIdx < m.inputs.length) ∧
  (m.dialog = .dialogNewGroup → 1 ≤ m.inputs.length) ∧
  (m.dialog = .dialogNewSession → 3 ≤ m.inputs.length) ∧
  (m.dialog = .dialogRename → 1 ≤ m.inputs.length)

/-- The example model with the new-group dialog open and its field holding two
blanks. -/
def demoBlankGroup : Model :=
  { New demoStore with
      dialog := .dialogNewGroup,
      inputs := [{ (newInput "Group name" "e.g. Work" 30).Focus with value := "  " }] }

/-- The example model with the new-session dialog open on the group Work, the
fields filled with a path, a session id (both with blanks around) and no display
name. -/
def demoNewSession : Model :=
  { New demoStore with
      dialog := .dialogNewSession,
      inputs := [{ (newInput "Project path" "~/projects/my-app" 60).Focus with value := " /tmp/y " },
                 { newInput "Session ID / Name" "session id or rename" 60 with value := "tok42 " },
                 newInput "Display name (optional)" "e.g. api-refactor" 30] }

/-- The target of an open rename or delete-confirm dialog exists: there is a
group, and the target is the group under the cursor or the session under the
cursor. -/
def TargetOK (m : Model) : Prop :=
  (m.dialog = .dialogRename ∨ m.dialog = .dialogDeleteConfirm) →
    m.store.Groups ≠ [] ∧
      (m.deleteTarget = "group" ∨ (m.deleteTarget = "session" ∧ 0 ≤ m.sessionIdx))

/-- The live set of the examples: only the session api of the group Work runs. -/
def demoLive : String → Bool := fun s => s == "claude_Work_api"

/-- The tmux of the examples: both sessions of Work are listed and the pane of a
session holds the text `output of` followed by its name. -/
def demoTmux : Tmux :=
  { ListSessions := ["claude_Work_api", "claude_Work_web"],
    CapturePane := fun name _ => some ("output of " ++ name) }

/-- The example model with the cursor on the session api (group 0, session 0),
as after the key `j`. -/
def demoOnApi : Model := { New demoStore with sessionIdx := 0 }

/-- The example model with the cursor on the session web (group 0, session 1),
as after the keys `j`, `j`. -/
def demoOnWeb : Model := { New demoStore with sessionIdx := 1 }

/-- The example model with the cursor on the session api and the focus on the
preview panel, as after the keys `j`, Enter. -/
def demoPreview : Model := { New demoStore with sessionIdx := 0, focus := .panelPreview }

/-- The example model in interact mode on the live session api, as after the key
`j`, a refresh that reports api live, and the key `i`. -/
def demoInteract : Model :=
  { New demoStore with sessionIdx := 0, focus := .panelPreview, interactMode := true,
                       tmuxSessions := demoLive, previewContent := "out" }

/-- The environment of the examples with a tmux that fails to create a
session. -/
def demoFailEnv : Env :=
  { demoEnv with NewSession := fun _ _ _ => some "tmux new-session failed: no server: exit status 1" }

/-- The character class `[A-Za-z0-9_-]` of the identifiers tmux accepts. -/
def legalChar (c : Char) : Bool :=
  ('a' ≤ c && c ≤ 'z') || ('A' ≤ c && c ≤ 'Z') || ('0' ≤ c && c ≤ '9') || c == '_' || c == '-'

/-- A second store for the examples: the empty group Inbox, then the group Work
with the sessions api and web. -/
def demoStore2 : Store :=
  { path := "data.json",
    Data := { Groups :=
      [{ ID := "g0", Name := "Inbox", CreatedAt := 1, Sessions := [] },
       { ID := "g1", Name := "Work", CreatedAt := 2, Sessions :=
          [{ ID := "s1", Name := "api", SessionID := "abc123", Path := "/tmp/x", CreatedAt := 3 },
           { ID := "s2", Name := "web", SessionID := "def456", Path := "~/web", CreatedAt := 4 }] }] } }

/-- A store for the examples of colliding identifiers: the group `a b` with the
session `c`, and the empty group `a_b`. -/
def collStore : Store :=
  { path := "data.json",
    Data := { Groups :=
      [{ ID := "g1", Name := "a b", CreatedAt := 1, Sessions :=
          [{ ID := "s1", Name := "c", SessionID := "t1", Path := "/p", CreatedAt := 2 }] },
       { ID := "g2", Name := "a_b", CreatedAt := 3, Sessions := [] }] } }

/-- The run of the program on a list of messages, all handled in the environment
`env`: the model after the last message, `none` when a message makes `Update`
panic. -/
def run (env : Env) : Model → List Msg → Option Model
  | m, [] => some m
  | m, msg :: rest =>
    match m.Update env msg with
    | some o => run env o.model rest
    | none => none

/-! ## Theorems: the sanitizer -/

theorem rdropWhile_cons_of_neg {α : Type} (p : α → Bool) (a : α) (l : List α) (h : p a = false) :
    (a :: l).rdropWhile p = a :: l.rdropWhile p := by
  induction l using List.reverseRecOn with
  | nil => simp [List.rdropWhile, List.dropWhile, h]
  | append_singleton l b ih =>
    rw [← List.cons_append]
    by_cases hb : p b = true
    · rw [List.rdropWhile_concat_pos _ _ _ hb, List.rdropWhile_concat_pos _ _ _ hb, ih]
    · rw [List.rdropWhile_concat_neg _ _ _ hb, List.rdropWhile_concat_neg _ _ _ hb]
      rfl

theorem mem_rdropWhile {α : Type} (p : α → Bool) (l : List α) (a : α)
    (h : a ∈ l.rdropWhile p) : a ∈ l :=
  ( List.rdropWhile_prefix p l).subset h

theorem safeNameRe_false_iff (c : Char) :
    safeNameRe c = false ↔
      (('a' ≤ c ∧ c ≤ 'z') ∨ ('A' ≤ c ∧ c ≤ 'Z') ∨ ('0' ≤ c ∧ c ≤ '9') ∨ c = '_' ∨ c = '-') := by
  simp only [safeNameRe, Bool.not_eq_false', Bool.or_eq_true, Bool.and_eq_true,
    decide_eq_true_eq, beq_iff_eq]
  tauto

theorem ReplaceAllString_safe (s : List Char) : ∀ c ∈ ReplaceAllString s '_', safeNameRe c = false := by
  intro c hc
  simp only [ReplaceAllString, List.mem_map] at hc
  obtain ⟨d, _, rfl⟩ := hc
  by_cases hd : safeNameRe d = true
  · simp [hd]; decide
  · simp [hd]

/-- The characters of the formatted name before sanitizing. -/
theorem sprintf_data (group session : String) :
    ("claude_" ++ group ++ "_" ++ session).data =
      'c' :: 'l' :: 'a' :: 'u' :: 'd' :: 'e' :: '_' :: (group.data ++ '_' :: session.data) := by
  simp [String.data_append]

theorem Trim_claude (group session : String) :
    ∃ t, Trim (ReplaceAllString ("claude_" ++ group ++ "_" ++ session).data '_') '_' =
      'c' :: 'l' :: 'a' :: 'u' :: 'd' :: 'e' :: t := by
  rw [sprintf_data]
  refine ⟨(ReplaceAllString ('_' :: (group.data ++ '_' :: session.data)) '_').rdropWhile (· == '_'), ?_⟩
  simp only [Trim, ReplaceAllString, List.map_cons]
  rw [show (if safeNameRe 'c' = true then '_' else 'c') = 'c' by decide,
      show (if safeNameRe 'l' = true then '_' else 'l') = 'l' by decide,
      show (if safeNameRe 'a' = true then '_' else 'a') = 'a' by decide,
      show (if safeNameRe 'u' = true then '_' else 'u') = 'u' by decide,
      show (if safeNameRe 'd' = true then '_' else 'd') = 'd' by decide,
      show (if safeNameRe 'e' = true then '_' else 'e') = 'e' by decide]
  rw [List.dropWhile_cons_of_neg (by decide)]
  rw [rdropWhile_cons_of_neg _ _ _ (by decide), rdropWhile_cons_of_neg _ _ _ (by decide),
      rdropWhile_cons_of_neg _ _ _ (by decide), rdropWhile_cons_of_neg _ _ _ (by decide),
      rdropWhile_cons_of_neg _ _ _ (by decide), rdropWhile_cons_of_neg _ _ _ (by decide)]



/-- C1: for every group name and session name, `SanitizeName group session` is a
non-empty string of at most 64 characters, each of them in `[A-Za-z0-9_-]`, so
none of them is `/`. -/
theorem SanitizeName_nonempty_short_safe (group session : String) :
    SanitizeName group session ≠ "" ∧
    0 < (SanitizeName group session).length ∧
    (SanitizeName group session).length ≤ 64 ∧
    ∀ c ∈ (SanitizeName group session).data,
      (('a' ≤ c ∧ c ≤ 'z') ∨ ('A' ≤ c ∧ c ≤ 'Z') ∨ ('0' ≤ c ∧ c ≤ '9') ∨ c = '_' ∨ c = '-')
        ∧ c ≠ '/' := by
  obtain ⟨t, ht⟩ := Trim_claude group session
  have hsafe : ∀ c ∈ Trim (ReplaceAllString ("claude_" ++ group ++ "_" ++ session).data '_') '_',
      safeNameRe c = false := by
    intro c hc
    apply ReplaceAllString_safe ("claude_" ++ group ++ "_" ++ session).data
    exact (List.dropWhile_sublist _).subset (mem_rdropWhile _ _ _ hc)
  have hpos : 0 < (SanitizeName group session).length := by
    simp only [SanitizeName, String.length, ht]
    split <;> simp
  refine ⟨?_, hpos, ?_, ?_⟩
  · intro h
    rw [h] at hpos
    exact absurd hpos (by decide)
  · simp only [SanitizeName, String.length]
    split
    · simp
    · omega
  · intro c hc
    have hc2 : safeNameRe c = false := by
      apply hsafe
      simp only [SanitizeName] at hc
      split at hc
      · exact List.mem_of_mem_take hc
      · exact hc
    refine ⟨(safeNameRe_false_iff c).1 hc2, ?_⟩
    rintro rfl
    exact absurd hc2 (by decide)

/-- C2 (the code at the failing input): with a group name of 56 letters the
trimmed name has 65 characters, the 64th being the delimiter, and the cut to 64
characters leaves a name that ends in `_`. -/
theorem SanitizeName_trailing_underscore :
    SanitizeName "aaaaaaaaaaaaaaaaaaaaaaaaaaaaaaaaaaaaaaaaaaaaaaaaaaaaaaaa" "b" =
      "claude_aaaaaaaaaaaaaaaaaaaaaaaaaaaaaaaaaaaaaaaaaaaaaaaaaaaaaaaa_" ∧
    (SanitizeName "aaaaaaaaaaaaaaaaaaaaaaaaaaaaaaaaaaaaaaaaaaaaaaaaaaaaaaaa" "b").data.getLast?
      = some '_' := by
  decide

/-! ## Theorems: the flattened tree -/

theorem foldl_append_singleton {α β : Type} (f : α → β) (l : List α) (init : List β) :
    l.foldl (fun acc x => acc ++ [f x]) init = init ++ l.map f := by
  induction l generalizing init with
  | nil => simp
  | cons a l ih => simp [ih, List.append_assoc]

theorem buildTree_sessions_eq (gi : Int) (n : Nat) (tree : List treePos) :
    buildTree.sessions gi n tree = tree ++ (List.range n).map (fun si => ⟨gi, (si : Int)⟩) := by
  unfold buildTree.sessions
  exact foldl_append_singleton (fun si : Nat => (⟨gi, (si : Int)⟩ : treePos)) _ _

theorem buildTree_loop_eq (expanded : Int → Bool) (gs : List Group) (k : Nat)
    (init : List treePos) :
    (gs.enumFrom k).foldl
      (fun tree p =>
        let tree := tree ++ [⟨(p.1 : Int), -1⟩]
        if expanded (p.1 : Int) then buildTree.sessions (p.1 : Int) p.2.Sessions.length tree
        else tree) init
      = init ++ treeFrom expanded k gs := by
  induction gs generalizing k init with
  | nil => simp [treeFrom]
  | cons g gs ih =>
    simp only [List.enumFrom_cons, List.foldl_cons, treeFrom, groupRows]
    rw [ih]
    by_cases h : expanded (k : Int) = true
    · simp only [h, if_true, buildTree_sessions_eq, List.append_assoc, List.cons_append,
        List.nil_append, List.singleton_append]
    · simp only [h, List.append_assoc, List.cons_append, List.nil_append,
        List.singleton_append, Bool.false_eq_true, if_false]

theorem buildTree_eq (m : Model) : m.buildTree = treeFrom m.expanded 0 m.store.Groups := by
  unfold Model.buildTree List.enum
  rw [buildTree_loop_eq]
  simp



theorem mem_groupRows (e : Int → Bool) (k : Nat) (g : Group) (p : treePos) :
    p ∈ groupRows e k g ↔
      p.groupIdx = k ∧ (p.sessionIdx = -1 ∨
        (e k = true ∧ 0 ≤ p.sessionIdx ∧ p.sessionIdx < g.Sessions.length)) := by
  obtain ⟨a, b⟩ := p
  unfold groupRows
  by_cases h : e (k : Int) = true
  · simp only [h, if_true, List.mem_cons, List.mem_map, List.mem_range, treePos.mk.injEq,
      true_and]
    constructor
    · rintro (⟨rfl, rfl⟩ | ⟨si, hsi, rfl, rfl⟩)
      · exact ⟨rfl, Or.inl rfl⟩
      · exact ⟨rfl, Or.inr ⟨by omega, by omega⟩⟩
    · rintro ⟨rfl, (rfl | ⟨h0, h1⟩)⟩
      · exact Or.inl ⟨rfl, rfl⟩
      · exact Or.inr ⟨b.toNat, by omega, rfl, by omega⟩
  · simp only [h, Bool.false_eq_true, if_false, List.mem_singleton, treePos.mk.injEq,
      false_and, or_false]

theorem mem_treeFrom (e : Int → Bool) (gs : List Group) (k : Nat) (p : treePos) :
    p ∈ treeFrom e k gs ↔
      ∃ i g, gs[i]? = some g ∧ p.groupIdx = ((k + i : Nat) : Int) ∧ (p.sessionIdx = -1 ∨
        (e ((k + i : Nat) : Int) = true ∧ 0 ≤ p.sessionIdx ∧ p.sessionIdx < g.Sessions.length)) := by
  induction gs generalizing k with
  | nil => simp [treeFrom]
  | cons g gs ih =>
    simp only [treeFrom, List.mem_append, mem_groupRows, ih]
    constructor
    · rintro (h | ⟨i, g1, hg, h⟩)
      · exact ⟨0, g, by simp, by simpa using h⟩
      · refine ⟨i + 1, g1, by simpa using hg, ?_⟩
        have : k + 1 + i = k + (i + 1) := by omega
        rw [this] at h
        exact h
    · rintro ⟨i, g1, hg, h⟩
      cases i with
      | zero =>
        simp only [List.getElem?_cons_zero, Option.some.injEq] at hg
        subst hg
        exact Or.inl (by simpa using h)
      | succ i =>
        refine Or.inr ⟨i, g1, by simpa using hg, ?_⟩
        have : k + 1 + i = k + (i + 1) := by omega
        rw [this]
        exact h

theorem groupRows_nodup (e : Int → Bool) (k : Nat) (g : Group) : (groupRows e k g).Nodup := by
  unfold groupRows
  by_cases h : e (k : Int) = true
  · simp only [h, if_true, List.nodup_cons, List.mem_map, List.mem_range, treePos.mk.injEq,
      true_and, not_exists, not_and]
    refine ⟨fun x _ hx => by omega, ?_⟩
    refine (List.nodup_range _).map ?_
    intro a b hab
    simp only [treePos.mk.injEq, true_and] at hab
    exact_mod_cast hab
  · simp [h]

theorem treeFrom_nodup (e : Int → Bool) (gs : List Group) (k : Nat) :
    (treeFrom e k gs).Nodup := by
  induction gs generalizing k with
  | nil => simp [treeFrom]
  | cons g gs ih =>
    simp only [treeFrom]
    refine List.Nodup.append (groupRows_nodup e k g) (ih (k + 1)) ?_
    intro p hp hq
    rw [mem_groupRows] at hp
    rw [mem_treeFrom] at hq
    obtain ⟨i, g1, _, hgi, _⟩ := hq
    have := hp.1
    rw [hgi] at this
    omega

theorem treeFrom_length (e : Int → Bool) (gs : List Group) (k : Nat) :
    (treeFrom e k gs).length = gs.length + shownSessions e k gs := by
  induction gs generalizing k with
  | nil => simp [treeFrom, shownSessions]
  | cons g gs ih =>
    simp only [treeFrom, shownSessions, List.length_append, ih, List.length_cons, groupRows]
    by_cases h : e (k : Int) = true
    · simp only [h, if_true, List.length_map, List.length_range]
      omega
    · simp only [h, Bool.false_eq_true, if_false, List.length_nil]
      omega

/-- C5: buildTree lists the groups in store order, each with its header
`(g, -1)` once, followed at once by its sessions `(g, 0), (g, 1), ...` exactly
when the group is expanded; no position occurs twice, and the length is the
number of groups plus the number of sessions of the expanded groups. -/
theorem buildTree_spec (m : Model) :
    m.buildTree = treeFrom m.expanded 0 m.store.Groups ∧
    m.buildTree.Nodup ∧
    m.buildTree.length = m.store.Groups.length + shownSessions m.expanded 0 m.store.Groups := by
  rw [buildTree_eq]
  exact ⟨rfl, treeFrom_nodup _ _ _, treeFrom_length _ _ _⟩

/-! ## Theorems: moving the cursor -/

theorem currentTreeIdx_loop_eq (m : Model) (l : List treePos) (k : Nat) :
    currentTreeIdx.loop m l k = if m.cursor ∈ l then ((k + l.indexOf m.cursor : Nat) : Int) else 0 := by
  induction l generalizing k with
  | nil => simp [currentTreeIdx.loop]
  | cons p ps ih =>
    unfold currentTreeIdx.loop
    by_cases h : p.groupIdx = m.groupIdx ∧ p.sessionIdx = m.sessionIdx
    · have hp : p = m.cursor := by
        obtain ⟨a, b⟩ := p
        simp only [Model.cursor, treePos.mk.injEq]
        exact h
      rw [if_pos h]
      subst hp
      simp
    · have hp : ¬ m.cursor = p := by
        intro hp
        apply h
        rw [← hp]
        exact ⟨rfl, rfl⟩
      have hp2 : (p == m.cursor) = false := by
        rw [beq_eq_false_iff_ne]
        exact fun e => hp e.symm
      rw [if_neg h, ih]
      simp only [List.mem_cons, hp, false_or, List.indexOf_cons, hp2, cond_false]
      by_cases hm : m.cursor ∈ ps
      · simp only [hm, if_true]
        congr 1
        omega
      · simp [hm]

theorem currentTreeIdx_eq (m : Model) : m.currentTreeIdx = (m.cursorPos : Int) := by
  unfold Model.currentTreeIdx Model.cursorPos
  rw [currentTreeIdx_loop_eq]
  by_cases h : m.cursor ∈ m.buildTree <;> simp [h]

theorem cursorPos_lt (m : Model) (h : m.buildTree ≠ []) : m.cursorPos < m.buildTree.length := by
  unfold Model.cursorPos
  by_cases hm : m.cursor ∈ m.buildTree
  · simp only [hm, if_true]
    exact List.indexOf_lt_length.2 hm
  · simp only [hm, if_false]
    exact List.length_pos.2 h

theorem index_eq_getElem? {α : Type} (l : List α) (i : Int) (h : 0 ≤ i) :
    index l i = l[i.toNat]? := by
  unfold index
  rw [if_neg (by omega)]

theorem wrapInt64_of_range (x : Int) (hlo : -9223372036854775808 ≤ x)
    (hhi : x ≤ 9223372036854775807) : wrapInt64 x = x := by
  unfold wrapInt64
  omega

theorem moveTree_of_ne_nil (m : Model) (d : Int) (hne : m.buildTree ≠ []) :
    ∃ p, m.buildTree[(min (max (wrapInt64 ((m.cursorPos : Int) + d)) 0)
            ((m.buildTree.length : Int) - 1)).toNat]? = some p ∧
      p ∈ m.buildTree ∧
      m.moveTree d = some { m with groupIdx := p.groupIdx, sessionIdx := p.sessionIdx } := by
  have hlen : 0 < m.buildTree.length := List.length_pos.2 hne
  have hpos := cursorPos_lt m hne
  generalize hw : wrapInt64 ((m.cursorPos : Int) + d) = w
  have hlt : (min (max w 0) ((m.buildTree.length : Int) - 1)).toNat
      < m.buildTree.length := by omega
  refine ⟨m.buildTree[(min (max w 0)
      ((m.buildTree.length : Int) - 1)).toNat], List.getElem?_eq_getElem hlt,
      List.getElem_mem _, ?_⟩
  unfold Model.moveTree
  simp only
  rw [if_neg (by omega), currentTreeIdx_eq, hw]
  have hnext : (if (if w < 0 then 0 else w)
        ≥ (m.buildTree.length : Int) then (m.buildTree.length : Int) - 1
      else (if w < 0 then 0 else w))
      = min (max w 0) ((m.buildTree.length : Int) - 1) := by
    split <;> split <;> omega
  rw [hnext, index_eq_getElem? _ _ (by omega), List.getElem?_eq_getElem hlt]

theorem moveTree_of_nil (m : Model) (d : Int) (hnil : m.buildTree = []) :
    m.moveTree d = some m := by
  unfold Model.moveTree
  simp [hnil]

theorem getElem?_cursorPos (m : Model) (hmem : m.cursor ∈ m.buildTree) :
    m.buildTree[m.cursorPos]? = some m.cursor := by
  unfold Model.cursorPos
  simp only [hmem, if_true]
  rw [List.getElem?_eq_getElem (List.indexOf_lt_length.2 hmem)]
  simp

/-- C4 (counterexample): with the cursor on row 1 of the four rows of the example
and the displacement `2^63 - 1`, the sum `1 + delta` wraps around to `-2^63`, so
`moveTree` puts the cursor on row 0, the header of the first group, while the
position `min (max (i + delta) 0) (len - 1)` is the last row, the header of the
second group: the rule of the claim fails for this displacement. -/
theorem moveTree_wraps_around :
    demoOnApi.buildTree = [⟨0, -1⟩, ⟨0, 0⟩, ⟨0, 1⟩, ⟨1, -1⟩] ∧
    demoOnApi.cursorPos = 1 ∧
    (min (max ((demoOnApi.cursorPos : Int) + 9223372036854775807) 0)
        ((demoOnApi.buildTree.length : Int) - 1)).toNat = 3 ∧
    demoOnApi.moveTree 9223372036854775807 =
      some { demoOnApi with groupIdx := 0, sessionIdx := -1 } ∧
    ¬ ∀ (m : Model) (delta : Int),
        -9223372036854775808 ≤ delta → delta ≤ 9223372036854775807 → m.buildTree ≠ [] →
        ∃ p, m.buildTree[(min (max ((m.cursorPos : Int) + delta) 0)
                ((m.buildTree.length : Int) - 1)).toNat]? = some p ∧
          m.moveTree delta =
            some { m with groupIdx := p.groupIdx, sessionIdx := p.sessionIdx } := by
  have hmove : demoOnApi.moveTree 9223372036854775807 =
      some { demoOnApi with groupIdx := 0, sessionIdx := -1 } := rfl
  refine ⟨by decide, by decide, by decide, hmove, fun h => ?_⟩
  obtain ⟨p, hp, hm⟩ := h demoOnApi 9223372036854775807 (by decide) (by decide) (by decide)
  have hp3 : demoOnApi.buildTree[(min (max ((demoOnApi.cursorPos : Int) + 9223372036854775807) 0)
      ((demoOnApi.buildTree.length : Int) - 1)).toNat]? = some ⟨1, -1⟩ := by decide
  rw [hp3] at hp
  injection hp with hp
  rw [hmove, ← hp] at hm
  injection hm with hm
  have hg := congrArg Model.groupIdx hm
  exact absurd hg (by decide)

/-- C4 (as amended): on a non-empty tree `moveTree delta` puts the cursor on an
element of the tree and changes nothing else, whatever the displacement; when the
sum `i + delta` is in the range of a 64-bit integer, `i` being the position of the
old cursor (0 when it is not in the tree), that element is the one at position
`min (max (i + delta) 0) (len - 1)`; `moveTree 0` leaves a cursor that is in the
tree where it is (the tree, a slice, has at most `2^63 - 1` rows); on an empty
tree `moveTree` changes nothing. -/
theorem moveTree_spec (m : Model) (delta : Int) :
    (m.buildTree ≠ [] →
      ∃ p, p ∈ m.buildTree ∧
        m.moveTree delta = some { m with groupIdx := p.groupIdx, sessionIdx := p.sessionIdx } ∧
        (-9223372036854775808 ≤ (m.cursorPos : Int) + delta →
          (m.cursorPos : Int) + delta ≤ 9223372036854775807 →
          m.buildTree[(min (max ((m.cursorPos : Int) + delta) 0)
              ((m.buildTree.length : Int) - 1)).toNat]? = some p)) ∧
    (m.cursor ∈ m.buildTree → (m.buildTree.length : Int) ≤ 9223372036854775807 →
      m.moveTree 0 = some m) ∧
    (m.buildTree = [] → m.moveTree delta = some m) := by
  refine ⟨fun hne => ?_, fun hmem hlen => ?_, moveTree_of_nil m delta⟩
  · obtain ⟨p, hp, hmem, hmove⟩ := moveTree_of_ne_nil m delta hne
    refine ⟨p, hmem, hmove, fun hlo hhi => ?_⟩
    rw [wrapInt64_of_range _ hlo hhi] at hp
    exact hp
  · have hne : m.buildTree ≠ [] := List.ne_nil_of_mem hmem
    obtain ⟨p, hp, _, hmove⟩ := moveTree_of_ne_nil m 0 hne
    have hpos := cursorPos_lt m hne
    rw [wrapInt64_of_range _ (by omega) (by omega)] at hp
    have hidx : (min (max ((m.cursorPos : Int) + 0) 0) ((m.buildTree.length : Int) - 1)).toNat
        = m.cursorPos := by omega
    rw [hidx, getElem?_cursorPos m hmem] at hp
    injection hp with hp
    rw [hmove, ← hp]
    rfl

/-! ## Theorems: the cursor stays valid -/

theorem mem_buildTree (m : Model) (p : treePos) :
    p ∈ m.buildTree ↔
      ∃ i g, m.store.Groups[i]? = some g ∧ p.groupIdx = ((i : Nat) : Int) ∧ (p.sessionIdx = -1 ∨
        (m.expanded ((i : Nat) : Int) = true ∧ 0 ≤ p.sessionIdx ∧
          p.sessionIdx < g.Sessions.length)) := by
  rw [buildTree_eq, mem_treeFrom]
  simp only [Nat.zero_add]

theorem Sessions_eq_of_getElem? (s : Store) (gi : Int) (g : Group) (h0 : 0 ≤ gi)
    (hg : s.Groups[gi.toNat]? = some g) : s.Sessions gi = g.Sessions := by
  have hlt : gi.toNat < s.Data.Groups.length := by
    by_contra hc
    rw [Store.Groups, List.getElem?_eq_none (by omega)] at hg
    cases hg
  unfold Store.Sessions
  rw [if_neg (by omega)]
  rw [Store.Groups] at hg
  rw [hg]

theorem getElem?_of_lt (s : Store) (gi : Int) (h0 : 0 ≤ gi) (h1 : gi < s.Groups.length) :
    ∃ g, s.Groups[gi.toNat]? = some g := by
  have hlt : gi.toNat < s.Groups.length := by omega
  exact ⟨s.Groups[gi.toNat], List.getElem?_eq_getElem hlt⟩

theorem cursor_mem_of_valid (m : Model) (hv : CursorValid m) (hne : m.store.Groups ≠ []) :
    m.cursor ∈ m.buildTree := by
  obtain ⟨h0, h1, h2⟩ := hv.2 hne
  obtain ⟨g, hg⟩ := getElem?_of_lt m.store m.groupIdx h0 h1
  rw [mem_buildTree]
  refine ⟨m.groupIdx.toNat, g, hg, by simp only [Model.cursor]; omega, ?_⟩
  rcases h2 with h2 | ⟨ha, hb, hc⟩
  · exact Or.inl h2
  · rw [Sessions_eq_of_getElem? _ _ _ h0 hg] at hb
    refine Or.inr ⟨?_, ha, hb⟩
    rw [Int.toNat_of_nonneg h0]
    exact hc

theorem valid_of_mem (m : Model) (p : treePos) (hp : p ∈ m.buildTree) :
    CursorValid { m with groupIdx := p.groupIdx, sessionIdx := p.sessionIdx } := by
  rw [mem_buildTree] at hp
  obtain ⟨i, g, hg, hgi, hs⟩ := hp
  have hlt : i < m.store.Groups.length := by
    by_contra hc
    rw [List.getElem?_eq_none (by omega)] at hg
    cases hg
  have hne : m.store.Groups ≠ [] := by
    intro h
    rw [h] at hlt
    exact absurd hlt (by simp)
  refine ⟨fun h => absurd h hne, fun _ => ?_⟩
  simp only
  have hg2 : m.store.Groups[p.groupIdx.toNat]? = some g := by
    rw [hgi]
    simpa using hg
  refine ⟨by omega, by omega, ?_⟩
  rcases hs with hs | ⟨ha, hb, hc⟩
  · exact Or.inl hs
  · refine Or.inr ⟨hb, ?_, ?_⟩
    · rw [Sessions_eq_of_getElem? _ _ _ (by omega) hg2]
      exact hc
    · rw [hgi]
      exact ha

theorem moveTree_valid (m m1 : Model) (d : Int) (hv : CursorValid m)
    (h : m.moveTree d = some m1) : CursorValid m1 := by
  by_cases hne : m.buildTree = []
  · rw [moveTree_of_nil m d hne] at h
    cases h
    exact hv
  · obtain ⟨p, _, hp, hm⟩ := moveTree_of_ne_nil m d hne
    rw [hm] at h
    cases h
    exact valid_of_mem m p hp

theorem attachSession_model (env : Env) (m : Model) (o : Outcome)
    (h : m.attachSession env = some o) :
    o.model = m ∨ ∃ e, o.model = { m with statusMsg := "Error: " ++ e, err := some e } := by
  unfold Model.attachSession at h
  repeat' first | split at h | dsimp only at h
  all_goals first
    | (cases h; exact Or.inl rfl)
    | (cases h; exact Or.inr ⟨_, rfl⟩)
    | cases h

theorem attachSession_valid (env : Env) (m : Model) (o : Outcome)
    (hv : CursorValid m) (h : m.attachSession env = some o) : CursorValid o.model := by
  rcases attachSession_model env m o h with h1 | ⟨e, h1⟩ <;> rw [h1] <;> exact hv

theorem header_of_valid (m : Model) (hv : CursorValid m) (h : m.sessionIdx < 0) :
    m.sessionIdx = -1 := by
  by_cases hne : m.store.Groups = []
  · exact (hv.1 hne).2
  · rcases (hv.2 hne).2.2 with h1 | ⟨h1, _⟩
    · exact h1
    · omega

theorem normalEnter_valid (env : Env) (m : Model) (o : Outcome)
    (hv : CursorValid m) (h : m.normalEnter env = some o) : CursorValid o.model := by
  unfold Model.normalEnter at h
  repeat' first | split at h | dsimp only at h
  · rename_i _ hh
    cases h
    have hs : m.sessionIdx = -1 := header_of_valid m hv (by simpa [Model.onGroupHeader] using hh)
    refine ⟨hv.1, fun hne => ?_⟩
    obtain ⟨h0, h1, _⟩ := hv.2 hne
    exact ⟨h0, h1, Or.inl hs⟩
  · cases h; exact hv
  · exact attachSession_valid env m o hv h
  · cases h; exact hv

theorem normalInteract_valid (m : Model) (o : Outcome)
    (hv : CursorValid m) (h : m.normalInteract = some o) : CursorValid o.model := by
  unfold Model.normalInteract at h
  repeat' first | split at h | dsimp only at h
  all_goals first
    | (cases h; exact hv)
    | cases h

theorem normalNewSess_valid (m : Model) (o : Outcome)
    (hv : CursorValid m) (h : m.normalNewSess = some o) : CursorValid o.model := by
  unfold Model.normalNewSess at h
  repeat' first | split at h | dsimp only at h
  all_goals (cases h; exact hv)

theorem normalDelete_valid (m : Model) (o : Outcome)
    (hv : CursorValid m) (h : m.normalDelete = some o) : CursorValid o.model := by
  unfold Model.normalDelete at h
  repeat' first | split at h | dsimp only at h
  all_goals (cases h; exact hv)

theorem normalRename_valid (env : Env) (m : Model) (o : Outcome)
    (hv : CursorValid m) (h : m.normalRename env = some o) : CursorValid o.model := by
  unfold Model.normalRename at h
  repeat' first | split at h | dsimp only at h
  all_goals first
    | (cases h; exact hv)
    | cases h

theorem moveTree_map_valid (m : Model) (d : Int) (o : Outcome) (hv : CursorValid m)
    (h : ((m.moveTree d).map fun m1 => (⟨m1, .nil, []⟩ : Outcome)) = some o) :
    CursorValid o.model := by
  cases hm : m.moveTree d with
  | none => rw [hm] at h; cases h
  | some m1 =>
    rw [hm] at h
    cases h
    exact moveTree_valid m m1 d hv hm

theorem updateNormal_valid (env : Env) (m : Model) (msg : KeyMsg) (o : Outcome)
    (hv : CursorValid m) (h : m.updateNormal env msg = some o) : CursorValid o.model := by
  unfold Model.updateNormal at h
  repeat' split at h
  all_goals first
    | (cases h; exact hv)
    | exact moveTree_map_valid m _ o hv h
    | exact normalEnter_valid env m o hv h
    | exact normalInteract_valid m o hv h
    | exact normalNewSess_valid m o hv h
    | exact normalDelete_valid m o hv h
    | exact normalRename_valid env m o hv h

/-! ## Theorems: the store operations -/

theorem cut_eq_eraseIdx {α : Type} (l : List α) (i : Int) : cut l i = l.eraseIdx i.toNat := by
  unfold cut
  rw [List.eraseIdx_eq_take_drop_succ]

theorem index_some_iff {α : Type} (l : List α) (i : Int) (a : α) :
    index l i = some a ↔ 0 ≤ i ∧ l[i.toNat]? = some a := by
  unfold index
  by_cases h : i < 0
  · simp [h]
  · simp only [h, if_false]
    constructor
    · intro h1; exact ⟨by omega, h1⟩
    · intro h1; exact h1.2

theorem lt_length_of_getElem? {α : Type} (l : List α) (i : Nat) (a : α) (h : l[i]? = some a) :
    i < l.length := by
  by_contra hc
  rw [List.getElem?_eq_none (by omega)] at h
  cases h

theorem AddGroup_fst (s : Store) (name id : String) (now : Nat) :
    (s.AddGroup name id now).1.Groups =
      s.Groups ++ [{ ID := id, Name := name, Sessions := [], CreatedAt := now }] := rfl

theorem AddGroup_snd (s : Store) (name id : String) (now : Nat) :
    (s.AddGroup name id now).2 = (s.Groups.length : Int) := by
  simp [Store.AddGroup, Store.Groups]

theorem AddSession_of_getElem? (s : Store) (gi : Int) (g : Group) (name sid path id : String)
    (now : Nat) (h0 : 0 ≤ gi) (hg : s.Groups[gi.toNat]? = some g) :
    (s.AddSession gi name sid path id now).1.Groups =
        s.Groups.set gi.toNat { g with Sessions := g.Sessions ++
          [{ ID := id, Name := name, SessionID := sid, Path := path, CreatedAt := now }] } ∧
      (s.AddSession gi name sid path id now).2 = (g.Sessions.length : Int) := by
  have hlt := lt_length_of_getElem? _ _ _ hg
  rw [Store.Groups] at hg hlt
  unfold Store.AddSession
  rw [if_neg (by omega)]
  simp only [hg, Store.Groups, List.length_append, List.length_singleton, true_and]
  push_cast
  omega

theorem AddSession_out_of_range (s : Store) (gi : Int) (name sid path id : String) (now : Nat)
    (h : gi < 0 ∨ gi ≥ s.Groups.length) :
    s.AddSession gi name sid path id now = (s, -1) := by
  unfold Store.AddSession
  rw [Store.Groups] at h
  rw [if_pos h]

theorem DeleteGroup_of_lt (s : Store) (gi : Int) (h0 : 0 ≤ gi) (h1 : gi < s.Groups.length) :
    (s.DeleteGroup gi).Groups = s.Groups.eraseIdx gi.toNat := by
  unfold Store.DeleteGroup
  rw [Store.Groups] at h1
  rw [if_neg (by omega), cut_eq_eraseIdx]
  rfl

theorem DeleteSession_of_getElem? (s : Store) (gi si : Int) (g : Group) (h0 : 0 ≤ gi)
    (hg : s.Groups[gi.toNat]? = some g) (hs0 : 0 ≤ si) (hs1 : si < g.Sessions.length) :
    (s.DeleteSession gi si).Groups =
      s.Groups.set gi.toNat { g with Sessions := g.Sessions.eraseIdx si.toNat } := by
  have hlt := lt_length_of_getElem? _ _ _ hg
  rw [Store.Groups] at hg hlt
  unfold Store.DeleteSession
  rw [if_neg (by omega)]
  simp only [hg]
  rw [if_neg (by omega), cut_eq_eraseIdx]
  rfl

theorem Sessions_set (s : Store) (gi : Int) (g1 : Group) (p : String) (h0 : 0 ≤ gi)
    (h1 : gi < s.Groups.length) :
    Store.Sessions { path := p, Data := { Groups := s.Groups.set gi.toNat g1 } } gi
      = g1.Sessions := by
  apply Sessions_eq_of_getElem? _ _ _ h0
  simp only [Store.Groups]
  rw [List.getElem?_set_self]
  rw [Store.Groups] at h1
  omega

theorem Sessions_out_of_range (s : Store) (gi : Int) (h : gi < 0 ∨ gi ≥ s.Groups.length) :
    s.Sessions gi = [] := by
  unfold Store.Sessions
  rw [Store.Groups] at h
  rw [if_pos h]

theorem Groups_ne_nil_iff (s : Store) : s.Groups ≠ [] ↔ 0 < s.Groups.length :=
  List.length_pos.symm

theorem CursorValid_of_shape (m m1 : Model)
    (hlen : m1.store.Groups.length = m.store.Groups.length)
    (hs : (m1.store.Sessions m.groupIdx).length = (m.store.Sessions m.groupIdx).length)
    (hg : m1.groupIdx = m.groupIdx) (hsi : m1.sessionIdx = m.sessionIdx)
    (he : m1.expanded = m.expanded) (hv : CursorValid m) : CursorValid m1 := by
  unfold CursorValid
  rw [hg, hsi, he, hs, hlen]
  have e1 : m1.store.Groups = [] ↔ m.store.Groups = [] := by
    rw [← List.length_eq_zero, ← List.length_eq_zero (l := m.store.Groups), hlen]
  rw [Ne, e1]
  exact hv

theorem renameGroup_shape (s st : Store) (gi : Int) (name : String)
    (h : renameGroup s gi name = some st) :
    st.Groups.length = s.Groups.length ∧
      ∀ k, (st.Sessions k).length = (s.Sessions k).length := by
  unfold renameGroup at h
  split at h
  · cases h
  · rename_i g hg
    cases h
    rw [index_some_iff] at hg
    obtain ⟨h0, hg⟩ := hg
    have hlt := lt_length_of_getElem? _ _ _ hg
    refine ⟨by simp [Store.Groups], fun k => ?_⟩
    by_cases hk : k < 0 ∨ k ≥ s.Groups.length
    · rw [Sessions_out_of_range _ _ hk, Sessions_out_of_range _ _ (by simpa [Store.Groups] using hk)]
    · obtain ⟨g2, hg2⟩ := getElem?_of_lt s k (by omega) (by omega)
      rw [Sessions_eq_of_getElem? s k g2 (by omega) hg2]
      by_cases hkg : k.toNat = gi.toNat
      · rw [Sessions_eq_of_getElem? _ k { g with Name := name } (by omega)
          (by simp only [Store.Groups]; rw [hkg, List.getElem?_set_self hlt])]
        rw [Store.Groups, hkg, hg] at hg2
        cases hg2
        rfl
      · rw [Sessions_eq_of_getElem? _ k g2 (by omega)
          (by simp only [Store.Groups]; rw [List.getElem?_set_ne (Ne.symm hkg)]; exact hg2)]

theorem renameSession_shape (s st : Store) (gi si : Int) (name : String)
    (h : renameSession s gi si name = some st) :
    st.Groups.length = s.Groups.length ∧
      ∀ k, (st.Sessions k).length = (s.Sessions k).length := by
  unfold renameSession at h
  split at h
  · cases h
  · rename_i g hg
    split at h
    · cases h
    · rename_i x hx
      cases h
      rw [index_some_iff] at hg
      obtain ⟨h0, hg⟩ := hg
      have hlt := lt_length_of_getElem? _ _ _ hg
      refine ⟨by simp [Store.Groups], fun k => ?_⟩
      by_cases hk : k < 0 ∨ k ≥ s.Groups.length
      · rw [Sessions_out_of_range _ _ hk,
          Sessions_out_of_range _ _ (by simpa [Store.Groups] using hk)]
      · obtain ⟨g2, hg2⟩ := getElem?_of_lt s k (by omega) (by omega)
        rw [Sessions_eq_of_getElem? s k g2 (by omega) hg2]
        by_cases hkg : k.toNat = gi.toNat
        · rw [Sessions_eq_of_getElem? _ k
            { g with Sessions := g.Sessions.set si.toNat { x with Name := name } } (by omega)
            (by simp only [Store.Groups]; rw [hkg, List.getElem?_set_self hlt])]
          rw [Store.Groups, hkg, hg] at hg2
          cases hg2
          simp
        · rw [Sessions_eq_of_getElem? _ k g2 (by omega)
            (by simp only [Store.Groups]; rw [List.getElem?_set_ne (Ne.symm hkg)]; exact hg2)]

theorem AddSession_fst (s : Store) (gi : Int) (g : Group) (name sid path id : String)
    (now : Nat) (h0 : 0 ≤ gi) (hg : s.Groups[gi.toNat]? = some g) :
    (s.AddSession gi name sid path id now).1.Groups =
        s.Groups.set gi.toNat { g with Sessions := g.Sessions ++
          [{ ID := id, Name := name, SessionID := sid, Path := path, CreatedAt := now }] } :=
  (AddSession_of_getElem? s gi g name sid path id now h0 hg).1

theorem AddSession_snd (s : Store) (gi : Int) (g : Group) (name sid path id : String)
    (now : Nat) (h0 : 0 ≤ gi) (hg : s.Groups[gi.toNat]? = some g) :
    (s.AddSession gi name sid path id now).2 = (g.Sessions.length : Int) :=
  (AddSession_of_getElem? s gi g name sid path id now h0 hg).2

theorem Sessions_of_Groups_set (st s : Store) (gi : Int) (g1 : Group) (h0 : 0 ≤ gi)
    (h1 : gi < s.Groups.length) (h : st.Groups = s.Groups.set gi.toNat g1) :
    st.Sessions gi = g1.Sessions := by
  apply Sessions_eq_of_getElem? _ _ _ h0
  rw [h, List.getElem?_set_self]
  omega

theorem submitDialog_valid (env : Env) (m : Model) (o : Outcome)
    (hv : CursorValid m) (h : m.submitDialog env = some o) : CursorValid o.model := by
  unfold Model.submitDialog at h
  split at h
  · -- new group
    split at h
    · cases h
    · dsimp only at h
      split at h
      · cases h; exact hv
      · cases h
        refine ⟨fun hnil => ?_, fun _ => ?_⟩
        · simp only [AddGroup_fst] at hnil
          exact absurd hnil (by simp)
        · simp only [AddGroup_fst, AddGroup_snd, List.length_append, List.length_singleton]
          refine ⟨by omega, by push_cast; omega, Or.inl trivial⟩
  · -- new session
    split at h
    · dsimp only at h
      split at h
      · cases h; exact hv
      · cases h
        by_cases hr : m.groupIdx < 0 ∨ m.groupIdx ≥ m.store.Groups.length
        · simp only [AddSession_out_of_range _ _ _ _ _ _ _ hr]
          refine ⟨fun hnil => ⟨(hv.1 hnil).1, rfl⟩, fun hne => ?_⟩
          have := hv.2 hne
          omega
        · obtain ⟨g, hg⟩ := getElem?_of_lt m.store m.groupIdx (by omega) (by omega)
          have hlt := lt_length_of_getElem? _ _ _ hg
          have hne : ∀ x : Group, ¬ m.store.Groups.set m.groupIdx.toNat x = [] := by
            intro x hx
            have := congrArg List.length hx
            simp only [List.length_set, List.length_nil] at this
            omega
          refine ⟨fun hnil => ?_, fun _ => ?_⟩
          · dsimp only at hnil
            rw [AddSession_fst _ _ g _ _ _ _ _ (by omega) hg] at hnil
            exact absurd hnil (hne _)
          · dsimp only
            rw [Sessions_of_Groups_set _ m.store m.groupIdx _ (by omega) (by omega)
                (AddSession_fst _ _ g _ _ _ _ _ (by omega) hg),
              AddSession_fst _ _ g _ _ _ _ _ (by omega) hg,
              AddSession_snd _ _ g _ _ _ _ _ (by omega) hg]
            refine ⟨by omega, by simp only [List.length_set]; omega, Or.inr ⟨by omega, ?_, ?_⟩⟩
            · simp
            · simp
    · cases h
  · -- rename
    split at h
    · cases h
    · dsimp only at h
      split at h
      · cases h; exact hv
      · split at h
        · cases h
        · rename_i st hst
          cases h
          have hshape : st.Groups.length = m.store.Groups.length ∧
              ∀ k, (st.Sessions k).length = (m.store.Sessions k).length := by
            split at hst
            · exact renameGroup_shape _ _ _ _ hst
            · exact renameSession_shape _ _ _ _ _ hst
          exact CursorValid_of_shape m _ hshape.1 (hshape.2 _) rfl rfl rfl hv
  · cases h; exact hv

theorem confirmDelete_valid (m : Model) (o : Outcome)
    (hv : CursorValid m) (h : m.confirmDelete = some o) : CursorValid o.model := by
  unfold Model.confirmDelete at h
  split at h
  · -- the target is a group
    split at h
    · cases h
    · rename_i g hg
      cases h
      rw [index_some_iff] at hg
      obtain ⟨h0, hg⟩ := hg
      have hlt := lt_length_of_getElem? _ _ _ hg
      have hlen : (m.store.DeleteGroup m.groupIdx).Groups.length = m.store.Groups.length - 1 := by
        rw [DeleteGroup_of_lt _ _ h0 (by omega), List.length_eraseIdx]
        simp [hlt]
      refine ⟨fun hnil => ?_, fun hne => ?_⟩
      · dsimp only at hnil ⊢
        rw [hnil]
        simp
      · dsimp only at hne ⊢
        have hpos : 0 < (m.store.DeleteGroup m.groupIdx).Groups.length := List.length_pos.2 hne
        refine ⟨?_, ?_, Or.inl rfl⟩
        · split
          · omega
          · split <;> omega
        · split
          · omega
          · split <;> omega
  · -- the target is a session
    dsimp only at h
    split at h
    · rename_i hlt
      split at h
      · cases h
      · rename_i x hx
        cases h
        rw [index_some_iff] at hx
        obtain ⟨hs0, hx⟩ := hx
        have hr : ¬ (m.groupIdx < 0 ∨ m.groupIdx ≥ m.store.Groups.length) := by
          intro hr
          rw [Sessions_out_of_range _ _ hr] at hlt
          simp only [List.length_nil] at hlt
          omega
        obtain ⟨g, hg⟩ := getElem?_of_lt m.store m.groupIdx (by omega) (by omega)
        have hgs := Sessions_eq_of_getElem? _ _ _ (by omega) hg
        rw [hgs] at hlt
        have hD := DeleteSession_of_getElem? m.store m.groupIdx m.sessionIdx g (by omega) hg hs0 hlt
        have hS := Sessions_of_Groups_set _ m.store m.groupIdx _ (by omega) (by omega) hD
        have hne : m.store.Groups ≠ [] := by
          intro hnil
          rw [hnil] at hr
          simp at hr
          omega
        have hexp : m.expanded m.groupIdx = true := by
          rcases (hv.2 hne).2.2 with h1 | ⟨_, _, h1⟩
          · omega
          · exact h1
        refine ⟨fun hnil => ?_, fun _ => ?_⟩
        · dsimp only at hnil
          rw [hD] at hnil
          have := congrArg List.length hnil
          simp only [List.length_set, List.length_nil] at this
          omega
        · dsimp only
          rw [hS, hD]
          simp only [List.length_set, List.length_eraseIdx]
          have hl2 : m.sessionIdx.toNat < g.Sessions.length := by omega
          simp only [hl2, if_true]
          refine ⟨by omega, by omega, ?_⟩
          split
          · exact Or.inl rfl
          · split
            · exact Or.inr ⟨by omega, by omega, hexp⟩
            · exact Or.inr ⟨by omega, by omega, hexp⟩
    · cases h; exact hv

theorem cycleFocus_model (m : Model) (next : Int) (o : Outcome) (h : m.cycleFocus next = some o) :
    ∃ inputs, o.model = { m with inputs := inputs, inputIdx := next } := by
  unfold Model.cycleFocus at h
  repeat' first | split at h | dsimp only at h
  all_goals first
    | (cases h; exact ⟨_, rfl⟩)
    | cases h

theorem updateDialog_valid (env : Env) (m : Model) (msg : KeyMsg) (o : Outcome)
    (hv : CursorValid m) (h : m.updateDialog env msg = some o) : CursorValid o.model := by
  unfold Model.updateDialog at h
  repeat' first | split at h | dsimp only at h
  all_goals first
    | (cases h; exact hv)
    | exact submitDialog_valid env m o hv h
    | exact confirmDelete_valid m o hv h
    | cases h
    | (obtain ⟨i, hi⟩ := cycleFocus_model m _ o h
       rw [hi]
       exact hv)

theorem updateInteract_valid (m : Model) (msg : KeyMsg) (o : Outcome)
    (hv : CursorValid m) (h : m.updateInteract msg = some o) : CursorValid o.model := by
  unfold Model.updateInteract at h
  repeat' first | split at h | dsimp only at h
  all_goals first
    | (cases h; exact hv)
    | cases h

theorem Update_valid (env : Env) (m : Model) (msg : Msg) (o : Outcome)
    (hv : CursorValid m) (h : m.Update env msg = some o) : CursorValid o.model := by
  unfold Model.Update at h
  repeat' first | split at h | dsimp only at h
  all_goals first
    | (cases h; exact hv)
    | exact updateDialog_valid env m _ o hv h
    | exact updateInteract_valid m _ o hv h
    | exact updateNormal_valid env m _ o hv h

theorem New_expanded (store : Store) (i : Int) :
    (New store).expanded i = decide (0 ≤ i ∧ i < store.Groups.length) := by
  have key : ∀ (n : Nat) (e : Int → Bool),
      (List.range n).foldl (fun (e : Int → Bool) (j : Nat) => Function.update e (j : Int) true) e i
        = (decide (0 ≤ i ∧ i < n) || e i) := by
    intro n
    induction n with
    | zero =>
      intro e
      simp only [List.range_zero, List.foldl_nil, Nat.cast_zero]
      have : ¬ (0 ≤ i ∧ i < 0) := by omega
      simp [this]
    | succ n ih =>
      intro e
      rw [List.range_succ, List.foldl_append, List.foldl_cons, List.foldl_nil]
      by_cases hi : i = (n : Int)
      · subst hi
        simp
      · rw [Function.update_noteq hi, ih]
        congr 1
        rw [decide_eq_decide]
        push_cast
        omega
  show (List.range store.Groups.length).foldl
    (fun (e : Int → Bool) (j : Nat) => Function.update e (j : Int) true) (fun _ => false) i = _
  rw [key]
  simp

theorem New_valid (store : Store) : CursorValid (New store) := by
  refine ⟨fun _ => ⟨rfl, rfl⟩, fun hne => ?_⟩
  have : 0 < store.Groups.length := List.length_pos.2 hne
  exact ⟨le_refl _, by simpa [New] using this, Or.inl rfl⟩

/-- C3: in every state reachable from `New store` by any sequence of events the
cursor is valid: with no group it is `(0, -1)`, otherwise the group index is in
range and the cursor is on the header or on an existing session of an expanded
group; so, when there is a group, the cursor is an element of buildTree. -/
theorem reachable_cursor_valid (store : Store) (m : Model) (h : Reachable store m) :
    CursorValid m ∧ (m.store.Groups ≠ [] → m.cursor ∈ m.buildTree) := by
  have hv : CursorValid m := by
    induction h with
    | init => exact New_valid store
    | step env msg o _ hstep ih => exact Update_valid env _ msg o ih hstep
  exact ⟨hv, cursor_mem_of_valid m hv⟩



/-- A witness of C3: the state after the key `j` in the initial state of the
example store, with the cursor on the first session of the first group. -/
theorem reachable_cursor_valid_witness :
    CursorValid { New demoStore with sessionIdx := 0 } ∧
      (demoStore.Groups ≠ [] →
        (⟨0, 0⟩ : treePos) ∈ Model.buildTree { New demoStore with sessionIdx := 0 }) :=
  reachable_cursor_valid demoStore { New demoStore with sessionIdx := 0 }
    (Reachable.step demoEnv (.KeyMsg (runeKey 'j'))
      ⟨{ New demoStore with sessionIdx := 0 }, .nil, []⟩ Reachable.init rfl)

/-- A witness of C4: one step down from the initial state of the example
store. -/
theorem moveTree_spec_witness :
    ∃ p, p ∈ (New demoStore).buildTree ∧
      (New demoStore).moveTree 1 =
        some { New demoStore with groupIdx := p.groupIdx, sessionIdx := p.sessionIdx } ∧
      (New demoStore).buildTree[(min (max (((New demoStore).cursorPos : Int) + 1) 0)
          (((New demoStore).buildTree.length : Int) - 1)).toNat]? = some p := by
  obtain ⟨p, hp, hm, hi⟩ := (moveTree_spec (New demoStore) 1).1 (by decide)
  exact ⟨p, hp, hm, hi (by decide) (by decide)⟩

/-! ## Theorems: keys in a dialog -/

theorem String_of_named (msg : KeyMsg) (n : String) (h : msg.Typ = .KeyNamed n) :
    msg.String = n ∨ msg.String = "alt+" ++ n := by
  unfold KeyMsg.String
  rw [h]
  cases msg.Alt
  · left
    simp
  · right
    simp

theorem Typ_ne_of_String (msg : KeyMsg) (s n : String) (h : msg.String = s) (h1 : s ≠ n)
    (h2 : s ≠ "alt+" ++ n) : msg.Typ ≠ .KeyNamed n := by
  intro ht
  rcases String_of_named msg n ht with e | e
  · exact h1 (h.symm.trans e)
  · exact h2 (h.symm.trans e)

theorem Matches_Escape_iff (msg : KeyMsg) : Matches msg keys.Escape = true ↔ msg.String = "esc" := by
  simp [Matches, keys]

theorem Matches_Yes_iff (msg : KeyMsg) : Matches msg keys.Yes = true ↔ msg.String = "y" := by
  simp [Matches, keys]

theorem Update_key_dialog (env : Env) (m : Model) (msg : KeyMsg) (hd : m.dialog ≠ .dialogNone) :
    m.Update env (.KeyMsg msg) = m.updateDialog env msg := by
  simp only [Model.Update]
  rw [if_pos hd]

theorem updateDialog_y (env : Env) (m : Model) (msg : KeyMsg)
    (hd : m.dialog = .dialogDeleteConfirm) (hy : msg.String = "y") :
    m.updateDialog env msg = m.confirmDelete := by
  have h1 : ¬ Matches msg keys.Escape = true := by
    rw [Matches_Escape_iff, hy]; decide
  have h2 : ¬ msg.Typ = KeyTab := Typ_ne_of_String msg "y" "tab" hy (by decide) (by decide)
  have h3 : ¬ msg.Typ = KeyShiftTab :=
    Typ_ne_of_String msg "y" "shift+tab" hy (by decide) (by decide)
  have h4 : ¬ msg.Typ = KeyEnter := Typ_ne_of_String msg "y" "enter" hy (by decide) (by decide)
  have h5 : Matches msg keys.Yes = true := (Matches_Yes_iff msg).2 hy
  unfold Model.updateDialog
  rw [if_neg h1, if_neg h2, if_neg h3, if_neg h4, if_pos hd, if_pos h5]

/-- C6: when the delete-confirm dialog targets a session and `y` is pressed, that
session and no other is removed from its group (the other sessions keep their
order, the other groups are unchanged), the cursor stays in the group, goes to
the header when no session is left, and otherwise is on an existing session: the
same index, or the new last index when the deleted session was the last one. -/
theorem delete_session_confirm (env : Env) (m : Model) (msg : KeyMsg) (g : Group)
    (hd : m.dialog = .dialogDeleteConfirm) (ht : m.deleteTarget = "session")
    (hy : msg.String = "y")
    (h0 : 0 ≤ m.groupIdx) (hg : m.store.Groups[m.groupIdx.toNat]? = some g)
    (hs0 : 0 ≤ m.sessionIdx) (hs1 : m.sessionIdx < g.Sessions.length) :
    ∃ o, m.Update env (.KeyMsg msg) = some o ∧
      o.model.store.Groups = m.store.Groups.set m.groupIdx.toNat
        { g with Sessions := g.Sessions.eraseIdx m.sessionIdx.toNat } ∧
      o.model.groupIdx = m.groupIdx ∧
      o.model.store.Sessions o.model.groupIdx = g.Sessions.eraseIdx m.sessionIdx.toNat ∧
      (g.Sessions.length = 1 → o.model.sessionIdx = -1) ∧
      (1 < g.Sessions.length →
        o.model.sessionIdx =
          (if m.sessionIdx = (g.Sessions.length : Int) - 1 then (g.Sessions.length : Int) - 2
           else m.sessionIdx) ∧
        0 ≤ o.model.sessionIdx ∧
        o.model.sessionIdx < (o.model.store.Sessions o.model.groupIdx).length) := by
  have hlt := lt_length_of_getElem? _ _ _ hg
  have hgs := Sessions_eq_of_getElem? _ _ _ h0 hg
  have hD := DeleteSession_of_getElem? m.store m.groupIdx m.sessionIdx g h0 hg hs0 hs1
  have hS : (m.store.DeleteSession m.groupIdx m.sessionIdx).Sessions m.groupIdx
      = g.Sessions.eraseIdx m.sessionIdx.toNat :=
    Sessions_of_Groups_set _ m.store m.groupIdx _ h0 (by omega) hD
  have hl2 : m.sessionIdx.toNat < g.Sessions.length := by omega
  have hx : index g.Sessions m.sessionIdx = some g.Sessions[m.sessionIdx.toNat] := by
    rw [index_some_iff]
    exact ⟨hs0, List.getElem?_eq_getElem _⟩
  have hne : ¬ m.deleteTarget = "group" := by rw [ht]; decide
  rw [Update_key_dialog env m msg (by rw [hd]; decide), updateDialog_y env m msg hd hy]
  unfold Model.confirmDelete
  rw [if_neg hne]
  simp only [hgs, hs1, if_true, hx, hS, List.length_eraseIdx, hl2]
  refine ⟨_, rfl, hD, rfl, hS, ?_, ?_⟩
  · intro h1
    simp [h1]
  · intro h1
    dsimp only
    rw [hS, List.length_eraseIdx, if_pos hl2]
    have e1 : ¬ (((g.Sessions.length - 1 : Nat) : Int) = 0) := by omega
    rw [if_neg e1]
    split <;> split <;> omega



/-- A witness of C6: in the example store the session web (the last of the two
sessions of Work) is deleted and the cursor moves up to the session api. -/
theorem delete_session_confirm_witness :
    ∃ o, demoDeleteSession.Update demoEnv (.KeyMsg (runeKey 'y')) = some o ∧
      o.model.store.Groups = demoStore.Groups.set 0
        { ID := "g1", Name := "Work", CreatedAt := 1, Sessions :=
          [{ ID := "s1", Name := "api", SessionID := "abc123", Path := "/tmp/x",
             CreatedAt := 2 }] } ∧
      o.model.groupIdx = 0 ∧ o.model.sessionIdx = 0 := by
  obtain ⟨o, h1, h2, h3, _, _, h6⟩ :=
    delete_session_confirm demoEnv demoDeleteSession (runeKey 'y')
      { ID := "g1", Name := "Work", CreatedAt := 1, Sessions :=
        [{ ID := "s1", Name := "api", SessionID := "abc123", Path := "/tmp/x", CreatedAt := 2 },
         { ID := "s2", Name := "web", SessionID := "def456", Path := "~/web", CreatedAt := 3 }] }
      rfl rfl (by decide) (by decide) (by decide) (by decide) (by decide)
  exact ⟨o, h1, h2, h3, (h6 (by decide)).1⟩

/-- C7: when the delete-confirm dialog targets the group at index `g` of `n`
groups and `y` is pressed, the group list becomes the old list without element
`g`, the cursor is on a group header with group index `min g (n - 2)` when
`n > 1` and `0` when `n = 1`, and the dialog is closed. -/
theorem delete_group_confirm (env : Env) (m : Model) (msg : KeyMsg)
    (hd : m.dialog = .dialogDeleteConfirm) (ht : m.deleteTarget = "group")
    (hy : msg.String = "y")
    (h0 : 0 ≤ m.groupIdx) (h1 : m.groupIdx < m.store.Groups.length) :
    ∃ o, m.Update env (.KeyMsg msg) = some o ∧
      o.model.store.Groups = m.store.Groups.eraseIdx m.groupIdx.toNat ∧
      o.model.sessionIdx = -1 ∧
      (1 < m.store.Groups.length →
        o.model.groupIdx = min m.groupIdx ((m.store.Groups.length : Int) - 2)) ∧
      (m.store.Groups.length = 1 → o.model.groupIdx = 0) ∧
      o.model.dialog = .dialogNone := by
  obtain ⟨g, hg⟩ := getElem?_of_lt m.store m.groupIdx h0 h1
  have hx : index m.store.Groups m.groupIdx = some g := (index_some_iff _ _ _).2 ⟨h0, hg⟩
  have hD := DeleteGroup_of_lt m.store m.groupIdx h0 h1
  have hlt : m.groupIdx.toNat < m.store.Groups.length := by omega
  rw [Update_key_dialog env m msg (by rw [hd]; decide), updateDialog_y env m msg hd hy]
  unfold Model.confirmDelete
  rw [if_pos ht]
  simp only [hx, hD, List.length_eraseIdx, hlt, if_true]
  refine ⟨_, rfl, hD, rfl, ?_, ?_, rfl⟩
  · intro hn
    dsimp only
    split
    · omega
    · split <;> omega
  · intro hn
    dsimp only
    rw [if_pos (by omega)]

/-- A witness of C7: in the example store the group Work (index 0 of 2) is
deleted; the group Home is left and the cursor is on its header. -/
theorem delete_group_confirm_witness :
    ∃ o, demoDeleteGroup.Update demoEnv (.KeyMsg (runeKey 'y')) = some o ∧
      o.model.store.Groups = [{ ID := "g2", Name := "Home", CreatedAt := 4, Sessions := [] }] ∧
      o.model.sessionIdx = -1 ∧ o.model.groupIdx = 0 ∧ o.model.dialog = .dialogNone := by
  obtain ⟨o, h1, h2, h3, h4, _, h6⟩ :=
    delete_group_confirm demoEnv demoDeleteGroup (runeKey 'y') rfl rfl (by decide)
      (by decide) (by decide)
  exact ⟨o, h1, h2, h3, h4 (by decide), h6⟩

theorem index_some_of_lt {α : Type} (l : List α) (i : Int) (h0 : 0 ≤ i) (h1 : i < l.length) :
    ∃ a, index l i = some a := by
  have hlt : i.toNat < l.length := by omega
  exact ⟨l[i.toNat], (index_some_iff _ _ _).2 ⟨h0, List.getElem?_eq_getElem hlt⟩⟩

theorem fieldBlank_iff (m : Model) (i : Int) (t : TextInput) (h : index m.inputs i = some t) :
    m.fieldBlank i = true ↔ TrimSpace t.Value = "" := by
  unfold Model.fieldBlank
  rw [h]
  simp

theorem updateDialog_enter (env : Env) (m : Model) (msg : KeyMsg) (he : msg.Typ = KeyEnter) :
    m.updateDialog env msg = m.submitDialog env := by
  have h1 : ¬ Matches msg keys.Escape = true := by
    rw [Matches_Escape_iff]
    rcases String_of_named msg "enter" he with e | e <;> rw [e] <;> decide
  have h2 : ¬ msg.Typ = KeyTab := by rw [he]; decide
  have h3 : ¬ msg.Typ = KeyShiftTab := by rw [he]; decide
  unfold Model.updateDialog
  rw [if_neg h1, if_neg h2, if_neg h3, if_pos he]

theorem submitDialog_blank (env : Env) (m : Model) (hwf : DialogWF m)
    (hb : m.requiredBlank = true) :
    ∃ status, m.submitDialog env = some ⟨{ m with statusMsg := status }, .nil, []⟩ := by
  obtain ⟨_, _, w1, w2, w3⟩ := hwf
  unfold Model.requiredBlank at hb
  unfold Model.submitDialog
  split at hb
  · rename_i hd
    obtain ⟨t, ht⟩ := index_some_of_lt m.inputs 0 (le_refl _) (by have := w1 hd; omega)
    rw [fieldBlank_iff m 0 t ht] at hb
    simp only [hd, ht, hb, if_true]
    exact ⟨_, rfl⟩
  · rename_i hd
    have := w2 hd
    obtain ⟨t0, ht0⟩ := index_some_of_lt m.inputs 0 (le_refl _) (by omega)
    obtain ⟨t1, ht1⟩ := index_some_of_lt m.inputs 1 (by omega) (by omega)
    obtain ⟨t2, ht2⟩ := index_some_of_lt m.inputs 2 (by omega) (by omega)
    rw [Bool.or_eq_true, fieldBlank_iff m 0 t0 ht0, fieldBlank_iff m 1 t1 ht1] at hb
    simp only [hd, ht0, ht1, ht2, hb, if_true]
    exact ⟨_, rfl⟩
  · rename_i hd
    obtain ⟨t, ht⟩ := index_some_of_lt m.inputs 0 (le_refl _) (by have := w3 hd; omega)
    rw [fieldBlank_iff m 0 t ht] at hb
    simp only [hd, ht, hb, if_true]
    exact ⟨_, rfl⟩
  · cases hb

/-- C8: pressing Enter in a text dialog whose required field is empty after
trimming changes the status message and nothing else: the dialog kind, its
fields, the focus index, the cursor, the expand-state and the store stay as they
are, and nothing is saved. -/
theorem enter_blank_required (env : Env) (m : Model) (msg : KeyMsg) (hwf : DialogWF m)
    (ht : m.textDialog = true) (hb : m.requiredBlank = true) (he : msg.Typ = KeyEnter) :
    ∃ status, m.Update env (.KeyMsg msg) = some ⟨{ m with statusMsg := status }, .nil, []⟩ := by
  have hd : m.dialog ≠ .dialogNone := by
    intro h
    rw [Model.textDialog, h] at ht
    exact absurd ht (by decide)
  rw [Update_key_dialog env m msg hd, updateDialog_enter env m msg he]
  exact submitDialog_blank env m hwf hb

/-- A witness of C8: Enter in the new-group dialog whose field holds two
blanks. -/
theorem enter_blank_required_witness :
    ∃ status, demoBlankGroup.Update demoEnv (.KeyMsg (namedKey KeyEnter)) =
      some ⟨{ demoBlankGroup with statusMsg := status }, .nil, []⟩ :=
  enter_blank_required demoEnv demoBlankGroup (namedKey KeyEnter)
    ⟨by decide, by decide, by decide, by decide, by decide⟩ (by decide) (by decide) rfl

theorem cycleFocus_total (m : Model) (next : Int) (h0 : 0 ≤ m.inputIdx)
    (h1 : m.inputIdx < m.inputs.length) (hn0 : 0 ≤ next) (hn1 : next < m.inputs.length) :
    ∃ inputs, inputs.length = m.inputs.length ∧
      m.cycleFocus next = some ⟨{ m with inputs := inputs, inputIdx := next }, .Blink, []⟩ := by
  obtain ⟨a, ha⟩ := index_some_of_lt m.inputs m.inputIdx h0 h1
  obtain ⟨b, hb⟩ := index_some_of_lt (m.inputs.set m.inputIdx.toNat a.Blur) next hn0
    (by simpa using hn1)
  unfold Model.cycleFocus
  simp only [ha, hb]
  exact ⟨_, by simp, rfl⟩

theorem tmod_range (a : Int) (n : Nat) (ha : 0 ≤ a) (hn : 0 < n) :
    0 ≤ Int.tmod a n ∧ Int.tmod a n < n := by
  rw [Int.tmod_eq_emod ha (by omega)]
  exact ⟨Int.emod_nonneg _ (by omega), Int.emod_lt_of_pos _ (by omega)⟩

/-- C9: while a dialog is open, a key other than Enter on a text dialog with its
required fields filled and other than `y` on delete-confirm leaves the store,
the cursor and the expand-state unchanged; Escape closes any dialog; `n` closes
the delete-confirm dialog. -/
theorem dialog_key_frame (env : Env) (m : Model) (msg : KeyMsg) (hwf : DialogWF m)
    (hd : m.dialog ≠ .dialogNone) :
    (¬ (msg.Typ = KeyEnter ∧ m.textDialog = true ∧ m.requiredBlank = false) →
      ¬ (msg.String = "y" ∧ m.dialog = .dialogDeleteConfirm) →
      ∃ o, m.Update env (.KeyMsg msg) = some o ∧
        o.model.store = m.store ∧ o.model.groupIdx = m.groupIdx ∧
        o.model.sessionIdx = m.sessionIdx ∧ o.model.expanded = m.expanded) ∧
    (msg.String = "esc" →
      ∃ o, m.Update env (.KeyMsg msg) = some o ∧ o.model.dialog = .dialogNone ∧
        o.model.store = m.store ∧ o.model.groupIdx = m.groupIdx ∧
        o.model.sessionIdx = m.sessionIdx ∧ o.model.expanded = m.expanded) ∧
    (msg.String = "n" → m.dialog = .dialogDeleteConfirm →
      ∃ o, m.Update env (.KeyMsg msg) = some o ∧ o.model.dialog = .dialogNone ∧
        o.model.store = m.store ∧ o.model.groupIdx = m.groupIdx ∧
        o.model.sessionIdx = m.sessionIdx ∧ o.model.expanded = m.expanded) := by
  rw [Update_key_dialog env m msg hd]
  refine ⟨?_, ?_, ?_⟩
  · intro hne hny
    obtain ⟨w0, w1, w2, w3, w4⟩ := hwf
    unfold Model.updateDialog
    by_cases hesc : Matches msg keys.Escape = true
    · rw [if_pos hesc]
      exact ⟨_, rfl, rfl, rfl, rfl, rfl⟩
    rw [if_neg hesc]
    by_cases htab : msg.Typ = KeyTab
    · rw [if_pos htab]
      by_cases hlen : m.inputs.length > 1
      · rw [if_pos hlen]
        have hr := tmod_range (m.inputIdx + 1) m.inputs.length (by omega) (by omega)
        obtain ⟨inputs, _, hc⟩ := cycleFocus_total m _ w0 (w1 hlen) hr.1 hr.2
        rw [hc]
        exact ⟨_, rfl, rfl, rfl, rfl, rfl⟩
      · rw [if_neg hlen]
        exact ⟨_, rfl, rfl, rfl, rfl, rfl⟩
    rw [if_neg htab]
    by_cases hst : msg.Typ = KeyShiftTab
    · rw [if_pos hst]
      by_cases hlen : m.inputs.length > 1
      · rw [if_pos hlen]
        have hr := tmod_range (m.inputIdx - 1 + m.inputs.length) m.inputs.length
          (by omega) (by omega)
        obtain ⟨inputs, _, hc⟩ := cycleFocus_total m _ w0 (w1 hlen) hr.1 hr.2
        rw [hc]
        exact ⟨_, rfl, rfl, rfl, rfl, rfl⟩
      · rw [if_neg hlen]
        exact ⟨_, rfl, rfl, rfl, rfl, rfl⟩
    rw [if_neg hst]
    by_cases hent : msg.Typ = KeyEnter
    · rw [if_pos hent]
      by_cases htd : m.textDialog = true
      · have hb : m.requiredBlank = true := by
          by_contra hb
          exact hne ⟨hent, htd, by simpa using hb⟩
        obtain ⟨status, hs⟩ := submitDialog_blank env m ⟨w0, w1, w2, w3, w4⟩ hb
        rw [hs]
        exact ⟨_, rfl, rfl, rfl, rfl, rfl⟩
      · have hdc : m.dialog = .dialogDeleteConfirm := by
          unfold Model.textDialog at htd
          cases hdm : m.dialog <;> simp_all
        unfold Model.submitDialog
        simp only [hdc]
        exact ⟨_, rfl, rfl, rfl, rfl, rfl⟩
    rw [if_neg hent]
    by_cases hdc : m.dialog = .dialogDeleteConfirm
    · rw [if_pos hdc]
      have hy : ¬ Matches msg keys.Yes = true := by
        rw [Matches_Yes_iff]
        exact fun h => hny ⟨h, hdc⟩
      rw [if_neg hy]
      split <;> exact ⟨_, rfl, rfl, rfl, rfl, rfl⟩
    rw [if_neg hdc]
    by_cases hidx : m.inputIdx < m.inputs.length
    · rw [if_pos hidx]
      obtain ⟨a, ha⟩ := index_some_of_lt m.inputs m.inputIdx w0 hidx
      simp only [ha]
      exact ⟨_, rfl, rfl, rfl, rfl, rfl⟩
    · rw [if_neg hidx]
      exact ⟨_, rfl, rfl, rfl, rfl, rfl⟩
  · intro hesc
    unfold Model.updateDialog
    rw [if_pos ((Matches_Escape_iff msg).2 hesc)]
    exact ⟨_, rfl, rfl, rfl, rfl, rfl, rfl⟩
  · intro hn hdc
    have h1 : ¬ Matches msg keys.Escape = true := by
      rw [Matches_Escape_iff, hn]; decide
    have h2 : ¬ msg.Typ = KeyTab := Typ_ne_of_String msg "n" "tab" hn (by decide) (by decide)
    have h3 : ¬ msg.Typ = KeyShiftTab :=
      Typ_ne_of_String msg "n" "shift+tab" hn (by decide) (by decide)
    have h4 : ¬ msg.Typ = KeyEnter := Typ_ne_of_String msg "n" "enter" hn (by decide) (by decide)
    have h5 : ¬ Matches msg keys.Yes = true := by
      rw [Matches_Yes_iff, hn]; decide
    unfold Model.updateDialog
    rw [if_neg h1, if_neg h2, if_neg h3, if_neg h4, if_pos hdc, if_neg h5, if_pos (Or.inl hn)]
    exact ⟨_, rfl, rfl, rfl, rfl, rfl, rfl⟩



/-- A witness of C9: the key `n` in the delete-confirm dialog of the example
closes the dialog and leaves the store, the cursor and the expand-state alone. -/
theorem dialog_key_frame_witness :
    ∃ o, demoDeleteGroup.Update demoEnv (.KeyMsg (runeKey 'n')) = some o ∧
      o.model.dialog = .dialogNone ∧
      o.model.store = demoDeleteGroup.store ∧ o.model.groupIdx = demoDeleteGroup.groupIdx ∧
      o.model.sessionIdx = demoDeleteGroup.sessionIdx ∧
      o.model.expanded = demoDeleteGroup.expanded :=
  (dialog_key_frame demoEnv demoDeleteGroup (runeKey 'n')
    ⟨by decide, by decide, by decide, by decide, by decide⟩ (by decide)).2.2 (by decide) rfl

/-- C10: committing the new-session dialog with a non-empty trimmed project path
and session id appends one session to the end of the current group's list, with
the trimmed path and session id and with the trimmed display name, or the session
id when the display name is blank; the earlier sessions and the other groups are
unchanged, the current group is expanded, the cursor is on the new session and
the dialog is closed. -/
theorem new_session_commit (env : Env) (m : Model) (msg : KeyMsg) (g : Group)
    (i0 i1 i2 : TextInput)
    (hd : m.dialog = .dialogNewSession) (he : msg.Typ = KeyEnter)
    (hi0 : index m.inputs 0 = some i0) (hi1 : index m.inputs 1 = some i1)
    (hi2 : index m.inputs 2 = some i2)
    (hp : TrimSpace i0.Value ≠ "") (hs : TrimSpace i1.Value ≠ "")
    (h0 : 0 ≤ m.groupIdx) (hg : m.store.Groups[m.groupIdx.toNat]? = some g) :
    ∃ o, m.Update env (.KeyMsg msg) = some o ∧
      o.model.store.Groups = m.store.Groups.set m.groupIdx.toNat
        { g with Sessions := g.Sessions ++
          [{ ID := env.genID,
             Name := if TrimSpace i2.Value = "" then TrimSpace i1.Value else TrimSpace i2.Value,
             SessionID := TrimSpace i1.Value,
             Path := TrimSpace i0.Value,
             CreatedAt := env.now }] } ∧
      o.model.groupIdx = m.groupIdx ∧
      o.model.sessionIdx = (g.Sessions.length : Int) ∧
      o.model.expanded o.model.groupIdx = true ∧
      o.model.dialog = .dialogNone := by
  have hdn : m.dialog ≠ .dialogNone := by rw [hd]; decide
  rw [Update_key_dialog env m msg hdn, updateDialog_enter env m msg he]
  unfold Model.submitDialog
  simp only [hd, hi0, hi1, hi2]
  rw [if_neg (by rintro (h | h) <;> contradiction)]
  refine ⟨_, rfl, ?_, rfl, ?_, ?_, rfl⟩
  · exact AddSession_fst _ _ g _ _ _ _ _ h0 hg
  · exact AddSession_snd _ _ g _ _ _ _ _ h0 hg
  · simp

/-- A witness of C10: the commit of the example dialog adds the session tok42 at
the end of the group Work. -/
theorem new_session_commit_witness :
    ∃ o, demoNewSession.Update demoEnv (.KeyMsg (namedKey KeyEnter)) = some o ∧
      o.model.store.Groups = demoStore.Groups.set 0
        { ID := "g1", Name := "Work", CreatedAt := 1, Sessions :=
          [{ ID := "s1", Name := "api", SessionID := "abc123", Path := "/tmp/x", CreatedAt := 2 },
           { ID := "s2", Name := "web", SessionID := "def456", Path := "~/web", CreatedAt := 3 },
           { ID := "0011223344556677", Name := "tok42", SessionID := "tok42", Path := "/tmp/y",
             CreatedAt := 10 }] } ∧
      o.model.groupIdx = 0 ∧ o.model.sessionIdx = 2 ∧
      o.model.expanded o.model.groupIdx = true ∧ o.model.dialog = .dialogNone :=
  new_session_commit demoEnv demoNewSession (namedKey KeyEnter)
    { ID := "g1", Name := "Work", CreatedAt := 1, Sessions :=
      [{ ID := "s1", Name := "api", SessionID := "abc123", Path := "/tmp/x", CreatedAt := 2 },
       { ID := "s2", Name := "web", SessionID := "def456", Path := "~/web", CreatedAt := 3 }] }
    { (newInput "Project path" "~/projects/my-app" 60).Focus with value := " /tmp/y " }
    { newInput "Session ID / Name" "session id or rename" 60 with value := "tok42 " }
    (newInput "Display name (optional)" "e.g. api-refactor" 30)
    rfl rfl rfl rfl rfl (by decide) (by decide) (by decide) rfl

/-! ## Theorems: the dialog fields stay in place -/

theorem DialogWF_of_closed (m m1 : Model) (hi : m1.inputIdx = m.inputIdx)
    (hl : m1.inputs.length = m.inputs.length)
    (hd : m1.dialog = m.dialog ∨ m1.dialog = .dialogNone ∨ m1.dialog = .dialogDeleteConfirm)
    (hw : DialogWF m) : DialogWF m1 := by
  obtain ⟨w0, w1, w2, w3, w4⟩ := hw
  unfold DialogWF
  rw [hi, hl]
  refine ⟨w0, w1, ?_, ?_, ?_⟩ <;> intro h <;> rcases hd with hd | hd | hd <;> rw [hd] at h
  all_goals first
    | exact w2 h
    | exact w3 h
    | exact w4 h
    | cases h

theorem DialogWF_reset (m m1 : Model) (hi : m1.inputIdx = m.inputIdx) (hl : m1.inputs = [])
    (hd : m1.dialog = .dialogNone) (hw : DialogWF m) : DialogWF m1 := by
  unfold DialogWF
  rw [hi, hl, hd]
  refine ⟨hw.1, fun h => absurd h (by simp), ?_, ?_, ?_⟩ <;> intro h <;> cases h

theorem attachSession_dialogWF (env : Env) (m : Model) (o : Outcome)
    (hw : DialogWF m) (h : m.attachSession env = some o) : DialogWF o.model := by
  rcases attachSession_model env m o h with h1 | ⟨e, h1⟩ <;> rw [h1] <;> exact hw

theorem moveTree_dialogWF (m : Model) (d : Int) (o : Outcome) (hw : DialogWF m)
    (h : ((m.moveTree d).map fun m1 => (⟨m1, .nil, []⟩ : Outcome)) = some o) :
    DialogWF o.model := by
  by_cases hne : m.buildTree = []
  · rw [moveTree_of_nil m d hne] at h
    cases h
    exact hw
  · obtain ⟨p, _, _, hm⟩ := moveTree_of_ne_nil m d hne
    rw [hm] at h
    cases h
    exact hw



theorem normalEnter_dialogWF (env : Env) (m : Model) (o : Outcome)
    (hw : DialogWF m) (h : m.normalEnter env = some o) : DialogWF o.model := by
  unfold Model.normalEnter at h
  repeat' first | split at h | dsimp only at h
  all_goals first
    | (cases h; exact hw)
    | exact attachSession_dialogWF env m o hw h

theorem normalInteract_dialogWF (m : Model) (o : Outcome)
    (hw : DialogWF m) (h : m.normalInteract = some o) : DialogWF o.model := by
  unfold Model.normalInteract at h
  repeat' first | split at h | dsimp only at h
  all_goals first
    | (cases h; exact hw)
    | cases h

theorem normalNewGrp_dialogWF (m : Model) (o : Outcome)
    (h : m.normalNewGrp = some o) : DialogWF o.model := by
  unfold Model.normalNewGrp at h
  cases h
  refine ⟨le_refl _, fun h => absurd h (by simp), fun _ => by simp, ?_, fun _ => by simp⟩
  intro h
  cases h

theorem normalNewSess_dialogWF (m : Model) (o : Outcome)
    (hw : DialogWF m) (h : m.normalNewSess = some o) : DialogWF o.model := by
  unfold Model.normalNewSess at h
  split at h
  · cases h; exact hw
  · cases h
    refine ⟨le_refl _, fun _ => by simp, ?_, fun _ => by simp, ?_⟩ <;> intro h <;> cases h

theorem normalDelete_dialogWF (m : Model) (o : Outcome)
    (hw : DialogWF m) (h : m.normalDelete = some o) : DialogWF o.model := by
  unfold Model.normalDelete at h
  repeat' first | split at h | dsimp only at h
  all_goals first
    | (cases h; exact hw)
    | (cases h; exact DialogWF_of_closed m _ rfl rfl (Or.inr (Or.inr rfl)) hw)

theorem normalRename_dialogWF (env : Env) (m : Model) (o : Outcome)
    (hw : DialogWF m) (h : m.normalRename env = some o) : DialogWF o.model := by
  unfold Model.normalRename at h
  repeat' first | split at h | dsimp only at h
  all_goals first
    | (cases h; exact hw)
    | (cases h
       refine ⟨hw.1, fun h => absurd h (by simp), ?_, ?_, fun _ => by simp⟩ <;> intro h <;> cases h)
    | cases h

theorem updateNormal_dialogWF (env : Env) (m : Model) (msg : KeyMsg) (o : Outcome)
    (hw : DialogWF m) (h : m.updateNormal env msg = some o) : DialogWF o.model := by
  unfold Model.updateNormal at h
  repeat' split at h
  all_goals first
    | (cases h; exact hw)
    | exact moveTree_dialogWF m _ o hw h
    | exact normalEnter_dialogWF env m o hw h
    | exact normalInteract_dialogWF m o hw h
    | exact normalNewGrp_dialogWF m o h
    | exact normalNewSess_dialogWF m o hw h
    | exact normalDelete_dialogWF m o hw h
    | exact normalRename_dialogWF env m o hw h

theorem submitDialog_dialogWF (env : Env) (m : Model) (o : Outcome)
    (hw : DialogWF m) (h : m.submitDialog env = some o) : DialogWF o.model := by
  unfold Model.submitDialog at h
  repeat' first | split at h | dsimp only at h
  all_goals first
    | (cases h; exact hw)
    | (cases h; exact DialogWF_reset m _ rfl rfl rfl hw)
    | cases h

theorem confirmDelete_dialogWF (m : Model) (o : Outcome)
    (hw : DialogWF m) (h : m.confirmDelete = some o) : DialogWF o.model := by
  unfold Model.confirmDelete at h
  repeat' first | split at h | dsimp only at h
  all_goals first
    | (cases h; exact DialogWF_of_closed m _ rfl rfl (Or.inr (Or.inl rfl)) hw)
    | cases h

theorem cycleFocus_dialogWF (m : Model) (next : Int) (o : Outcome)
    (hw : DialogWF m) (h : m.cycleFocus next = some o) : DialogWF o.model := by
  unfold Model.cycleFocus at h
  split at h
  · cases h
  · dsimp only at h
    split at h
    · cases h
    · rename_i a _ b hb
      cases h
      rw [index_some_iff] at hb
      have hlt := lt_length_of_getElem? _ _ _ hb.2
      simp only [List.length_set] at hlt
      obtain ⟨_, _, w2, w3, w4⟩ := hw
      refine ⟨hb.1, fun _ => ?_, ?_, ?_, ?_⟩
      · simp only [List.length_set]
        omega
      · simpa only [List.length_set] using w2
      · simpa only [List.length_set] using w3
      · simpa only [List.length_set] using w4

theorem updateDialog_dialogWF (env : Env) (m : Model) (msg : KeyMsg) (o : Outcome)
    (hw : DialogWF m) (h : m.updateDialog env msg = some o) : DialogWF o.model := by
  unfold Model.updateDialog at h
  repeat' first | split at h | dsimp only at h
  all_goals first
    | (cases h; exact hw)
    | (cases h; exact DialogWF_reset m _ rfl rfl rfl hw)
    | (cases h; exact DialogWF_of_closed m _ rfl rfl (Or.inr (Or.inl rfl)) hw)
    | (cases h; exact DialogWF_of_closed m _ rfl (by simp) (Or.inl rfl) hw)
    | exact submitDialog_dialogWF env m o hw h
    | exact confirmDelete_dialogWF m o hw h
    | exact cycleFocus_dialogWF m _ o hw h
    | cases h

theorem updateInteract_dialogWF (m : Model) (msg : KeyMsg) (o : Outcome)
    (hw : DialogWF m) (h : m.updateInteract msg = some o) : DialogWF o.model := by
  unfold Model.updateInteract at h
  repeat' first | split at h | dsimp only at h
  all_goals first
    | (cases h; exact hw)
    | cases h

theorem Update_dialogWF (env : Env) (m : Model) (msg : Msg) (o : Outcome)
    (hw : DialogWF m) (h : m.Update env msg = some o) : DialogWF o.model := by
  unfold Model.Update at h
  repeat' first | split at h | dsimp only at h
  all_goals first
    | (cases h; exact hw)
    | exact updateDialog_dialogWF env m _ o hw h
    | exact updateInteract_dialogWF m _ o hw h
    | exact updateNormal_dialogWF env m _ o hw h

/-- In every reachable state the fields of the dialog are in place: the
hypothesis `DialogWF` of the theorems on dialog keys holds throughout a run. -/
theorem reachable_dialogWF (store : Store) (m : Model) (h : Reachable store m) :
    DialogWF m := by
  induction h with
  | init =>
    refine ⟨le_refl _, fun h => absurd h (by simp [New]), ?_, ?_, ?_⟩ <;> intro h <;> cases h
  | step env msg o _ hstep ih => exact Update_dialogWF env _ msg o ih hstep

/-! ## Theorems: what the sanitizer does keep of the underscore rule -/

/-- The sanitized name always begins with the letter `c` of the namespace, so it
never begins with an underscore. -/
theorem SanitizeName_head (group session : String) :
    (SanitizeName group session).data.head? = some 'c' := by
  obtain ⟨t, ht⟩ := Trim_claude group session
  simp only [SanitizeName, ht]
  split <;> simp

/-- When the trimmed name has at most 64 characters, so that nothing is cut off,
the sanitized name does not end with an underscore. -/
theorem SanitizeName_last_of_short (group session : String)
    (h : (Trim (ReplaceAllString ("claude_" ++ group ++ "_" ++ session).data '_') '_').length ≤ 64) :
    (SanitizeName group session).data.getLast? ≠ some '_' := by
  simp only [SanitizeName]
  rw [if_neg (by omega)]
  intro hl
  have hne : Trim (ReplaceAllString ("claude_" ++ group ++ "_" ++ session).data '_') '_' ≠ [] := by
    intro hnil
    rw [hnil] at hl
    cases hl
  have := List.rdropWhile_last_not (· == '_') _ hne
  rw [List.getLast?_eq_getLast _ hne] at hl
  injection hl with hl
  apply this
  unfold Trim at hl
  rw [hl]
  rfl

/-! ## Theorems: no event makes a reachable state panic -/

theorem TargetOK_of_dialog_ne (m : Model) (h1 : m.dialog ≠ .dialogRename)
    (h2 : m.dialog ≠ .dialogDeleteConfirm) : TargetOK m := by
  rintro (h | h)
  · exact absurd h h1
  · exact absurd h h2

theorem attachSession_dialog (env : Env) (m : Model) (o : Outcome)
    (h : m.attachSession env = some o) : o.model.dialog = m.dialog := by
  rcases attachSession_model env m o h with h1 | ⟨e, h1⟩ <;> rw [h1]

theorem moveTree_map_dialog (m : Model) (d : Int) (o : Outcome)
    (h : ((m.moveTree d).map fun m1 => (⟨m1, .nil, []⟩ : Outcome)) = some o) :
    o.model.dialog = m.dialog := by
  by_cases hne : m.buildTree = []
  · rw [moveTree_of_nil m d hne] at h
    cases h
    rfl
  · obtain ⟨p, _, _, hm⟩ := moveTree_of_ne_nil m d hne
    rw [hm] at h
    cases h
    rfl

theorem ne_nil_of_length_ne_zero {α : Type} (l : List α) (h : ¬ l.length = 0) : l ≠ [] := by
  intro hl
  rw [hl] at h
  exact h rfl

theorem updateNormal_targetOK (env : Env) (m : Model) (msg : KeyMsg) (o : Outcome)
    (hd : m.dialog = .dialogNone) (h : m.updateNormal env msg = some o) : TargetOK o.model := by
  have hnone : ∀ m1 : Model, m1.dialog = m.dialog → TargetOK m1 := by
    intro m1 h1
    apply TargetOK_of_dialog_ne <;> rw [h1, hd] <;> decide
  unfold Model.updateNormal at h
  repeat' split at h
  all_goals first
    | (cases h; exact hnone _ rfl)
    | exact hnone _ (moveTree_map_dialog m _ o h)
    | skip
  · -- Enter
    unfold Model.normalEnter at h
    repeat' first | split at h | dsimp only at h
    all_goals first
      | (cases h; exact hnone _ rfl)
      | exact hnone _ (attachSession_dialog env m o h)
  · -- Interact
    unfold Model.normalInteract at h
    repeat' first | split at h | dsimp only at h
    all_goals first
      | (cases h; exact hnone _ rfl)
      | cases h
  · -- NewGrp
    cases h
    apply TargetOK_of_dialog_ne <;> (intro hc; cases hc)
  · -- NewSess
    unfold Model.normalNewSess at h
    split at h
    · cases h; exact hnone _ rfl
    · cases h
      apply TargetOK_of_dialog_ne <;> (intro hc; cases hc)
  · -- Delete
    unfold Model.normalDelete at h
    split at h
    · cases h; exact hnone _ rfl
    · rename_i hc
      have hg : m.store.Groups ≠ [] := ne_nil_of_length_ne_zero _ (fun e => hc (Or.inr e))
      split at h
      · cases h
        exact fun _ => ⟨hg, Or.inl rfl⟩
      · rename_i hh
        cases h
        refine fun _ => ⟨hg, Or.inr ⟨rfl, ?_⟩⟩
        simpa [Model.onGroupHeader] using hh
  · -- Rename
    unfold Model.normalRename at h
    split at h
    · cases h; exact hnone _ rfl
    · rename_i hc
      have hg : m.store.Groups ≠ [] := ne_nil_of_length_ne_zero _ (fun e => hc (Or.inr e))
      split at h
      · split at h
        · cases h
        · cases h
          exact fun _ => ⟨hg, Or.inl rfl⟩
      · rename_i hh
        split at h
        · cases h
        · cases h
          refine fun _ => ⟨hg, Or.inr ⟨rfl, ?_⟩⟩
          simpa [Model.onGroupHeader] using hh



theorem TargetOK_closed (m1 : Model) (h : m1.dialog = .dialogNone) : TargetOK m1 := by
  apply TargetOK_of_dialog_ne <;> rw [h] <;> decide

theorem TargetOK_same (m m1 : Model) (hd : m1.dialog = m.dialog) (hs : m1.store = m.store)
    (ht : m1.deleteTarget = m.deleteTarget) (hsi : m1.sessionIdx = m.sessionIdx)
    (hok : TargetOK m) : TargetOK m1 := by
  unfold TargetOK
  rw [hd, hs, ht, hsi]
  exact hok

theorem submitDialog_targetOK (env : Env) (m : Model) (o : Outcome)
    (hok : TargetOK m) (h : m.submitDialog env = some o) : TargetOK o.model := by
  unfold Model.submitDialog at h
  repeat' first | split at h | dsimp only at h
  all_goals first
    | (cases h; exact hok)
    | (cases h; exact TargetOK_closed _ rfl)
    | cases h

theorem confirmDelete_targetOK (m : Model) (o : Outcome)
    (h : m.confirmDelete = some o) : TargetOK o.model := by
  unfold Model.confirmDelete at h
  repeat' first | split at h | dsimp only at h
  all_goals first
    | (cases h; exact TargetOK_closed _ rfl)
    | cases h

theorem cycleFocus_targetOK (m : Model) (next : Int) (o : Outcome)
    (hok : TargetOK m) (h : m.cycleFocus next = some o) : TargetOK o.model := by
  obtain ⟨inputs, hi⟩ := cycleFocus_model m next o h
  rw [hi]
  exact hok

theorem updateDialog_targetOK (env : Env) (m : Model) (msg : KeyMsg) (o : Outcome)
    (hok : TargetOK m) (h : m.updateDialog env msg = some o) : TargetOK o.model := by
  unfold Model.updateDialog at h
  repeat' first | split at h | dsimp only at h
  all_goals first
    | (cases h; exact hok)
    | (cases h; exact TargetOK_closed _ rfl)
    | exact submitDialog_targetOK env m o hok h
    | exact confirmDelete_targetOK m o h
    | exact cycleFocus_targetOK m _ o hok h
    | cases h

theorem updateInteract_targetOK (m : Model) (msg : KeyMsg) (o : Outcome)
    (hok : TargetOK m) (h : m.updateInteract msg = some o) : TargetOK o.model := by
  unfold Model.updateInteract at h
  repeat' first | split at h | dsimp only at h
  all_goals first
    | (cases h; exact hok)
    | cases h

theorem Update_targetOK (env : Env) (m : Model) (msg : Msg) (o : Outcome)
    (hok : TargetOK m) (h : m.Update env msg = some o) : TargetOK o.model := by
  unfold Model.Update at h
  split at h
  · cases h; exact hok
  · cases h; exact hok
  · split at h <;> (cases h; exact hok)
  · split at h <;> (cases h; exact hok)
  · split at h
    · exact updateDialog_targetOK env m _ o hok h
    · rename_i hd
      have hd2 : m.dialog = .dialogNone := by simpa using hd
      split at h
      · exact updateInteract_targetOK m _ o hok h
      · exact updateNormal_targetOK env m _ o hd2 h
  · cases h; exact hok

/-- In every reachable state an open rename or delete-confirm dialog has its
target. -/
theorem reachable_targetOK (store : Store) (m : Model) (h : Reachable store m) :
    TargetOK m := by
  induction h with
  | init => exact TargetOK_closed _ rfl
  | step env msg o _ hstep ih => exact Update_targetOK env _ msg o ih hstep

theorem gi_range_of_sessions (s : Store) (gi si : Int) (h0 : 0 ≤ si)
    (h1 : si < (s.Sessions gi).length) : 0 ≤ gi ∧ gi < s.Groups.length := by
  by_contra hc
  rw [Sessions_out_of_range s gi (by omega)] at h1
  simp only [List.length_nil] at h1
  omega

theorem attachSession_total (env : Env) (m : Model) : ∃ o, m.attachSession env = some o := by
  unfold Model.attachSession
  dsimp only
  by_cases hc : m.sessionIdx < 0 ∨ m.sessionIdx ≥ (m.store.Sessions m.groupIdx).length
  · rw [if_pos hc]
    exact ⟨_, rfl⟩
  · rw [if_neg hc]
    have hgi := gi_range_of_sessions m.store m.groupIdx m.sessionIdx (by omega) (by omega)
    obtain ⟨x, hx⟩ := index_some_of_lt (m.store.Sessions m.groupIdx) m.sessionIdx
      (by omega) (by omega)
    obtain ⟨g, hg⟩ := index_some_of_lt m.store.Groups m.groupIdx hgi.1 hgi.2
    simp only [hx, hg]
    split
    · split <;> exact ⟨_, rfl⟩
    · exact ⟨_, rfl⟩

theorem selectedTmuxName_total (m : Model) (hv : CursorValid m) :
    ∃ tn, m.selectedTmuxName = some tn := by
  unfold Model.selectedTmuxName
  dsimp only
  by_cases hc : m.groupIdx ≥ m.store.Groups.length ∨ m.sessionIdx < 0
  · rw [if_pos hc]
    exact ⟨_, rfl⟩
  · rw [if_neg hc]
    have hne : m.store.Groups ≠ [] := by
      intro hnil
      have := (hv.1 hnil).2
      omega
    obtain ⟨h0, h1, _⟩ := hv.2 hne
    obtain ⟨g, hg⟩ := index_some_of_lt m.store.Groups m.groupIdx h0 h1
    simp only [hg]
    by_cases hs : m.sessionIdx ≥ g.Sessions.length
    · rw [if_pos hs]
      exact ⟨_, rfl⟩
    · rw [if_neg hs]
      obtain ⟨x, hx⟩ := index_some_of_lt g.Sessions m.sessionIdx (by omega) (by omega)
      simp only [hx]
      exact ⟨_, rfl⟩

theorem session_range_of_valid (m : Model) (hv : CursorValid m) (hne : m.store.Groups ≠ [])
    (hs : 0 ≤ m.sessionIdx) :
    0 ≤ m.groupIdx ∧ m.groupIdx < m.store.Groups.length ∧
      m.sessionIdx < (m.store.Sessions m.groupIdx).length := by
  obtain ⟨h0, h1, h2⟩ := hv.2 hne
  rcases h2 with h2 | ⟨_, h2, _⟩
  · omega
  · exact ⟨h0, h1, h2⟩

theorem normalRename_total (env : Env) (m : Model) (hv : CursorValid m) :
    ∃ o, m.normalRename env = some o := by
  unfold Model.normalRename
  by_cases hc : m.focus ≠ .panelTree ∨ m.store.Groups.length = 0
  · rw [if_pos hc]
    exact ⟨_, rfl⟩
  · rw [if_neg hc]
    have hne : m.store.Groups ≠ [] := ne_nil_of_length_ne_zero _ (fun e => hc (Or.inr e))
    by_cases hh : m.onGroupHeader = true
    · rw [if_pos hh]
      obtain ⟨h0, h1, _⟩ := hv.2 hne
      obtain ⟨g, hg⟩ := index_some_of_lt m.store.Groups m.groupIdx h0 h1
      simp only [hg]
      exact ⟨_, rfl⟩
    · rw [if_neg hh]
      have hs : 0 ≤ m.sessionIdx := by simpa [Model.onGroupHeader] using hh
      obtain ⟨_, _, h2⟩ := session_range_of_valid m hv hne hs
      obtain ⟨x, hx⟩ := index_some_of_lt (m.store.Sessions m.groupIdx) m.sessionIdx hs h2
      simp only [hx]
      exact ⟨_, rfl⟩

theorem moveTree_total (m : Model) (d : Int) : ∃ m1, m.moveTree d = some m1 := by
  by_cases hne : m.buildTree = []
  · exact ⟨_, moveTree_of_nil m d hne⟩
  · obtain ⟨p, _, _, hm⟩ := moveTree_of_ne_nil m d hne
    exact ⟨_, hm⟩

theorem updateNormal_total (env : Env) (m : Model) (msg : KeyMsg) (hv : CursorValid m) :
    ∃ o, m.updateNormal env msg = some o := by
  obtain ⟨tn, htn⟩ := selectedTmuxName_total m hv
  unfold Model.updateNormal
  repeat' split
  all_goals first
    | exact ⟨_, rfl⟩
    | (obtain ⟨m1, h1⟩ := moveTree_total m (-1)
       rw [h1]
       exact ⟨_, rfl⟩)
    | (obtain ⟨m1, h1⟩ := moveTree_total m 1
       rw [h1]
       exact ⟨_, rfl⟩)
    | exact normalRename_total env m hv
    | skip
  · unfold Model.normalEnter
    repeat' split
    all_goals first
      | exact ⟨_, rfl⟩
      | exact attachSession_total env m
  · unfold Model.normalInteract
    simp only [htn]
    repeat' split
    all_goals exact ⟨_, rfl⟩
  · unfold Model.normalNewSess
    split <;> exact ⟨_, rfl⟩
  · unfold Model.normalDelete
    repeat' split
    all_goals exact ⟨_, rfl⟩

theorem updateInteract_total (m : Model) (msg : KeyMsg) (hv : CursorValid m) :
    ∃ o, m.updateInteract msg = some o := by
  obtain ⟨tn, htn⟩ := selectedTmuxName_total m hv
  unfold Model.updateInteract
  simp only [htn]
  repeat' split
  all_goals exact ⟨_, rfl⟩

theorem submitDialog_total (env : Env) (m : Model) (hv : CursorValid m) (hw : DialogWF m)
    (hok : TargetOK m) : ∃ o, m.submitDialog env = some o := by
  obtain ⟨_, _, w2, w3, w4⟩ := hw
  unfold Model.submitDialog
  split
  · rename_i hd
    obtain ⟨t, ht⟩ := index_some_of_lt m.inputs 0 (le_refl _) (by have := w2 hd; omega)
    simp only [ht]
    split <;> exact ⟨_, rfl⟩
  · rename_i hd
    have := w3 hd
    obtain ⟨t0, ht0⟩ := index_some_of_lt m.inputs 0 (le_refl _) (by omega)
    obtain ⟨t1, ht1⟩ := index_some_of_lt m.inputs 1 (by omega) (by omega)
    obtain ⟨t2, ht2⟩ := index_some_of_lt m.inputs 2 (by omega) (by omega)
    simp only [ht0, ht1, ht2]
    split <;> exact ⟨_, rfl⟩
  · rename_i hd
    obtain ⟨t, ht⟩ := index_some_of_lt m.inputs 0 (le_refl _) (by have := w4 hd; omega)
    obtain ⟨hne, htg⟩ := hok (Or.inl hd)
    obtain ⟨h0, h1, _⟩ := hv.2 hne
    obtain ⟨g, hg⟩ := index_some_of_lt m.store.Groups m.groupIdx h0 h1
    simp only [ht]
    split
    · exact ⟨_, rfl⟩
    · by_cases hgt : m.deleteTarget = "group"
      · simp only [hgt, if_true, renameGroup]
        rw [Store.Groups] at hg
        simp only [hg]
        exact ⟨_, rfl⟩
      · rcases htg with htg | ⟨_, hs⟩
        · exact absurd htg hgt
        · obtain ⟨_, _, h2⟩ := session_range_of_valid m hv hne hs
          have hg2 := (index_some_iff _ _ _).1 hg
          rw [Sessions_eq_of_getElem? _ _ _ h0 hg2.2] at h2
          obtain ⟨x, hx⟩ := index_some_of_lt g.Sessions m.sessionIdx hs h2
          simp only [hgt, if_false, renameSession]
          rw [Store.Groups] at hg
          simp only [hg, hx]
          exact ⟨_, rfl⟩
  · exact ⟨_, rfl⟩

theorem confirmDelete_total (m : Model) (hv : CursorValid m) (hok : TargetOK m)
    (hd : m.dialog = .dialogDeleteConfirm) : ∃ o, m.confirmDelete = some o := by
  obtain ⟨hne, htg⟩ := hok (Or.inr hd)
  obtain ⟨h0, h1, _⟩ := hv.2 hne
  obtain ⟨g, hg⟩ := index_some_of_lt m.store.Groups m.groupIdx h0 h1
  unfold Model.confirmDelete
  by_cases hgt : m.deleteTarget = "group"
  · rw [if_pos hgt]
    simp only [hg]
    exact ⟨_, rfl⟩
  · rw [if_neg hgt]
    dsimp only
    rcases htg with htg | ⟨_, hs⟩
    · exact absurd htg hgt
    · split
      · rename_i hlt
        obtain ⟨x, hx⟩ := index_some_of_lt (m.store.Sessions m.groupIdx) m.sessionIdx hs hlt
        simp only [hx]
        exact ⟨_, rfl⟩
      · exact ⟨_, rfl⟩

theorem updateDialog_total (env : Env) (m : Model) (msg : KeyMsg) (hv : CursorValid m)
    (hw : DialogWF m) (hok : TargetOK m) : ∃ o, m.updateDialog env msg = some o := by
  have w0 := hw.1
  have w1 := hw.2.1
  unfold Model.updateDialog
  split
  · exact ⟨_, rfl⟩
  split
  · split
    · rename_i hlen
      have hr := tmod_range (m.inputIdx + 1) m.inputs.length (by omega) (by omega)
      obtain ⟨inputs, _, hc⟩ := cycleFocus_total m _ w0 (w1 hlen) hr.1 hr.2
      exact ⟨_, hc⟩
    · exact ⟨_, rfl⟩
  split
  · split
    · rename_i hlen
      have hr := tmod_range (m.inputIdx - 1 + m.inputs.length) m.inputs.length
        (by omega) (by omega)
      obtain ⟨inputs, _, hc⟩ := cycleFocus_total m _ w0 (w1 hlen) hr.1 hr.2
      exact ⟨_, hc⟩
    · exact ⟨_, rfl⟩
  split
  · exact submitDialog_total env m hv hw hok
  split
  · rename_i hd
    split
    · exact confirmDelete_total m hv hok hd
    · split <;> exact ⟨_, rfl⟩
  split
  · rename_i hidx
    obtain ⟨a, ha⟩ := index_some_of_lt m.inputs m.inputIdx w0 hidx
    simp only [ha]
    exact ⟨_, rfl⟩
  · exact ⟨_, rfl⟩

theorem Update_total (env : Env) (m : Model) (msg : Msg) (hv : CursorValid m)
    (hw : DialogWF m) (hok : TargetOK m) : ∃ o, m.Update env msg = some o := by
  unfold Model.Update
  split
  · exact ⟨_, rfl⟩
  · exact ⟨_, rfl⟩
  · split <;> exact ⟨_, rfl⟩
  · split <;> exact ⟨_, rfl⟩
  · split
    · exact updateDialog_total env m _ hv hw hok
    · split
      · exact updateInteract_total m _ hv
      · exact updateNormal_total env m _ hv
  · exact ⟨_, rfl⟩



/-- In a reachable state `Update` answers every message in every environment:
no index is out of range, the run of the program never stops on a panic. -/
theorem reachable_Update_total (store : Store) (m : Model) (h : Reachable store m)
    (env : Env) (msg : Msg) : ∃ o, m.Update env msg = some o := by
  have hv : CursorValid m := by
    induction h with
    | init => exact New_valid store
    | step env msg o _ hstep ih => exact Update_valid env _ msg o ih hstep
  exact Update_total env m msg hv (reachable_dialogWF store m h) (reachable_targetOK store m h)

/-! ## Theorems: the three input regions -/

theorem moveTree_map_model (m : Model) (d : Int) (o : Outcome)
    (h : ((m.moveTree d).map fun m1 => (⟨m1, .nil, []⟩ : Outcome)) = some o) :
    o.cmd = .nil ∧ o.calls = [] ∧
      ∃ gi si, o.model = { m with groupIdx := gi, sessionIdx := si } := by
  by_cases hne : m.buildTree = []
  · rw [moveTree_of_nil m d hne] at h
    cases h
    exact ⟨rfl, rfl, m.groupIdx, m.sessionIdx, rfl⟩
  · obtain ⟨p, _, _, hm⟩ := moveTree_of_ne_nil m d hne
    rw [hm] at h
    cases h
    exact ⟨rfl, rfl, _, _, rfl⟩

theorem submitDialog_interactMode (env : Env) (m : Model) (o : Outcome)
    (h : m.submitDialog env = some o) : o.model.interactMode = m.interactMode := by
  unfold Model.submitDialog at h
  repeat' first | split at h | dsimp only at h
  all_goals first
    | (cases h; rfl)
    | cases h

theorem confirmDelete_interactMode (m : Model) (o : Outcome)
    (h : m.confirmDelete = some o) : o.model.interactMode = m.interactMode := by
  unfold Model.confirmDelete at h
  repeat' first | split at h | dsimp only at h
  all_goals first
    | (cases h; rfl)
    | cases h

theorem cycleFocus_interactMode (m : Model) (next : Int) (o : Outcome)
    (h : m.cycleFocus next = some o) : o.model.interactMode = m.interactMode := by
  obtain ⟨i, hi⟩ := cycleFocus_model m next o h
  rw [hi]

theorem updateDialog_interactMode (env : Env) (m : Model) (msg : KeyMsg) (o : Outcome)
    (h : m.updateDialog env msg = some o) : o.model.interactMode = m.interactMode := by
  unfold Model.updateDialog at h
  repeat' first | split at h | dsimp only at h
  all_goals first
    | (cases h; rfl)
    | cases h
    | exact cycleFocus_interactMode m _ o h
    | exact submitDialog_interactMode env m o h
    | exact confirmDelete_interactMode m o h

theorem attachSession_interactMode (env : Env) (m : Model) (o : Outcome)
    (h : m.attachSession env = some o) : o.model.interactMode = m.interactMode := by
  rcases attachSession_model env m o h with h1 | ⟨e, h1⟩ <;> rw [h1]

theorem moveTree_map_interactMode (m : Model) (d : Int) (o : Outcome)
    (h : ((m.moveTree d).map fun m1 => (⟨m1, .nil, []⟩ : Outcome)) = some o) :
    o.model.interactMode = m.interactMode := by
  obtain ⟨_, _, gi, si, hm⟩ := moveTree_map_model m d o h
  rw [hm]

theorem updateInteract_dialog (m : Model) (msg : KeyMsg) (o : Outcome)
    (h : m.updateInteract msg = some o) : o.model.dialog = m.dialog := by
  unfold Model.updateInteract at h
  repeat' first | split at h | dsimp only at h
  all_goals first
    | (cases h; rfl)
    | cases h

theorem updateNormal_exclusive (env : Env) (m : Model) (msg : KeyMsg) (o : Outcome)
    (hd : m.dialog = .dialogNone) (hi : m.interactMode = false)
    (h : m.updateNormal env msg = some o) :
    o.model.interactMode = true → o.model.dialog = .dialogNone := by
  have hsame : ∀ m1 : Model, m1.interactMode = m.interactMode →
      m1.interactMode = true → m1.dialog = .dialogNone := by
    intro m1 h1 h2
    rw [h1, hi] at h2
    cases h2
  unfold Model.updateNormal at h
  repeat' split at h
  all_goals first
    | (cases h; exact hsame _ rfl)
    | exact hsame _ (moveTree_map_interactMode m _ o h)
    | skip
  · -- Enter
    unfold Model.normalEnter at h
    repeat' first | split at h | dsimp only at h
    all_goals first
      | (cases h; exact hsame _ rfl)
      | exact hsame _ (attachSession_interactMode env m o h)
  · -- Interact
    unfold Model.normalInteract at h
    repeat' first | split at h | dsimp only at h
    all_goals first
      | (cases h; exact hsame _ rfl)
      | (cases h; exact fun _ => hd)
      | cases h
  · unfold Model.normalNewSess at h
    split at h <;> (cases h; exact hsame _ rfl)
  · unfold Model.normalDelete at h
    repeat' split at h
    all_goals (cases h; exact hsame _ rfl)
  · unfold Model.normalRename at h
    repeat' first | split at h | dsimp only at h
    all_goals first
      | (cases h; exact hsame _ rfl)
      | cases h

theorem Update_exclusive (env : Env) (m : Model) (msg : Msg) (o : Outcome)
    (hx : m.interactMode = true → m.dialog = .dialogNone)
    (h : m.Update env msg = some o) :
    o.model.interactMode = true → o.model.dialog = .dialogNone := by
  unfold Model.Update at h
  split at h
  · cases h; exact hx
  · cases h; exact hx
  · split at h <;> (cases h; exact hx)
  · split at h <;> (cases h; exact hx)
  · split at h
    · rename_i hd
      intro hi2
      rw [updateDialog_interactMode env m _ o h] at hi2
      exact absurd (hx hi2) hd
    · rename_i hd
      have hd2 : m.dialog = .dialogNone := by simpa using hd
      split at h
      · intro _
        rw [updateInteract_dialog m _ o h]
        exact hd2
      · rename_i hi
        exact updateNormal_exclusive env m _ o hd2 (by simpa using hi) h
  · cases h; exact hx

theorem reachable_exclusive (store : Store) (m : Model) (h : Reachable store m) :
    m.interactMode = true → m.dialog = .dialogNone := by
  induction h with
  | init => exact fun _ => rfl
  | step env msg o _ hstep ih => exact Update_exclusive env _ msg o ih hstep

theorem Update_key_interact (env : Env) (m : Model) (msg : KeyMsg)
    (hd : m.dialog = .dialogNone) (hi : m.interactMode = true) :
    m.Update env (.KeyMsg msg) = m.updateInteract msg := by
  simp only [Model.Update]
  rw [if_neg (by rw [hd]; decide), if_pos hi]

theorem Update_key_normal (env : Env) (m : Model) (msg : KeyMsg)
    (hd : m.dialog = .dialogNone) (hi : m.interactMode = false) :
    m.Update env (.KeyMsg msg) = m.updateNormal env msg := by
  simp only [Model.Update]
  rw [if_neg (by rw [hd]; decide), if_neg (by rw [hi]; decide)]

/-- C20: in every reachable state no dialog is open while interact mode is on,
so exactly one of the three regions (a dialog is open, interact mode is on,
neither) holds, and a key event goes to the handler of that region. -/
theorem reachable_regions_exclusive (store : Store) (m : Model) (h : Reachable store m) :
    ¬ (m.dialog ≠ .dialogNone ∧ m.interactMode = true) ∧
    (m.dialog ≠ .dialogNone ∨ m.interactMode = true ∨
      (m.dialog = .dialogNone ∧ m.interactMode = false)) ∧
    ∀ (env : Env) (msg : KeyMsg),
      (m.dialog ≠ .dialogNone → m.Update env (.KeyMsg msg) = m.updateDialog env msg) ∧
      (m.interactMode = true → m.Update env (.KeyMsg msg) = m.updateInteract msg) ∧
      (m.dialog = .dialogNone ∧ m.interactMode = false →
        m.Update env (.KeyMsg msg) = m.updateNormal env msg) := by
  have hx := reachable_exclusive store m h
  refine ⟨fun hc => hc.1 (hx hc.2), ?_, fun env msg => ⟨?_, ?_, ?_⟩⟩
  · by_cases hd : m.dialog = .dialogNone
    · cases hi : m.interactMode
      · exact Or.inr (Or.inr ⟨hd, rfl⟩)
      · exact Or.inr (Or.inl rfl)
    · exact Or.inl hd
  · exact Update_key_dialog env m msg
  · exact fun hi => Update_key_interact env m msg (hx hi) hi
  · exact fun hc => Update_key_normal env m msg hc.1 hc.2

theorem demoOnApi_reachable : Reachable demoStore demoOnApi :=
  Reachable.step demoEnv (.KeyMsg (runeKey 'j')) ⟨demoOnApi, .nil, []⟩ Reachable.init rfl

theorem demoInteract_reachable : Reachable demoStore demoInteract :=
  Reachable.step demoEnv (.KeyMsg (runeKey 'i')) ⟨demoInteract, .nil, []⟩
    (Reachable.step demoEnv (.refreshMsg demoLive "out")
      ⟨{ demoOnApi with tmuxSessions := demoLive, previewContent := "out" }, .scheduleRefresh, []⟩
      demoOnApi_reachable rfl)
    rfl

/-- A witness of C20: the example state in interact mode, reached by the key
`j`, a refresh and the key `i`. -/
theorem reachable_regions_exclusive_witness :
    ¬ (demoInteract.dialog ≠ .dialogNone ∧ demoInteract.interactMode = true) ∧
    (demoInteract.dialog ≠ .dialogNone ∨ demoInteract.interactMode = true ∨
      (demoInteract.dialog = .dialogNone ∧ demoInteract.interactMode = false)) ∧
    ∀ (env : Env) (msg : KeyMsg),
      (demoInteract.dialog ≠ .dialogNone →
        demoInteract.Update env (.KeyMsg msg) = demoInteract.updateDialog env msg) ∧
      (demoInteract.interactMode = true →
        demoInteract.Update env (.KeyMsg msg) = demoInteract.updateInteract msg) ∧
      (demoInteract.dialog = .dialogNone ∧ demoInteract.interactMode = false →
        demoInteract.Update env (.KeyMsg msg) = demoInteract.updateNormal env msg) :=
  reachable_regions_exclusive demoStore demoInteract demoInteract_reachable

/-! ## Theorems: entering and leaving interact mode -/

theorem selectedTmuxName_of_session (m : Model) (g : Group) (s : Session)
    (h0 : 0 ≤ m.groupIdx) (hg : m.store.Groups[m.groupIdx.toNat]? = some g)
    (hs0 : 0 ≤ m.sessionIdx) (hs : g.Sessions[m.sessionIdx.toNat]? = some s) :
    m.selectedTmuxName = some (SanitizeName g.Name s.Name) := by
  have hlt := lt_length_of_getElem? _ _ _ hg
  have hlt2 := lt_length_of_getElem? _ _ _ hs
  have hig : index m.store.Groups m.groupIdx = some g := (index_some_iff _ _ _).2 ⟨h0, hg⟩
  have his : index g.Sessions m.sessionIdx = some s := (index_some_iff _ _ _).2 ⟨hs0, hs⟩
  unfold Model.selectedTmuxName
  dsimp only
  rw [if_neg (by omega)]
  simp only [hig]
  rw [if_neg (by omega)]
  simp only [his]

theorem updateNormal_interact (env : Env) (m : Model) (msg : KeyMsg) (hk : msg.String = "i") :
    m.updateNormal env msg = m.normalInteract := by
  have h1 : ¬ Matches msg keys.Quit = true := by simp [Matches, keys, hk]
  have h2 : ¬ Matches msg keys.Tab = true := by simp [Matches, keys, hk]
  have h3 : ¬ Matches msg keys.Up = true := by simp [Matches, keys, hk]
  have h4 : ¬ Matches msg keys.Down = true := by simp [Matches, keys, hk]
  have h5 : ¬ Matches msg keys.Enter = true := by simp [Matches, keys, hk]
  have h6 : Matches msg keys.Interact = true := by simp [Matches, keys, hk]
  unfold Model.updateNormal
  rw [if_neg h1, if_neg h2, if_neg h3, if_neg h4, if_neg h5, if_pos h6]

/-- C11: in normal mode with the cursor on a session whose sanitized identifier
is not in the live set, the interact key only sets the status message: interact
mode stays off, the dialog, the focus, the cursor, the expand-state and the store
are unchanged, no command is returned and no call to tmux is made. -/
theorem interact_refused (env : Env) (m : Model) (msg : KeyMsg) (g : Group) (s : Session)
    (hd : m.dialog = .dialogNone) (hi : m.interactMode = false) (hk : msg.String = "i")
    (h0 : 0 ≤ m.groupIdx) (hg : m.store.Groups[m.groupIdx.toNat]? = some g)
    (hs0 : 0 ≤ m.sessionIdx) (hs : g.Sessions[m.sessionIdx.toNat]? = some s)
    (hdead : m.tmuxSessions (SanitizeName g.Name s.Name) = false) :
    m.Update env (.KeyMsg msg) =
        some ⟨{ m with statusMsg := "Session not running. Press Enter on tree to start." },
          .nil, []⟩ ∧
      ∀ o, m.Update env (.KeyMsg msg) = some o → o.model.interactMode = false := by
  have htn := selectedTmuxName_of_session m g s h0 hg hs0 hs
  have hh : ¬ m.onGroupHeader = true := by
    simp only [Model.onGroupHeader, decide_eq_true_eq]
    omega
  have hres : m.Update env (.KeyMsg msg) =
      some ⟨{ m with statusMsg := "Session not running. Press Enter on tree to start." },
        .nil, []⟩ := by
    rw [Update_key_normal env m msg hd hi, updateNormal_interact env m msg hk]
    unfold Model.normalInteract
    rw [if_neg hh]
    simp only [htn]
    rw [if_pos (Or.inr (by rw [hdead]; rfl))]
  refine ⟨hres, fun o ho => ?_⟩
  rw [hres] at ho
  cases ho
  exact hi

/-- A witness of C11: the key `i` on the session api of the example while no
session is live. -/
theorem interact_refused_witness :
    demoOnApi.Update demoEnv (.KeyMsg (runeKey 'i')) =
        some ⟨{ demoOnApi with statusMsg := "Session not running. Press Enter on tree to start." },
          .nil, []⟩ ∧
      ∀ o, demoOnApi.Update demoEnv (.KeyMsg (runeKey 'i')) = some o →
        o.model.interactMode = false :=
  interact_refused demoEnv demoOnApi (runeKey 'i')
    { ID := "g1", Name := "Work", CreatedAt := 1, Sessions :=
      [{ ID := "s1", Name := "api", SessionID := "abc123", Path := "/tmp/x", CreatedAt := 2 },
       { ID := "s2", Name := "web", SessionID := "def456", Path := "~/web", CreatedAt := 3 }] }
    { ID := "s1", Name := "api", SessionID := "abc123", Path := "/tmp/x", CreatedAt := 2 }
    rfl rfl (by decide) (by decide) rfl (by decide) rfl rfl

theorem updateInteract_dead (m : Model) (msg : KeyMsg) (tn : String)
    (htn : m.selectedTmuxName = some tn) (hdead : tn = "" ∨ m.tmuxSessions tn = false) :
    m.updateInteract msg =
      some ⟨{ m with interactMode := false, statusMsg := "Session ended" }, .nil, []⟩ := by
  unfold Model.updateInteract
  simp only [htn]
  rw [if_pos]
  rcases hdead with h | h
  · exact Or.inl h
  · exact Or.inr (by rw [h]; rfl)

/-- C13: in a reachable state with interact mode on whose live set does not
contain the identifier of the selected session, the next key event, whatever the
key, turns interact mode off, sets the status message to `Session ended`, returns
no command (no send_text, no send_special) and makes no call. -/
theorem interact_ends_on_key (store : Store) (m : Model) (tn : String)
    (hr : Reachable store m) (hi : m.interactMode = true)
    (htn : m.selectedTmuxName = some tn) (hdead : m.tmuxSessions tn = false)
    (env : Env) (msg : KeyMsg) :
    m.Update env (.KeyMsg msg) =
      some ⟨{ m with interactMode := false, statusMsg := "Session ended" }, .nil, []⟩ := by
  rw [Update_key_interact env m msg (reachable_exclusive store m hr hi) hi]
  exact updateInteract_dead m msg tn htn (Or.inr hdead)

theorem demoInteractDead_reachable :
    Reachable demoStore { demoInteract with tmuxSessions := fun _ => false, previewContent := "" } :=
  Reachable.step demoEnv (.refreshMsg (fun _ => false) "")
    ⟨{ demoInteract with tmuxSessions := fun _ => false, previewContent := "" },
      .scheduleRefresh, []⟩
    demoInteract_reachable rfl

/-- A witness of C13: the example state in interact mode after a refresh that
reports no live session, and the key `x`. -/
theorem interact_ends_on_key_witness :
    Model.Update demoEnv
        { demoInteract with tmuxSessions := fun _ => false, previewContent := "" }
        (.KeyMsg (runeKey 'x')) =
      some ⟨{ demoInteract with tmuxSessions := fun _ => false, previewContent := "",
                                interactMode := false, statusMsg := "Session ended" },
        .nil, []⟩ :=
  interact_ends_on_key demoStore
    { demoInteract with tmuxSessions := fun _ => false, previewContent := "" }
    "claude_Work_api" demoInteractDead_reachable rfl (by decide) rfl demoEnv (runeKey 'x')

theorem updateInteract_live (m : Model) (msg : KeyMsg) (tn : String)
    (htn : m.selectedTmuxName = some tn) (hne : tn ≠ "") (hlive : m.tmuxSessions tn = true) :
    m.updateInteract msg =
      if msg.String = "ctrl+q" then
        some ⟨{ m with interactMode := false, statusMsg := "Exited interact mode" }, .nil, []⟩
      else
        match tmuxSpecialKeys.lookup msg.String with
        | some tmuxKey => some ⟨m, .sendSpecialCmd tn tmuxKey, []⟩
        | none =>
          if HasPrefix msg.String "ctrl+" then
            some ⟨m, .sendSpecialCmd tn ("C-" ++ TrimPrefix msg.String "ctrl+"), []⟩
          else if HasPrefix msg.String "alt+" then
            some ⟨m, .sendSpecialCmd tn ("M-" ++ TrimPrefix msg.String "alt+"), []⟩
          else if msg.Typ = .KeyRunes then
            some ⟨m, .sendTextCmd tn (String.mk msg.Runes), []⟩
          else if msg.Typ = KeySpace then
            some ⟨m, .sendTextCmd tn " ", []⟩
          else some ⟨m, .nil, []⟩ := by
  have hn : ¬ (tn = "" ∨ (!m.tmuxSessions tn) = true) := by
    rintro (h | h)
    · exact hne h
    · rw [hlive] at h
      cases h
  unfold Model.updateInteract
  simp only [htn]
  exact (if_neg hn).trans rfl

/-- What the code does keep of the exit rule of interact mode, with a key event
identified by its string as the code identifies it: in a reachable state with
interact mode on and the selected session live, an event whose string is
`ctrl+q` turns interact mode off, returns no command and makes no call; an event
with any other string leaves the whole model as it is, interact mode included,
and never returns the quit command: `q` is forwarded as text and ctrl+c as the
special key `C-c`. -/
theorem interact_exit_only_ctrl_q (store : Store) (m : Model) (tn : String)
    (hr : Reachable store m) (hi : m.interactMode = true)
    (htn : m.selectedTmuxName = some tn) (hne : tn ≠ "") (hlive : m.tmuxSessions tn = true)
    (env : Env) (msg : KeyMsg) :
    (msg.String = "ctrl+q" →
      m.Update env (.KeyMsg msg) =
        some ⟨{ m with interactMode := false, statusMsg := "Exited interact mode" }, .nil, []⟩) ∧
    (msg.String ≠ "ctrl+q" →
      ∃ cmd, m.Update env (.KeyMsg msg) = some ⟨m, cmd, []⟩ ∧ cmd ≠ .Quit) ∧
    m.Update env (.KeyMsg (runeKey 'q')) = some ⟨m, .sendTextCmd tn "q", []⟩ ∧
    m.Update env (.KeyMsg (namedKey (.KeyNamed "ctrl+c"))) =
      some ⟨m, .sendSpecialCmd tn "C-c", []⟩ := by
  have hd := reachable_exclusive store m hr hi
  refine ⟨fun hq => ?_, fun hq => ?_, ?_, ?_⟩
  · rw [Update_key_interact env m msg hd hi, updateInteract_live m msg tn htn hne hlive,
      if_pos hq]
  · rw [Update_key_interact env m msg hd hi, updateInteract_live m msg tn htn hne hlive,
      if_neg hq]
    repeat' split
    all_goals exact ⟨_, rfl, fun h => by cases h⟩
  · rw [Update_key_interact env m _ hd hi, updateInteract_live m _ tn htn hne hlive]
    rfl
  · rw [Update_key_interact env m _ hd hi, updateInteract_live m _ tn htn hne hlive]
    rfl

/-- An instance of the exit rule: the example state in interact mode on the live
session api, with the key ctrl+q. -/
theorem interact_exit_only_ctrl_q_witness :
    demoInteract.Update demoEnv (.KeyMsg (namedKey (.KeyNamed "ctrl+q"))) =
      some ⟨{ demoInteract with interactMode := false, statusMsg := "Exited interact mode" },
        .nil, []⟩ :=
  (interact_exit_only_ctrl_q demoStore demoInteract "claude_Work_api" demoInteract_reachable
    rfl (by decide) (by decide) rfl demoEnv (namedKey (.KeyNamed "ctrl+q"))).1 (by decide)

/-- C14 (the code at the failing input): in interact mode on the live session
api, a key event of type runes without alt whose runes are the six characters
`ctrl+q` is not the key ctrl+q, but its string is `ctrl+q` and the code compares
strings: the event turns interact mode off and nothing is forwarded, where the
claim has every key event other than the key ctrl+q leave interact mode on and
the model unchanged. -/
theorem runes_spelling_ctrl_q_exits :
    Reachable demoStore demoInteract ∧
    demoInteract.interactMode = true ∧
    demoInteract.selectedTmuxName = some "claude_Work_api" ∧
    demoInteract.tmuxSessions "claude_Work_api" = true ∧
    ({ Typ := .KeyRunes, Runes := ['c', 't', 'r', 'l', '+', 'q'], Alt := false,
       Paste := false } : KeyMsg) ≠ namedKey (.KeyNamed "ctrl+q") ∧
    KeyMsg.String { Typ := .KeyRunes, Runes := ['c', 't', 'r', 'l', '+', 'q'], Alt := false,
                    Paste := false } = "ctrl+q" ∧
    demoInteract.Update demoEnv
        (.KeyMsg { Typ := .KeyRunes, Runes := ['c', 't', 'r', 'l', '+', 'q'], Alt := false,
                   Paste := false }) =
      some ⟨{ demoInteract with interactMode := false, statusMsg := "Exited interact mode" },
        .nil, []⟩ ∧
    (demoInteract.Update demoEnv
        (.KeyMsg { Typ := .KeyRunes, Runes := ['c', 't', 'r', 'l', '+', 'q'], Alt := false,
                   Paste := false })).map (fun o => o.model.interactMode) = some false := by
  exact ⟨demoInteract_reachable, rfl, by decide, rfl, by decide, by decide, rfl, rfl⟩

/-- C15 (the code at the failing input): in interact mode on the live session
api, a key event of type runes without alt whose runes are the five letters
`enter` is looked up in the table of special keys by its string and forwarded by
send_special as the key Enter, not by send_text as the text `enter`; likewise
the runes `up` are forwarded as the arrow key Up. -/
theorem runes_spelling_key_name :
    demoInteract.Update demoEnv
        (.KeyMsg { Typ := .KeyRunes, Runes := ['e', 'n', 't', 'e', 'r'], Alt := false,
                   Paste := false }) =
      some ⟨demoInteract, .sendSpecialCmd "claude_Work_api" "Enter", []⟩ ∧
    demoInteract.Update demoEnv
        (.KeyMsg { Typ := .KeyRunes, Runes := ['u', 'p'], Alt := false, Paste := false }) =
      some ⟨demoInteract, .sendSpecialCmd "claude_Work_api" "Up", []⟩ := by
  exact ⟨rfl, rfl⟩

theorem lookup_single (c : Char) : tmuxSpecialKeys.lookup (String.mk [c]) = none := by
  have hlen : ∀ p ∈ tmuxSpecialKeys, 2 ≤ p.1.length := by decide
  rw [List.lookup_eq_none_iff]
  intro p hp
  have h2 := hlen p hp
  rw [bne_iff_ne]
  intro h1
  rw [← h1] at h2
  simp [String.length] at h2

/-- What the code does keep of C15: a key event of a single rune without alt is
forwarded by send_text with that rune as the text, and the space key with one
blank. -/
theorem single_rune_forwarded (m : Model) (tn : String) (c : Char) (paste : Bool)
    (htn : m.selectedTmuxName = some tn) (hne : tn ≠ "") (hlive : m.tmuxSessions tn = true) :
    m.updateInteract { Typ := .KeyRunes, Runes := [c], Alt := false, Paste := false } =
        some ⟨m, .sendTextCmd tn (String.mk [c]), []⟩ ∧
      m.updateInteract { Typ := KeySpace, Runes := [], Alt := false, Paste := paste } =
        some ⟨m, .sendTextCmd tn " ", []⟩ := by
  constructor
  · rw [updateInteract_live m _ tn htn hne hlive]
    have hs : (KeyMsg.String { Typ := .KeyRunes, Runes := [c], Alt := false, Paste := false })
        = String.mk [c] := by
      simp [KeyMsg.String]
    rw [hs, lookup_single]
    have h1 : ¬ String.mk [c] = "ctrl+q" := by
      intro h
      have := congrArg String.length h
      simp [String.length] at this
    have h2 : HasPrefix (String.mk [c]) "ctrl+" = false := by
      simp [HasPrefix, List.isPrefixOf]
    have h3 : HasPrefix (String.mk [c]) "alt+" = false := by
      simp [HasPrefix, List.isPrefixOf]
    rw [if_neg h1]
    simp only [h2, h3, Bool.false_eq_true, if_false, if_true]
  · rw [updateInteract_live m _ tn htn hne hlive]
    rfl

/-! ## Theorems: what a refresh event does -/

theorem Update_refresh (env : Env) (m : Model) (sessions : String → Bool) (content : String) :
    m.Update env (.refreshMsg sessions content) =
      some ⟨{ m with tmuxSessions := sessions, previewContent := content },
        .scheduleRefresh, []⟩ := rfl

/-- C12 as stated fails: in the example state in interact mode on the session
api, a refresh event whose live set is empty leaves interact mode on and the
status message empty. -/
theorem refresh_keeps_interact_mode :
    demoInteract.interactMode = true ∧
    demoInteract.selectedTmuxName = some "claude_Work_api" ∧
    (demoInteract.Update demoEnv (.refreshMsg (fun _ => false) "")).map
        (fun o => (o.model.interactMode, o.model.statusMsg)) = some (true, "") := by
  decide

/-- C12 as amended: in a reachable state with interact mode on, a refresh event
whose live set does not contain the identifier of the selected session leaves
interact mode on and the status message as it was; the next key event, whatever
the key, then turns interact mode off and sets the status message to
`Session ended`. -/
theorem interact_ends_after_refresh (store : Store) (m : Model) (tn : String)
    (sessions : String → Bool) (content : String)
    (hr : Reachable store m) (hi : m.interactMode = true)
    (htn : m.selectedTmuxName = some tn) (hdead : sessions tn = false)
    (env env2 : Env) (msg : KeyMsg) :
    ∃ o, m.Update env (.refreshMsg sessions content) = some o ∧
      o.model.interactMode = true ∧ o.model.statusMsg = m.statusMsg ∧
      o.model.Update env2 (.KeyMsg msg) =
        some ⟨{ o.model with interactMode := false, statusMsg := "Session ended" }, .nil, []⟩ := by
  have hd := reachable_exclusive store m hr hi
  have h2 : Model.Update env2 { m with tmuxSessions := sessions, previewContent := content }
      (.KeyMsg msg) =
      some ⟨{ m with tmuxSessions := sessions, previewContent := content,
                     interactMode := false, statusMsg := "Session ended" }, .nil, []⟩ := by
    exact (Update_key_interact env2
        { m with tmuxSessions := sessions, previewContent := content } msg hd hi).trans
      (updateInteract_dead { m with tmuxSessions := sessions, previewContent := content }
        msg tn htn (Or.inr hdead))
  exact ⟨_, Update_refresh env m sessions content, hi, rfl, h2⟩

/-- A witness of amended C12: the example state in interact mode, a refresh with
an empty live set, then the key `x`. -/
theorem interact_ends_after_refresh_witness :
    ∃ o, demoInteract.Update demoEnv (.refreshMsg (fun _ => false) "") = some o ∧
      o.model.interactMode = true ∧ o.model.statusMsg = demoInteract.statusMsg ∧
      o.model.Update demoEnv (.KeyMsg (runeKey 'x')) =
        some ⟨{ o.model with interactMode := false, statusMsg := "Session ended" }, .nil, []⟩ :=
  interact_ends_after_refresh demoStore demoInteract "claude_Work_api" (fun _ => false) ""
    demoInteract_reachable rfl (by decide) rfl demoEnv demoEnv (runeKey 'x')

theorem foldl_update_true (l : List String) (r : String → Bool) (x : String) :
    l.foldl (fun (r : String → Bool) (s : String) => Function.update r s true) r x
      = (decide (x ∈ l) || r x) := by
  induction l generalizing r with
  | nil => simp
  | cons a l ih =>
    rw [List.foldl_cons, ih]
    by_cases hx : x = a
    · subst hx
      simp
    · rw [Function.update_noteq hx]
      simp [hx]

/-- C16 as stated fails: the refresh run for the session api of the example
captures the pane of api, and when its event is applied in the state whose
selected session is web, the preview content becomes the text captured from
api. -/
theorem stale_capture_applied :
    demoOnApi.selectedTmuxName = some "claude_Work_api" ∧
    demoOnWeb.selectedTmuxName = some "claude_Work_web" ∧
    (demoOnApi.doRefresh demoTmux).bind
        (fun msg => (demoOnWeb.Update demoEnv msg).map fun o => o.model.previewContent)
      = some "output of claude_Work_api" := by
  decide

/-- C16 as amended: a capture result produced by a refresh for a live session A
is not re-validated when it is applied: in whatever state the event is applied,
whichever session is selected there, Update stores its live set and the text
captured from A as the preview content. -/
theorem refresh_not_revalidated (t : Tmux) (mA : Model) (tnA text : String)
    (hA : mA.selectedTmuxName = some tnA) (hne : tnA ≠ "") (hlive : tnA ∈ t.ListSessions)
    (hcap : t.CapturePane tnA 200 = some text) :
    ∃ sessions, mA.doRefresh t = some (.refreshMsg sessions text) ∧
      ∀ (env : Env) (mB : Model),
        mB.Update env (.refreshMsg sessions text) =
          some ⟨{ mB with tmuxSessions := sessions, previewContent := text },
            .scheduleRefresh, []⟩ := by
  refine ⟨t.ListSessions.foldl
    (fun (r : String → Bool) (s : String) => Function.update r s true) (fun _ => false),
    ?_, fun env mB => Update_refresh env mB _ text⟩
  unfold Model.doRefresh
  simp only [hA]
  rw [foldl_update_true]
  simp [hne, hlive, hcap]

/-- A witness of amended C16: the refresh run for the session api of the
example. -/
theorem refresh_not_revalidated_witness :
    ∃ sessions, demoOnApi.doRefresh demoTmux =
        some (.refreshMsg sessions "output of claude_Work_api") ∧
      ∀ (env : Env) (mB : Model),
        mB.Update env (.refreshMsg sessions "output of claude_Work_api") =
          some ⟨{ mB with tmuxSessions := sessions,
                          previewContent := "output of claude_Work_api" },
            .scheduleRefresh, []⟩ :=
  refresh_not_revalidated demoTmux demoOnApi "claude_Work_api" "output of claude_Work_api"
    (by decide) (by decide) (by decide) rfl

/-! ## Theorems: the preview window, the attach action, the status line -/

/-- C17 (the code at the failing input): with 5 captured lines and 3 available
rows the code keeps the slice of the last 3 lines and overwrites its first
element with the marker, so the displayed lines are the marker with N = 2 and
the last 2 lines; the third line from the end is neither shown nor counted. -/
theorem preview_marker_overwrites_line (dimStyle : String → String) :
    previewLines dimStyle "l1\nl2\nl3\nl4\nl5\n" 10 6 =
      some [dimStyle "  ↑ 2 more lines above", "l4", "l5"] := by
  have hlines : (Split (TrimRight "l1\nl2\nl3\nl4\nl5\n".data '\n') '\n').map String.mk
      = ["l1", "l2", "l3", "l4", "l5"] := by decide
  have hmark : "  ↑ " ++ toString ((5 : Int) - 3) ++ " more lines above"
      = "  ↑ 2 more lines above" := by decide
  unfold previewLines
  simp only
  rw [if_neg (show ¬ ("l1\nl2\nl3\nl4\nl5\n" = "") by decide), hlines]
  rw [if_pos (by decide)]
  exact congrArg (fun x => some [dimStyle x, "l4", "l5"]) hmark

/-- C18: for the attach action on a valid selected session, tmux is first asked
whether the sanitized identifier exists; create is called if and only if it does
not; the attach command is returned if and only if the session existed or create
succeeded; when create fails no command is returned, the status message carries
the error and the model is otherwise unchanged but for the error field, so the
cursor, the mode and the store stay as they are. -/
theorem attach_creates_when_missing (env : Env) (m : Model) (g : Group) (s : Session)
    (h0 : 0 ≤ m.groupIdx) (hg : m.store.Groups[m.groupIdx.toNat]? = some g)
    (hs0 : 0 ≤ m.sessionIdx) (hs : g.Sessions[m.sessionIdx.toNat]? = some s) :
    ∃ o, m.attachSession env = some o ∧
      o.calls.head? = some (.SessionExists (SanitizeName g.Name s.Name)) ∧
      ((∃ name workdir sid, Call.NewSession name workdir sid ∈ o.calls) ↔
        env.SessionExists (SanitizeName g.Name s.Name) = false) ∧
      (∀ name workdir sid, Call.NewSession name workdir sid ∈ o.calls →
        name = SanitizeName g.Name s.Name ∧ workdir = expandPath env s.Path ∧
          sid = s.SessionID) ∧
      (o.cmd = .ExecProcess (SanitizeName g.Name s.Name) ↔
        (env.SessionExists (SanitizeName g.Name s.Name) = true ∨
          env.NewSession (SanitizeName g.Name s.Name) (expandPath env s.Path) s.SessionID
            = none)) ∧
      (o.cmd = .ExecProcess (SanitizeName g.Name s.Name) ∨ o.cmd = .nil) ∧
      (o.cmd = .ExecProcess (SanitizeName g.Name s.Name) → o.model = m) ∧
      (∀ e, env.SessionExists (SanitizeName g.Name s.Name) = false →
        env.NewSession (SanitizeName g.Name s.Name) (expandPath env s.Path) s.SessionID
          = some e →
        o.cmd = .nil ∧ o.model = { m with statusMsg := "Error: " ++ e, err := some e }) := by
  have hlt := lt_length_of_getElem? _ _ _ hg
  have hlt2 := lt_length_of_getElem? _ _ _ hs
  have hgs := Sessions_eq_of_getElem? _ _ _ h0 hg
  have hig : index m.store.Groups m.groupIdx = some g := (index_some_iff _ _ _).2 ⟨h0, hg⟩
  have his : index g.Sessions m.sessionIdx = some s := (index_some_iff _ _ _).2 ⟨hs0, hs⟩
  unfold Model.attachSession
  simp only [hgs]
  rw [if_neg (by omega)]
  simp only [his, hig]
  cases hex : env.SessionExists (SanitizeName g.Name s.Name)
  · cases hnew : env.NewSession (SanitizeName g.Name s.Name) (expandPath env s.Path) s.SessionID
    · simp
    · simp
  · simp

/-- A witness of C18: the attach action on the session api of the example, with
a tmux that does not know the session and fails to create it. -/
theorem attach_creates_when_missing_witness :
    ∃ o, demoPreview.attachSession demoFailEnv = some o ∧
      o.calls = [.SessionExists "claude_Work_api",
                 .NewSession "claude_Work_api" "/tmp/x" "abc123"] ∧
      o.cmd = .nil ∧
      o.model = { demoPreview with
                    statusMsg := "Error: tmux new-session failed: no server: exit status 1",
                    err := some "tmux new-session failed: no server: exit status 1" } := by
  obtain ⟨o, h1, _, _, _, _, _, _, h8⟩ :=
    attach_creates_when_missing demoFailEnv demoPreview
      { ID := "g1", Name := "Work", CreatedAt := 1, Sessions :=
        [{ ID := "s1", Name := "api", SessionID := "abc123", Path := "/tmp/x", CreatedAt := 2 },
         { ID := "s2", Name := "web", SessionID := "def456", Path := "~/web", CreatedAt := 3 }] }
      { ID := "s1", Name := "api", SessionID := "abc123", Path := "/tmp/x", CreatedAt := 2 }
      (by decide) rfl (by decide) rfl
  have h9 := h8 "tmux new-session failed: no server: exit status 1" rfl rfl
  have h10 : demoPreview.attachSession demoFailEnv =
      some ⟨{ demoPreview with
                statusMsg := "Error: tmux new-session failed: no server: exit status 1",
                err := some "tmux new-session failed: no server: exit status 1" }, .nil,
        [.SessionExists "claude_Work_api",
         .NewSession "claude_Work_api" "/tmp/x" "abc123"]⟩ := rfl
  rw [h10] at h1
  cases h1
  exact ⟨_, h10, rfl, rfl, rfl⟩

/-- C19 (the code at the failing input): after the attach action has failed to
create the session, a second attach that succeeds and the return from tmux set
the status message to `Returned from tmux session`, yet the status line of the
view still shows the launch error, because the error field set by the failed
attach is read first and has not been cleared. -/
theorem launch_error_masks_later_status :
    ∃ o1 o2 o3,
      demoPreview.Update demoFailEnv (.KeyMsg (namedKey KeyEnter)) = some o1 ∧
      o1.model.statusMsg = "Error: tmux new-session failed: no server: exit status 1" ∧
      o1.model.Update demoEnv (.KeyMsg (namedKey KeyEnter)) = some o2 ∧
      o2.cmd = .ExecProcess "claude_Work_api" ∧
      o2.model.Update demoEnv (.tmuxExitMsg none) = some o3 ∧
      o3.model.statusMsg = "Returned from tmux session" ∧
      ∀ errorStyle statusBarStyle : String → String,
        o3.model.statusLine errorStyle statusBarStyle =
          errorStyle "✗ tmux new-session failed: no server: exit status 1" :=
  ⟨_, _, _, rfl, rfl, rfl, rfl, rfl, rfl, fun _ _ => rfl⟩

theorem saveErr_isSome (env : Env) (m : Model) (h : m.err.isSome = true) :
    (saveErr env m).isSome = true := by
  unfold saveErr
  split
  · rfl
  · exact h

theorem attachSession_err (env : Env) (m : Model) (o : Outcome) (he : m.err.isSome = true)
    (h : m.attachSession env = some o) : o.model.err.isSome = true := by
  rcases attachSession_model env m o h with h1 | ⟨e, h1⟩ <;> rw [h1]
  · exact he
  · rfl

theorem moveTree_map_err (m : Model) (d : Int) (o : Outcome) (he : m.err.isSome = true)
    (h : ((m.moveTree d).map fun m1 => (⟨m1, .nil, []⟩ : Outcome)) = some o) :
    o.model.err.isSome = true := by
  obtain ⟨_, _, gi, si, hm⟩ := moveTree_map_model m d o h
  rw [hm]
  exact he

theorem updateNormal_err (env : Env) (m : Model) (msg : KeyMsg) (o : Outcome)
    (he : m.err.isSome = true) (h : m.updateNormal env msg = some o) :
    o.model.err.isSome = true := by
  unfold Model.updateNormal at h
  repeat' split at h
  all_goals first
    | (cases h; exact he)
    | exact moveTree_map_err m _ o he h
    | skip
  · unfold Model.normalEnter at h
    repeat' first | split at h | dsimp only at h
    all_goals first
      | (cases h; exact he)
      | exact attachSession_err env m o he h
  · unfold Model.normalInteract at h
    repeat' first | split at h | dsimp only at h
    all_goals first
      | (cases h; exact he)
      | cases h
  · unfold Model.normalNewSess at h
    split at h <;> (cases h; exact he)
  · unfold Model.normalDelete at h
    repeat' split at h
    all_goals (cases h; exact he)
  · unfold Model.normalRename at h
    repeat' first | split at h | dsimp only at h
    all_goals first
      | (cases h; exact he)
      | cases h

theorem submitDialog_err (env : Env) (m : Model) (o : Outcome) (he : m.err.isSome = true)
    (h : m.submitDialog env = some o) : o.model.err.isSome = true := by
  unfold Model.submitDialog at h
  repeat' first | split at h | dsimp only at h
  all_goals first
    | (cases h; exact he)
    | (cases h; exact saveErr_isSome env m he)
    | cases h

theorem confirmDelete_err (m : Model) (o : Outcome) (he : m.err.isSome = true)
    (h : m.confirmDelete = some o) : o.model.err.isSome = true := by
  unfold Model.confirmDelete at h
  repeat' first | split at h | dsimp only at h
  all_goals first
    | (cases h; exact he)
    | cases h

theorem cycleFocus_err (m : Model) (next : Int) (o : Outcome) (he : m.err.isSome = true)
    (h : m.cycleFocus next = some o) : o.model.err.isSome = true := by
  obtain ⟨i, hi⟩ := cycleFocus_model m next o h
  rw [hi]
  exact he

theorem updateDialog_err (env : Env) (m : Model) (msg : KeyMsg) (o : Outcome)
    (he : m.err.isSome = true) (h : m.updateDialog env msg = some o) :
    o.model.err.isSome = true := by
  unfold Model.updateDialog at h
  repeat' first | split at h | dsimp only at h
  all_goals first
    | (cases h; exact he)
    | cases h
    | exact cycleFocus_err m _ o he h
    | exact submitDialog_err env m o he h
    | exact confirmDelete_err m o he h

theorem updateInteract_err (m : Model) (msg : KeyMsg) (o : Outcome)
    (he : m.err.isSome = true) (h : m.updateInteract msg = some o) :
    o.model.err.isSome = true := by
  unfold Model.updateInteract at h
  repeat' first | split at h | dsimp only at h
  all_goals first
    | (cases h; exact he)
    | cases h

/-- No event clears the error field: once an error is set, every later state
has one, so the status line of the view keeps showing an error and never the
status message. -/
theorem Update_err_sticky (env : Env) (m : Model) (msg : Msg) (o : Outcome)
    (he : m.err.isSome = true) (h : m.Update env msg = some o) :
    o.model.err.isSome = true ∧
      ∀ errorStyle statusBarStyle : String → String,
        ∃ e, o.model.statusLine errorStyle statusBarStyle = errorStyle ("✗ " ++ e) := by
  have h1 : o.model.err.isSome = true := by
    unfold Model.Update at h
    repeat' first | split at h | dsimp only at h
    all_goals first
      | (cases h; exact he)
      | exact updateDialog_err env m _ o he h
      | exact updateInteract_err m _ o he h
      | exact updateNormal_err env m _ o he h
  refine ⟨h1, fun es ss => ?_⟩
  unfold Model.statusLine
  cases herr : o.model.err with
  | none => rw [herr] at h1; cases h1
  | some e => exact ⟨e, rfl⟩

/-- What the code does in the situation of C17, for any content: when there are
more lines than available rows, the result is the marker counting the lines
before the slice, followed by the slice of the last rows without its first
line. -/
theorem previewLines_overflow (dimStyle : String → String) (content : String)
    (maxRows headerHeight : Int) (lines : List String) (k : Int)
    (hc : content ≠ "")
    (hl : lines = (Split (TrimRight content.data '\n') '\n').map String.mk)
    (hk : k = if maxRows - headerHeight - 1 < 3 then 3 else maxRows - headerHeight - 1)
    (hn : (lines.length : Int) > k) :
    previewLines dimStyle content maxRows headerHeight =
      some (dimStyle ("  ↑ " ++ toString ((lines.length : Int) - k) ++ " more lines above") ::
        lines.drop (((lines.length : Int) - k).toNat + 1)) := by
  have hk3 : 3 ≤ k := by
    rw [hk]
    split <;> omega
  have hlt : ((lines.length : Int) - k).toNat < lines.length := by omega
  unfold previewLines
  simp only
  rw [if_neg hc, ← hl, ← hk, if_pos hn, List.drop_eq_getElem_cons hlt]

/-! ## Theorems: identifiers under renaming, collisions -/

theorem legalChar_iff (c : Char) : legalChar c = true ↔ safeNameRe c = false := by
  unfold legalChar safeNameRe
  cases ('a' ≤ c && c ≤ 'z' || 'A' ≤ c && c ≤ 'Z' || '0' ≤ c && c ≤ '9' || c == '_' || c == '-')
    <;> simp

theorem ReplaceAllString_of_safe (l : List Char) (h : ∀ c ∈ l, safeNameRe c = false) :
    ReplaceAllString l '_' = l := by
  unfold ReplaceAllString
  induction l with
  | nil => rfl
  | cons a l ih =>
    have ha := h a (List.mem_cons_self _ _)
    rw [List.map_cons, ih (fun c hc => h c (List.mem_cons_of_mem _ hc))]
    simp [ha]

/-- On a group name and a session name made of legal characters, with a session
name that is not empty and does not end in an underscore, and a formatted name
of at most 64 characters, SanitizeName is the formatted name itself. -/
theorem SanitizeName_of_legal (g s : String)
    (hg : ∀ c ∈ g.data, legalChar c = true) (hs : ∀ c ∈ s.data, legalChar c = true)
    (hs0 : s ≠ "") (hlast : s.data.getLast? ≠ some '_')
    (hlen : 8 + g.length + s.length ≤ 64) :
    SanitizeName g s = "claude_" ++ g ++ "_" ++ s := by
  have hdata := sprintf_data g s
  have hsafe : ∀ c ∈ ("claude_" ++ g ++ "_" ++ s).data, safeNameRe c = false := by
    intro c hc
    rw [hdata] at hc
    simp only [List.mem_cons, List.mem_append] at hc
    rcases hc with rfl | rfl | rfl | rfl | rfl | rfl | rfl | hc | rfl | hc
    all_goals first
      | decide
      | exact (legalChar_iff c).1 (hg c hc)
      | exact (legalChar_iff c).1 (hs c hc)
  have hsd : s.data ≠ [] := by
    intro h
    apply hs0
    exact String.ext h
  obtain ⟨init, z, hz⟩ : ∃ init z, s.data = init ++ [z] := by
    rcases List.eq_nil_or_concat s.data with h | ⟨init, z, h⟩
    · exact absurd h hsd
    · exact ⟨init, z, by rw [h, List.concat_eq_append]⟩
  have hzne : (z == '_') = false := by
    rw [beq_eq_false_iff_ne]
    intro hz2
    apply hlast
    rw [hz, hz2]
    simp
  have htrim : Trim ("claude_" ++ g ++ "_" ++ s).data '_' = ("claude_" ++ g ++ "_" ++ s).data := by
    unfold Trim
    rw [hdata, List.dropWhile_cons_of_neg (by decide), hz]
    have e : 'c' :: 'l' :: 'a' :: 'u' :: 'd' :: 'e' :: '_' :: (g.data ++ '_' :: (init ++ [z]))
        = ('c' :: 'l' :: 'a' :: 'u' :: 'd' :: 'e' :: '_' :: (g.data ++ '_' :: init)) ++ [z] := by
      simp
    rw [e, List.rdropWhile_concat_neg _ _ _ (by simp [hzne])]
  have hl : ("claude_" ++ g ++ "_" ++ s).data.length ≤ 64 := by
    rw [hdata]
    simp only [List.length_cons, List.length_append]
    simp only [String.length] at hlen
    omega
  unfold SanitizeName
  simp only
  rw [ReplaceAllString_of_safe _ hsafe, htrim, if_neg (by omega)]

theorem formatted_injective (g g1 s : String)
    (h : "claude_" ++ g ++ "_" ++ s = "claude_" ++ g1 ++ "_" ++ s) : g = g1 := by
  have hd := congrArg String.data h
  rw [sprintf_data, sprintf_data] at hd
  simp only [List.cons.injEq, true_and] at hd
  exact String.ext (List.append_cancel_right hd)



theorem renameGroup_groups (s st : Store) (gi : Int) (grp : Group) (name : String)
    (h0 : 0 ≤ gi) (hg : s.Groups[gi.toNat]? = some grp)
    (h : renameGroup s gi name = some st) :
    st.Groups[gi.toNat]? = some { grp with Name := name } := by
  have hlt := lt_length_of_getElem? _ _ _ hg
  have hi : index s.Data.Groups gi = some grp := (index_some_iff _ _ _).2 ⟨h0, hg⟩
  unfold renameGroup at h
  simp only [hi] at h
  cases h
  simp only [Store.Groups]
  rw [List.getElem?_set_self]
  exact hlt

theorem activeCount_single (m : Model) (gi : Int) (grp : Group) (x : Session)
    (h0 : 0 ≤ gi) (hg : m.store.Groups[gi.toNat]? = some grp) (hx : grp.Sessions = [x]) :
    m.activeCountForGroup gi =
      some (if m.tmuxSessions (SanitizeName grp.Name x.Name) then 1 else 0) := by
  have hlt := lt_length_of_getElem? _ _ _ hg
  have hi : index m.store.Groups gi = some grp := (index_some_iff _ _ _).2 ⟨h0, hg⟩
  unfold Model.activeCountForGroup
  dsimp only
  rw [if_neg (by omega)]
  simp only [hi, hx, List.foldl_cons, List.foldl_nil, zero_add]

/-- C21: for group names `g` and `g1` that differ and a session name `s`, all
made of characters of `[A-Za-z0-9_-]`, with `s` not empty and not ending in an
underscore and both formatted names of at most 64 characters, the two sanitized
identifiers differ; hence, when the live set holds the identifier under `g` but
not the one under `g1`, the session is found live before the group is renamed
and is not found live afterwards, neither by selectedTmuxName nor by the count
of activeCountForGroup. -/
theorem rename_group_changes_identifier (g g1 s : String) (hne : g ≠ g1)
    (hg : ∀ c ∈ g.data, legalChar c = true) (hg1 : ∀ c ∈ g1.data, legalChar c = true)
    (hs : ∀ c ∈ s.data, legalChar c = true)
    (hs0 : s ≠ "") (hlast : s.data.getLast? ≠ some '_')
    (hlen : 8 + g.length + s.length ≤ 64) (hlen1 : 8 + g1.length + s.length ≤ 64) :
    SanitizeName g s ≠ SanitizeName g1 s ∧
    ∀ (m : Model) (gi si : Int) (grp : Group) (x : Session) (st : Store),
      0 ≤ gi → m.store.Groups[gi.toNat]? = some grp → grp.Name = g →
      0 ≤ si → grp.Sessions[si.toNat]? = some x → x.Name = s →
      m.tmuxSessions (SanitizeName g s) = true → m.tmuxSessions (SanitizeName g1 s) = false →
      renameGroup m.store gi g1 = some st →
      (∃ tn, Model.selectedTmuxName { m with groupIdx := gi, sessionIdx := si } = some tn ∧
        m.tmuxSessions tn = true) ∧
      (∃ tn, Model.selectedTmuxName { m with store := st, groupIdx := gi, sessionIdx := si }
          = some tn ∧ m.tmuxSessions tn = false) ∧
      (grp.Sessions = [x] →
        m.activeCountForGroup gi = some 1 ∧
        Model.activeCountForGroup { m with store := st } gi = some 0) := by
  constructor
  · rw [SanitizeName_of_legal g s hg hs hs0 hlast hlen,
      SanitizeName_of_legal g1 s hg1 hs hs0 hlast hlen1]
    exact fun h => hne (formatted_injective g g1 s h)
  · intro m gi si grp x st h0 hgrp hname hs0 hx hxname hlive hdead hren
    have hst := renameGroup_groups m.store st gi grp g1 h0 hgrp hren
    refine ⟨⟨SanitizeName g s, ?_, hlive⟩, ⟨SanitizeName g1 s, ?_, hdead⟩, fun hsingle => ⟨?_, ?_⟩⟩
    · have := selectedTmuxName_of_session { m with groupIdx := gi, sessionIdx := si } grp x
        h0 hgrp hs0 hx
      rw [hname, hxname] at this
      exact this
    · have := selectedTmuxName_of_session
        { m with store := st, groupIdx := gi, sessionIdx := si } { grp with Name := g1 } x
        h0 hst hs0 hx
      rw [hxname] at this
      exact this
    · rw [activeCount_single m gi grp x h0 hgrp hsingle, hname, hxname, hlive]
      rfl
    · rw [activeCount_single { m with store := st } gi { grp with Name := g1 } x h0 hst hsingle,
        hxname]
      simp only
      rw [hdead]
      rfl

/-- A witness of C21: the group Work renamed to Projects, with the session
api. -/
theorem rename_group_changes_identifier_witness :
    SanitizeName "Work" "api" ≠ SanitizeName "Projects" "api" :=
  (rename_group_changes_identifier "Work" "Projects" "api" (by decide) (by decide) (by decide)
    (by decide) (by decide) (by decide) (by decide) (by decide)).1

/-- C22: SanitizeName is not injective.  Two pairs that differ only in an illegal
character have the same identifier, and so have two pairs of legal characters
that differ in where the delimiter falls; AddSession adds a session whatever its
name: in the example the session `c` is added to the group `a_b` although the
session `c` of the group `a b` has the same identifier. -/
theorem SanitizeName_not_injective :
    (("a b", "c") : String × String) ≠ ("a_b", "c") ∧
    SanitizeName "a b" "c" = SanitizeName "a_b" "c" ∧
    (("a_b", "c") : String × String) ≠ ("a", "b_c") ∧
    SanitizeName "a_b" "c" = SanitizeName "a" "b_c" ∧
    ¬ Function.Injective (fun p : String × String => SanitizeName p.1 p.2) ∧
    (collStore.AddSession 1 "c" "t2" "/q" "id2" 5).2 = 0 ∧
    ((collStore.AddSession 1 "c" "t2" "/q" "id2" 5).1.Groups.map
        fun grp => (grp.Name, grp.Sessions.map fun x => (x.Name, SanitizeName grp.Name x.Name)))
      = [("a b", [("c", "claude_a_b_c")]), ("a_b", [("c", "claude_a_b_c")])] ∧
    ∀ (st : Store) (gi : Int) (grp : Group) (name sid path id : String) (now : Nat),
      0 ≤ gi → st.Groups[gi.toNat]? = some grp →
      (st.AddSession gi name sid path id now).2 = (grp.Sessions.length : Int) ∧
      (st.AddSession gi name sid path id now).1.Groups =
        st.Groups.set gi.toNat { grp with Sessions := grp.Sessions ++
          [{ ID := id, Name := name, SessionID := sid, Path := path, CreatedAt := now }] } := by
  refine ⟨by decide, by decide, by decide, by decide, ?_, by decide, by decide, ?_⟩
  · intro hinj
    have h : (("a b", "c") : String × String) = ("a_b", "c") :=
      hinj (by decide : SanitizeName "a b" "c" = SanitizeName "a_b" "c")
    exact absurd h (by decide)
  · intro st gi grp name sid path id now h0 hg
    exact ⟨AddSession_snd st gi grp name sid path id now h0 hg,
      AddSession_fst st gi grp name sid path id now h0 hg⟩

/-- A witness of C22: the general part at the example store, where the session
`c` lands at position 0 of the group `a_b`. -/
theorem SanitizeName_not_injective_witness :
    (collStore.AddSession 1 "c" "t2" "/q" "id2" 5).2 = ((([] : List Session).length : Nat) : Int) :=
  (SanitizeName_not_injective.2.2.2.2.2.2.2 collStore 1
    { ID := "g2", Name := "a_b", CreatedAt := 3, Sessions := [] } "c" "t2" "/q" "id2" 5
    (by decide) (by decide)).1

/-! ## Theorems: the focus index and the expand-state after a dialog -/

theorem run_reachable (store : Store) (env : Env) (msgs : List Msg) (m m1 : Model)
    (hr : Reachable store m) (h : run env m msgs = some m1) : Reachable store m1 := by
  induction msgs generalizing m with
  | nil =>
    simp only [run, Option.some.injEq] at h
    rw [← h]
    exact hr
  | cons msg rest ih =>
    unfold run at h
    split at h
    · rename_i o ho
      exact ih o.model (Reachable.step env msg o hr ho) h
    · cases h

theorem typed_key_dropped (env : Env) (m : Model) (hd : m.dialog = .dialogRename)
    (hidx : ¬ m.inputIdx < m.inputs.length) :
    m.Update env (.KeyMsg (runeKey 'x')) = some ⟨m, .nil, []⟩ := by
  have h1 : ¬ Matches (runeKey 'x') keys.Escape = true := by decide
  have h2 : ¬ (runeKey 'x').Typ = KeyTab := by decide
  have h3 : ¬ (runeKey 'x').Typ = KeyShiftTab := by decide
  have h4 : ¬ (runeKey 'x').Typ = KeyEnter := by decide
  have h5 : ¬ m.dialog = .dialogDeleteConfirm := by rw [hd]; decide
  rw [Update_key_dialog env m _ (by rw [hd]; decide)]
  unfold Model.updateDialog
  rw [if_neg h1, if_neg h2, if_neg h3, if_neg h4, if_neg h5, if_neg hidx]

/-- C23 (the code at the failing input): the keys `n`, Tab, Esc, `r` lead from
the initial state of the example to a reachable state in which the rename dialog
is open with one field and the focus index 1, left over from the new-session
dialog; the focus index is not a field index, and a typed character changes
nothing: it is delivered to no field. -/
theorem rename_keeps_stale_focus_index :
    ∃ m, Reachable demoStore m ∧
      run demoEnv (New demoStore)
        [.KeyMsg (runeKey 'n'), .KeyMsg (namedKey KeyTab), .KeyMsg (namedKey KeyEsc),
         .KeyMsg (runeKey 'r')] = some m ∧
      m.dialog = .dialogRename ∧ m.inputs.length = 1 ∧ m.inputIdx = 1 ∧
      ¬ (0 ≤ m.inputIdx ∧ m.inputIdx < m.inputs.length) ∧
      m.Update demoEnv (.KeyMsg (runeKey 'x')) = some ⟨m, .nil, []⟩ := by
  have hf : (run demoEnv (New demoStore)
      [.KeyMsg (runeKey 'n'), .KeyMsg (namedKey KeyTab), .KeyMsg (namedKey KeyEsc),
       .KeyMsg (runeKey 'r')]).map (fun m => (m.dialog, m.inputs.length, m.inputIdx))
      = some (.dialogRename, 1, 1) := by decide
  obtain ⟨m, hm, hv⟩ := Option.map_eq_some'.1 hf
  simp only [Prod.mk.injEq] at hv
  obtain ⟨hd, hl, hi⟩ := hv
  have hidx : ¬ m.inputIdx < m.inputs.length := by
    rw [hl, hi]
    decide
  exact ⟨m, run_reachable demoStore demoEnv _ _ m Reachable.init hm, hm, hd, hl, hi,
    fun h => hidx h.2, typed_key_dropped demoEnv m hd hidx⟩

theorem confirmDelete_expanded (m : Model) (o : Outcome) (h : m.confirmDelete = some o) :
    o.model.expanded = m.expanded := by
  unfold Model.confirmDelete at h
  repeat' first | split at h | dsimp only at h
  all_goals first
    | (cases h; rfl)
    | cases h

/-- Confirming a deletion leaves the
expand-state, a map from group index to flag, exactly as it was, so a surviving
group that moves from index `j + 1` to index `j` takes over the flag stored for
index `j`. -/
theorem delete_keeps_expand_map (env : Env) (m : Model) (msg : KeyMsg) (o : Outcome)
    (hd : m.dialog = .dialogDeleteConfirm) (hy : msg.String = "y")
    (h : m.Update env (.KeyMsg msg) = some o) : o.model.expanded = m.expanded := by
  rw [Update_key_dialog env m msg (by rw [hd]; decide), updateDialog_y env m msg hd hy] at h
  exact confirmDelete_expanded m o h

/-- C24 (the code at the failing input): in the store with the groups Inbox and
Work, the keys `j`, Enter, `k`, `d` collapse Work and open the delete-confirm
dialog on Inbox; the tree then shows the two headers only.  After `y` the
surviving group Work sits at index 0 and is expanded, because the flag of index
0 is the one Inbox had: the tree now shows the two sessions of Work. -/
theorem delete_group_shifts_expand_state :
    ∃ m o, Reachable demoStore2 m ∧
      run demoEnv (New demoStore2)
        [.KeyMsg (runeKey 'j'), .KeyMsg (namedKey KeyEnter), .KeyMsg (runeKey 'k'),
         .KeyMsg (runeKey 'd')] = some m ∧
      m.dialog = .dialogDeleteConfirm ∧ m.deleteTarget = "group" ∧ m.groupIdx = 0 ∧
      m.store.Groups.map (fun g => g.Name) = ["Inbox", "Work"] ∧
      m.expanded 1 = false ∧
      m.buildTree = [⟨0, -1⟩, ⟨1, -1⟩] ∧
      m.Update demoEnv (.KeyMsg (runeKey 'y')) = some o ∧
      o.model.store.Groups.map (fun g => g.Name) = ["Work"] ∧
      o.model.expanded 0 = true ∧
      o.model.buildTree = [⟨0, -1⟩, ⟨0, 0⟩, ⟨0, 1⟩] := by
  have hf : (run demoEnv (New demoStore2)
      [.KeyMsg (runeKey 'j'), .KeyMsg (namedKey KeyEnter), .KeyMsg (runeKey 'k'),
       .KeyMsg (runeKey 'd')]).map
        (fun m => (m.dialog, m.deleteTarget, m.groupIdx))
      = some (.dialogDeleteConfirm, "group", 0) := by
    decide
  have hf1 : (run demoEnv (New demoStore2)
      [.KeyMsg (runeKey 'j'), .KeyMsg (namedKey KeyEnter), .KeyMsg (runeKey 'k'),
       .KeyMsg (runeKey 'd')]).map
        (fun m => (m.store.Groups.map (fun g => g.Name), m.expanded 1, m.buildTree))
      = some (["Inbox", "Work"], false, [⟨0, -1⟩, ⟨1, -1⟩]) := by
    decide
  have hf2 : ((run demoEnv (New demoStore2)
      [.KeyMsg (runeKey 'j'), .KeyMsg (namedKey KeyEnter), .KeyMsg (runeKey 'k'),
       .KeyMsg (runeKey 'd')]).bind fun m => m.Update demoEnv (.KeyMsg (runeKey 'y'))).map
        (fun o => (o.model.store.Groups.map (fun g => g.Name), o.model.expanded 0,
          o.model.buildTree))
      = some (["Work"], true, [⟨0, -1⟩, ⟨0, 0⟩, ⟨0, 1⟩]) := by
    decide
  obtain ⟨m, hm, hv⟩ := Option.map_eq_some'.1 hf
  simp only [Prod.mk.injEq] at hv
  obtain ⟨h1, h2, h3⟩ := hv
  rw [hm, Option.map_some', Option.some.injEq, Prod.mk.injEq, Prod.mk.injEq] at hf1
  obtain ⟨h4, h5, h6⟩ := hf1
  rw [hm, Option.some_bind] at hf2
  obtain ⟨o, ho, hw⟩ := Option.map_eq_some'.1 hf2
  simp only [Prod.mk.injEq] at hw
  obtain ⟨h8, h9, h10⟩ := hw
  exact ⟨m, o, run_reachable demoStore2 demoEnv _ _ m Reachable.init hm, hm, h1, h2, h3, h4,
    h5, h6, ho, h8, h9, h10⟩

end ccdeck
